import Mathlib

/-!
The segment consumer `PrimeFinder` of primesieve

A shallow embedding of `src/primesieve/PrimeFinder.cpp` (callback, count and
print of primes and prime k-tuplets of one sieved segment) and of the
`store` callback of `examples/store_primes_in_array.cpp`.

Conventions of the embedding.

* `uint64_t` values are `Nat` reduced with `u64` (modulo `2^64`), `uint_t`
  values are `Nat` reduced with `u32` (modulo `2^32`).
* `const byte_t* sieve` is the list of the bytes that can be read through the
  pointer; `sieveSize` is passed separately, as in the source.  A read at an
  index outside a list, and a loop that exhausts its iteration bound, make the
  function return `none` (respectively `Run.fault`).
* `std::cout` is a `String` that is appended to.
* A callback is a function on an explicit callback state which either
  returns normally or throws (`Signal.stop`).
* What the translation unit takes from headers that are not part of the
  sources (the flag set of `PrimeSieve`, `NUMBERS_PER_BYTE`, `getNextPrime`,
  `littleendian_cast`, `popcount`, `ceilDiv`) is modelled from the
  specification and marked as such; the sentinel `END` is a parameter.
-/

namespace primesieve

/-! ## Machine integers -/

/-- Reduction of a natural number to the range of `uint_t` (32 bits). -/
def u32 (x : Nat) : Nat := x % 2 ^ 32

/-- Reduction of a natural number to the range of `uint64_t`. -/
def u64 (x : Nat) : Nat := x % 2 ^ 64

/-! ## The facade `PrimeSieve` (flags and counters) -/

/-- Modelled from the spec: the facade `PrimeSieve` (its header is not among
the sources) as far as `PrimeFinder` uses it: the interval, the segment size
and the set of requested outputs, one bit of `flags_` per output. -/
structure PrimeSieve where
  start_ : Nat
  stop_ : Nat
  sieveSize_ : Nat
  flags_ : Nat
  deriving DecidableEq, Repr

namespace PrimeSieve

/-- Modelled from the spec: output flag "count primes". -/
def COUNT_PRIMES : Nat := 1 <<< 0
/-- Modelled from the spec: output flag "count twins". -/
def COUNT_TWINS : Nat := 1 <<< 1
/-- Modelled from the spec: output flag "count triplets". -/
def COUNT_TRIPLETS : Nat := 1 <<< 2
/-- Modelled from the spec: output flag "count quadruplets". -/
def COUNT_QUADRUPLETS : Nat := 1 <<< 3
/-- Modelled from the spec: output flag "count quintuplets". -/
def COUNT_QUINTUPLETS : Nat := 1 <<< 4
/-- Modelled from the spec: output flag "count sextuplets". -/
def COUNT_SEXTUPLETS : Nat := 1 <<< 5
/-- Modelled from the spec: output flag "print primes". -/
def PRINT_PRIMES : Nat := 1 <<< 6
/-- Modelled from the spec: output flag "print twins". -/
def PRINT_TWINS : Nat := 1 <<< 7
/-- Modelled from the spec: output flag "print triplets". -/
def PRINT_TRIPLETS : Nat := 1 <<< 8
/-- Modelled from the spec: output flag "print quadruplets". -/
def PRINT_QUADRUPLETS : Nat := 1 <<< 9
/-- Modelled from the spec: output flag "print quintuplets". -/
def PRINT_QUINTUPLETS : Nat := 1 <<< 10
/-- Modelled from the spec: output flag "print sextuplets". -/
def PRINT_SEXTUPLETS : Nat := 1 <<< 11
/-- Modelled from the spec: output flag "report status". -/
def STATUS : Nat := 1 <<< 12
/-- Modelled from the spec: output flag "callback enabled". -/
def CALLBACK : Nat := 1 <<< 13

/-- Modelled from the spec: `isFlag(flag)`, the output `flag` is requested. -/
def isFlag (ps : PrimeSieve) (flag : Nat) : Bool :=
  ps.flags_ &&& flag == flag

/-- Modelled from the spec: `isFlag(first, last)`, some output of the
contiguous range of flags `first .. last` is requested. -/
def isFlagRange (ps : PrimeSieve) (first last : Nat) : Bool :=
  ps.flags_ &&& (last * 2 - first) != 0

/-- Modelled from the spec: `isCount(index)`, counting of kind `index`
(0 primes, 1 twins, ..., 5 sextuplets) is requested. -/
def isCount (ps : PrimeSieve) (index : Nat) : Bool :=
  ps.isFlag (COUNT_PRIMES <<< index)

/-- Modelled from the spec: `isPrint(index)`, printing of kind `index`
(0 primes, 1 twins, ..., 5 sextuplets) is requested. -/
def isPrint (ps : PrimeSieve) (index : Nat) : Bool :=
  ps.isFlag (PRINT_PRIMES <<< index)

/-- Modelled from the spec: `isCount()`, some count output is requested. -/
def isCountAny (ps : PrimeSieve) : Bool :=
  ps.isFlagRange COUNT_PRIMES COUNT_SEXTUPLETS

/-- Modelled from the spec: `isPrint()`, some print output is requested. -/
def isPrintAny (ps : PrimeSieve) : Bool :=
  ps.isFlagRange PRINT_PRIMES PRINT_SEXTUPLETS

/-- Modelled from the spec: `isStatus()`, progress notification is requested. -/
def isStatus (ps : PrimeSieve) : Bool :=
  ps.isFlag STATUS

/-- Modelled from the spec: `isCallback()`, a callback sink is attached. -/
def isCallback (ps : PrimeSieve) : Bool :=
  ps.isFlag CALLBACK

end PrimeSieve

/-! ## `PrimeFinder`: state, mask table, constructor -/

/-- The object state of `PrimeFinder`: the arguments handed to the base class
`SieveOfEratosthenes`, the facade `ps_`, the counters `counts_` (a reference to
the counters of the facade) and the lookup tables `kCounts_`. -/
structure PrimeFinder where
  soeStart : Nat
  soeStop : Nat
  soeSieveSize : Nat
  ps_ : PrimeSieve
  counts_ : List Nat
  kCounts_ : List (List Nat)
  deriving DecidableEq, Repr

/-- The table `kBitmasks_[6][5]`; rows with fewer than five initialisers are
zero-filled, as aggregate initialisation does.  `END` is the sentinel of
`PrimeFinder.hpp`, a parameter here. -/
def kBitmasks_ (END : Nat) : List (List Nat) :=
  [ [END, 0, 0, 0, 0],
    [0x06, 0x18, 0xc0, END, 0],
    [0x07, 0x0e, 0x1c, 0x38, END],
    [0x1e, END, 0, 0, 0],
    [0x1f, 0x3e, END, 0, 0],
    [0x3f, END, 0, 0, 0] ]

/-- The scan `for (b = kBitmasks_[i]; *b <= j; b++) if ((j & *b) == *b)
bitmaskCount++;` of `init_kCounts` over the entries of one row that are still
ahead of `b`; `none` when `b` leaves the row. -/
def countBitmasks : List Nat → Nat → Nat → Option Nat
  | [], _, _ => none
  | b :: bs, j, bitmaskCount =>
    if b ≤ j then
      countBitmasks bs j (if j &&& b = b then u32 (bitmaskCount + 1) else bitmaskCount)
    else some bitmaskCount

/-- The loop over `j` of `init_kCounts`: entry `j` of the table is the
result of the scan for `j`. -/
def fillTable (row : List Nat) : List Nat → Option (List Nat)
  | [] => some []
  | j :: js =>
    match countBitmasks row j 0, fillTable row js with
    | some c, some t => some (c :: t)
    | _, _ => none

/-- The body of the loop over `i` of `init_kCounts`. -/
def initKind (END : Nat) (pf : PrimeFinder) (i : Nat) : Option PrimeFinder :=
  if pf.ps_.isCount i then
    match (kBitmasks_ END)[i]? with
    | none => none
    | some row =>
      match fillTable row (List.range 256) with
      | none => none
      | some table =>
        if i < pf.kCounts_.length then
          some { pf with kCounts_ := pf.kCounts_.set i table }
        else none
  else some pf

/-- The loop `for (uint_t i = 1; i < counts_.size(); i++)` of `init_kCounts`
over the kinds that are left. -/
def initKinds (END : Nat) : List Nat → PrimeFinder → Option PrimeFinder
  | [], pf => some pf
  | i :: is, pf =>
    match initKind END pf i with
    | none => none
    | some pf1 => initKinds END is pf1

/-- The function `PrimeFinder::init_kCounts`. -/
def init_kCounts (END : Nat) (pf : PrimeFinder) : Option PrimeFinder :=
  initKinds END (List.range' 1 (pf.counts_.length - 1)) pf

/-- The constructor `PrimeFinder::PrimeFinder`; `counts` are the counters of
the facade (`ps.getCounts()`), the six tables start empty. -/
def PrimeFinder.new (END : Nat) (ps : PrimeSieve) (counts : List Nat) : Option PrimeFinder :=
  let pf : PrimeFinder :=
    { soeStart := max 7 ps.start_
      soeStop := ps.stop_
      soeSieveSize := ps.sieveSize_
      ps_ := ps
      counts_ := counts
      kCounts_ := List.replicate 6 [] }
  if ps.isFlagRange PrimeSieve.COUNT_TWINS PrimeSieve.COUNT_SEXTUPLETS then
    init_kCounts END pf
  else some pf

/-! ## Wheel decoding and word access (from headers outside the sources) -/

/-- Modelled from the spec: `NUMBERS_PER_BYTE`, the count of consecutive
integers one byte of the segment stands for (30 for the mod-30 wheel). -/
def NUMBERS_PER_BYTE : Nat := 30

/-- Modelled from the spec: the WheelTable offsets `bitValues_` of the mod-30
wheel; bit `b` of the byte with base `low` stands for `low + bitValues[b]`. -/
def bitValues : List Nat := [7, 11, 13, 17, 19, 23, 29, 31]

/-- Modelled from the spec: the search of the bit-scan primitive for the
lowest set bit of `bits`, from position `k` on, over at most `n` positions. -/
def bitScanFrom (bits : Nat) : Nat → Nat → Nat
  | 0, k => k
  | n + 1, k => if bits.testBit k then k else bitScanFrom bits n (k + 1)

/-- Modelled from the spec: the bit-scan primitive, the position of the
lowest set bit of a 64-bit word. -/
def bitScanForward (bits : Nat) : Nat := bitScanFrom bits 64 0

/-- Modelled from the spec: the WheelTable decode of a compound bit position
`p` of an 8-byte little-endian word with base `low`: byte `p / 8` of the word,
bit `p % 8` of that byte. -/
def bitValue (low p : Nat) : Nat :=
  u64 (low + (NUMBERS_PER_BYTE * (p / 8) + bitValues.getD (p % 8) 0))

/-- Modelled from the spec: `getNextPrime(&bits, low)` extracts the lowest
set bit of `bits`, decodes it relative to `low` and clears it; the result is
the decoded value and the new value of `bits`. -/
def getNextPrime (bits low : Nat) : Nat × Nat :=
  (bitValue low (bitScanForward bits), bits &&& (bits - 1))

/-- Modelled from the spec: the little-endian value of the `n` bytes of
`sieve` from index `i` on; `none` when a byte lies outside `sieve`. -/
def littleendianFrom (sieve : List Nat) : Nat → Nat → Option Nat
  | 0, _ => some 0
  | n + 1, i =>
    match sieve[i]?, littleendianFrom sieve n (i + 1) with
    | some b, some w => some (b + 256 * w)
    | _, _ => none

/-- Modelled from the spec: `littleendian_cast<uint64_t>(&sieve[i])`, the
8-byte little-endian word at byte index `i`. -/
def littleendian_cast (sieve : List Nat) (i : Nat) : Option Nat :=
  littleendianFrom sieve 8 i

/-- Modelled from the spec: `ceilDiv(a, b)`, the quotient rounded up. -/
def ceilDiv (a b : Nat) : Nat := (a + b - 1) / b

/-- Modelled from the spec: the population count of one 64-bit word. -/
def popcount64 (w : Nat) : Nat := ((List.range 64).filter (fun p => w.testBit p)).length

/-- Modelled from the spec: the population count of the 64-bit words with
word indices `k, k + 1, ..., k + n - 1` of `array`. -/
def popcountFrom (array : List Nat) : Nat → Nat → Option Nat
  | 0, _ => some 0
  | n + 1, k =>
    match littleendian_cast array (8 * k), popcountFrom array n (k + 1) with
    | some w, some c => some (popcount64 w + c)
    | _, _ => none

/-- Modelled from the spec: `popcount(array, size)`, the number of set bits of
the `size` 64-bit words that start at `array`. -/
def popcount (array : List Nat) (size : Nat) : Option Nat :=
  (popcountFrom array size 0).map u64

/-! ## Callbacks -/

/-- What an invocation of the callback does: it returns normally, or it
throws (as `store` throws `stop_primesieve`); `s` is the state of the callback
afterwards. -/
inductive Signal (σ : Type) where
  | next (s : σ)
  | stop (s : σ)
  deriving DecidableEq, Repr

/-- How a function that invokes the callback ends: it returns, the callback
threw and the exception leaves the function, or its behaviour is undefined (a
read outside the array, a loop bound exhausted). -/
inductive Run (σ : Type) where
  | done (s : σ)
  | stopped (s : σ)
  | fault
  deriving DecidableEq, Repr

/-- The conversion of an `unsigned int` value to `int` that
`primes.push_back(prime)` performs on a `std::vector<int>`: the 32-bit two's
complement value, so that values from `2^31` on become negative. -/
def toInt32 (x : Nat) : Int :=
  if x < 2 ^ 31 then (x : Int) else (x : Int) - 2 ^ 32

/-- The callback `void store(unsigned int prime)` of
`examples/store_primes_in_array.cpp`: it throws `stop_primesieve` when the
vector already holds `capacity` values (1000 in the example) and pushes the
value otherwise.  The state is the `std::vector<int> primes`.  The delivered
value arrives in the 32-bit parameter (`u32`) and is converted to `int` when
it is pushed (`toInt32`). -/
def store (capacity : Nat) (primes : List Int) (prime : Nat) : Signal (List Int) :=
  if primes.length = capacity then Signal.stop primes
  else Signal.next (primes ++ [toInt32 (u32 prime)])

/-! ## `callbackPrimes` -/

/-- The loop `while (bits != 0) { prime = getNextPrime(&bits, low);
cb.callback(prime); }` of `callbackPrimes`, at most `fuel` tests of the loop
condition. -/
def drainCallback {σ : Type} (cb : σ → Nat → Signal σ) (low : Nat) :
    Nat → Nat → σ → Run σ
  | 0, _, _ => Run.fault
  | fuel + 1, bits, s =>
    if bits ≠ 0 then
      match cb s (getNextPrime bits low).1 with
      | Signal.next s1 => drainCallback cb low fuel (getNextPrime bits low).2 s1
      | Signal.stop s1 => Run.stopped s1
    else Run.done s

/-- The loop `for (uint_t i = 0; i < sieveSize; i += 8, low +=
NUMBERS_PER_BYTE * 8)` of `callbackPrimes`, at most `fuel` tests of the loop
condition. -/
def callbackLoop {σ : Type} (cb : σ → Nat → Signal σ) (sieve : List Nat) (sieveSize : Nat) :
    Nat → Nat → Nat → σ → Run σ
  | 0, _, _, _ => Run.fault
  | fuel + 1, i, low, s =>
    if i < sieveSize then
      match littleendian_cast sieve i with
      | none => Run.fault
      | some bits =>
        match drainCallback cb low 65 bits s with
        | Run.done s1 =>
          callbackLoop cb sieve sieveSize fuel (u32 (i + 8)) (u64 (low + NUMBERS_PER_BYTE * 8)) s1
        | Run.stopped s1 => Run.stopped s1
        | Run.fault => Run.fault
    else Run.done s

/-- The function `PrimeFinder::callbackPrimes`; `low` is the value of
`getSegmentLow()`. -/
def callbackPrimes {σ : Type} (cb : σ → Nat → Signal σ) (low : Nat) (sieve : List Nat)
    (sieveSize : Nat) (s : σ) : Run σ :=
  callbackLoop cb sieve sieveSize (sieveSize + 1) 0 low s

/-! ## `count` -/

/-- The read `kCounts_[i][sieve[j]]`. -/
def kCountAt (pf : PrimeFinder) (i : Nat) (sieve : List Nat) (j : Nat) : Option Nat :=
  match sieve[j]?, pf.kCounts_[i]? with
  | some v, some table => table[v]?
  | _, _ => none

/-- The loop `for (uint_t j = 0; j < sieveSize; j += 4)` of `count` with its
four additions to `sum`, at most `fuel` tests of the loop condition. -/
def countLoop (pf : PrimeFinder) (i : Nat) (sieve : List Nat) (sieveSize : Nat) :
    Nat → Nat → Nat → Option Nat
  | 0, _, _ => none
  | fuel + 1, j, sum =>
    if j < sieveSize then
      match kCountAt pf i sieve (u32 (j + 0)), kCountAt pf i sieve (u32 (j + 1)),
          kCountAt pf i sieve (u32 (j + 2)), kCountAt pf i sieve (u32 (j + 3)) with
      | some c0, some c1, some c2, some c3 =>
        countLoop pf i sieve sieveSize fuel (u32 (j + 4))
          (u32 (u32 (u32 (u32 (sum + c0) + c1) + c2) + c3))
      | _, _, _, _ => none
    else some sum

/-- The statement `counts_[i] += x` on 64-bit counters. -/
def addCount (counts : List Nat) (i x : Nat) : Option (List Nat) :=
  match counts[i]? with
  | some c => some (counts.set i (u64 (c + x)))
  | none => none

/-- The body of the loop over `i` of `count`. -/
def countKind (sieve : List Nat) (sieveSize : Nat) (pf : PrimeFinder) (i : Nat) :
    Option PrimeFinder :=
  if pf.ps_.isCount i then
    match countLoop pf i sieve sieveSize (sieveSize + 1) 0 0 with
    | none => none
    | some sum =>
      match addCount pf.counts_ i sum with
      | none => none
      | some counts => some { pf with counts_ := counts }
  else some pf

/-- The loop `for (uint_t i = 1; i < counts_.size(); i++)` of `count` over the
kinds that are left. -/
def countKinds (sieve : List Nat) (sieveSize : Nat) : List Nat → PrimeFinder → Option PrimeFinder
  | [], pf => some pf
  | i :: is, pf =>
    match countKind sieve sieveSize pf i with
    | none => none
    | some pf1 => countKinds sieve sieveSize is pf1

/-- The first statement of `count`: the plain-prime counter. -/
def countPrimes (pf : PrimeFinder) (sieve : List Nat) (sieveSize : Nat) : Option PrimeFinder :=
  if pf.ps_.isFlag PrimeSieve.COUNT_PRIMES then
    match popcount sieve (ceilDiv sieveSize 8) with
    | none => none
    | some n =>
      match addCount pf.counts_ 0 n with
      | none => none
      | some counts => some { pf with counts_ := counts }
  else some pf

/-- The function `PrimeFinder::count`. -/
def count (pf : PrimeFinder) (sieve : List Nat) (sieveSize : Nat) : Option PrimeFinder :=
  match countPrimes pf sieve sieveSize with
  | none => none
  | some pf1 => countKinds sieve sieveSize (List.range' 1 (pf1.counts_.length - 1)) pf1

/-! ## `print` -/

/-- The loop `while (bits != 0) { prime = getNextPrime(&bits, low);
std::cout << prime << '\n'; }` of `print`, at most `fuel` tests of the loop
condition. -/
def drainPrint (low : Nat) : Nat → Nat → String → Option String
  | 0, _, _ => none
  | fuel + 1, bits, out =>
    if bits ≠ 0 then
      drainPrint low fuel (getNextPrime bits low).2
        (out ++ toString (getNextPrime bits low).1 ++ "\n")
    else some out

/-- The loop `for (uint_t i = 0; i < sieveSize; i += 8, low +=
NUMBERS_PER_BYTE * 8)` of the `PRINT_PRIMES` branch of `print`. -/
def printPrimesLoop (sieve : List Nat) (sieveSize : Nat) :
    Nat → Nat → Nat → String → Option String
  | 0, _, _, _ => none
  | fuel + 1, i, low, out =>
    if i < sieveSize then
      match littleendian_cast sieve i with
      | none => none
      | some bits =>
        match drainPrint low 65 bits out with
        | none => none
        | some out1 =>
          printPrimesLoop sieve sieveSize fuel (u32 (i + 8)) (u64 (low + NUMBERS_PER_BYTE * 8)) out1
    else some out

/-- The loop `while (bits != 0) { kTuplet << getNextPrime(&bits, low);
kTuplet << ((bits != 0) ? ", " : ")\n"); }` of `print` on the string stream
`kTuplet`. -/
def drainTuplet (low : Nat) : Nat → Nat → String → Option String
  | 0, _, _ => none
  | fuel + 1, bits, kTuplet =>
    if bits ≠ 0 then
      drainTuplet low fuel (getNextPrime bits low).2
        (kTuplet ++ toString (getNextPrime bits low).1 ++
          (if (getNextPrime bits low).2 ≠ 0 then ", " else ")\n"))
    else some kTuplet

/-- The scan `for (bitmask = kBitmasks_[i]; *bitmask <= sieve[j]; bitmask++)`
of `print` over the entries of one row that are still ahead of `bitmask`, with
the group written for each matching mask; `v` is `sieve[j]`. -/
def printBitmasks (low v : Nat) : List Nat → String → Option String
  | [], _ => none
  | bitmask :: bs, out =>
    if bitmask ≤ v then
      if v &&& bitmask = bitmask then
        match drainTuplet low 65 bitmask "(" with
        | none => none
        | some kTuplet => printBitmasks low v bs (out ++ kTuplet)
      else printBitmasks low v bs out
    else some out

/-- The loop `for (uint_t j = 0; j < sieveSize; j++, low += NUMBERS_PER_BYTE)`
of the k-tuplet branch of `print`. -/
def printTupletsLoop (row : List Nat) (sieve : List Nat) (sieveSize : Nat) :
    Nat → Nat → Nat → String → Option String
  | 0, _, _, _ => none
  | fuel + 1, j, low, out =>
    if j < sieveSize then
      match sieve[j]? with
      | none => none
      | some v =>
        match printBitmasks low v row out with
        | none => none
        | some out1 =>
          printTupletsLoop row sieve sieveSize fuel (u32 (j + 1)) (u64 (low + NUMBERS_PER_BYTE)) out1
    else some out

/-- The loop `for (; !ps_.isPrint(i); i++);` of `print`, at most `fuel` tests
of the loop condition. -/
def selectKind (ps : PrimeSieve) : Nat → Nat → Option Nat
  | 0, _ => none
  | fuel + 1, i => if ps.isPrint i then some i else selectKind ps fuel (u32 (i + 1))

/-- The `PRINT_PRIMES` branch of `print`. -/
def printPrimes (pf : PrimeFinder) (low : Nat) (sieve : List Nat) (sieveSize : Nat)
    (out : String) : Option String :=
  if pf.ps_.isFlag PrimeSieve.PRINT_PRIMES then
    printPrimesLoop sieve sieveSize (sieveSize + 1) 0 low out
  else some out

/-- The k-tuplet branch of `print`.  The search for the kind is cut off after
32 tests, where the shift `PRINT_PRIMES << i` of `isPrint` has left the range
of `int`. -/
def printTuplets (END : Nat) (pf : PrimeFinder) (low : Nat) (sieve : List Nat) (sieveSize : Nat)
    (out : String) : Option String :=
  if pf.ps_.isFlagRange PrimeSieve.PRINT_TWINS PrimeSieve.PRINT_SEXTUPLETS then
    match selectKind pf.ps_ 32 1 with
    | none => none
    | some i =>
      match (kBitmasks_ END)[i]? with
      | none => none
      | some row => printTupletsLoop row sieve sieveSize (sieveSize + 1) 0 low out
  else some out

/-- The function `PrimeFinder::print`; `low` is the value of
`getSegmentLow()`, `out` what has been written to `std::cout` so far. -/
def print (END : Nat) (pf : PrimeFinder) (low : Nat) (sieve : List Nat) (sieveSize : Nat)
    (out : String) : Option String :=
  match printPrimes pf low sieve sieveSize out with
  | none => none
  | some out1 => printTuplets END pf low sieve sieveSize out1

/-! ## `generatePrimes` -/

/-- What a call of `generatePrimes` can change: the object with its
counters, what has been written to `std::cout`, the state of the callback and
the progress notifications that the facade has received. -/
structure World (σ : Type) where
  finder : PrimeFinder
  cout : String
  cbState : σ
  status : List Nat

/-- Modelled from the spec: `updateStatus(numbersProcessed)` of the facade as
a progress notification that is recorded. -/
def recordStatus {σ : Type} (numbersProcessed : Nat) (w : World σ) : World σ :=
  { w with status := w.status ++ [numbersProcessed] }

/-- The function `PrimeFinder::generatePrimes`.  `cb` is the callback of
`ps_.getCallback()`, `updateStatus` the method of the facade (outside the
sources, a parameter that may act on the whole of the world), `low` the value
of `getSegmentLow()`.  An exception of the callback leaves the function at
once. -/
def generatePrimes {σ : Type} (END : Nat) (cb : σ → Nat → Signal σ)
    (updateStatus : Nat → World σ → World σ) (low : Nat) (sieve : List Nat) (sieveSize : Nat)
    (w : World σ) : Run (World σ) :=
  match (if w.finder.ps_.isCallback then callbackPrimes cb low sieve sieveSize w.cbState
      else Run.done w.cbState) with
  | Run.fault => Run.fault
  | Run.stopped s1 => Run.stopped { w with cbState := s1 }
  | Run.done s1 =>
    match (if w.finder.ps_.isCountAny then count w.finder sieve sieveSize
        else some w.finder) with
    | none => Run.fault
    | some pf1 =>
      match (if pf1.ps_.isPrintAny then print END pf1 low sieve sieveSize w.cout
          else some w.cout) with
      | none => Run.fault
      | some out1 =>
        if pf1.ps_.isStatus then
          Run.done (updateStatus (u32 (sieveSize * NUMBERS_PER_BYTE))
            { finder := pf1, cout := out1, cbState := s1, status := w.status })
        else Run.done { finder := pf1, cout := out1, cbState := s1, status := w.status }
/-! ## Notions used to state the properties -/

/-- The mask list of kind `i`: the entries of row `i` of `kBitmasks_` before
the sentinel `END`. -/
def maskList (END i : Nat) : List Nat :=
  (((kBitmasks_ END)[i]?).getD []).takeWhile (fun m => m != END)

/-- The number of masks `m` of a list with `(v & m) == m`. -/
def matchCount (masks : List Nat) (v : Nat) : Nat :=
  (masks.filter (fun m => v &&& m == m)).length

/-- The table that `init_kCounts` builds for kind `i`. -/
def tableOf (END i : Nat) : List Nat :=
  (List.range 256).map (fun v => matchCount (maskList END i) v)

/-- The positions of the set bits of a 64-bit word, ascending. -/
def setBits (w : Nat) : List Nat := (List.range 64).filter (fun p => w.testBit p)

/-- The invocations of a callback on the values of a list, in order, up to
the first invocation that throws. -/
def deliver {σ : Type} (cb : σ → Nat → Signal σ) : List Nat → σ → Run σ
  | [], s => Run.done s
  | p :: ps, s =>
    match cb s p with
    | Signal.next s1 => deliver cb ps s1
    | Signal.stop s1 => Run.stopped s1

/-- The values of the set bits of the byte `v` with byte index `j` in a
segment with base `low`, in the order of the bit positions: bit `b` stands for
`low + NUMBERS_PER_BYTE * j + bitValues[b]` (in 64-bit arithmetic). -/
def decodeByte (low j v : Nat) : List Nat :=
  ((List.range 8).filter (fun b => v.testBit b)).map
    (fun b => u64 (low + NUMBERS_PER_BYTE * j + bitValues.getD b 0))

/-- The values of the set bits of the bytes `0 .. n - 1` of `sieve`, byte by
byte. -/
def decodeBuffer (low : Nat) (sieve : List Nat) (n : Nat) : List Nat :=
  (List.range n).flatMap (fun j => decodeByte low j (sieve.getD j 0))

/-- The callback that never throws and records the values it is given. -/
def record (s : List Nat) (p : Nat) : Signal (List Nat) := Signal.next (s ++ [p])

/-- A callback under observation: next to the state of the callback, the
values delivered to it so far (the arguments of the invocations that returned
normally) and the number of its invocations. -/
def observing {σ : Type} (cb : σ → Nat → Signal σ) (t : σ × List Nat × Nat) (p : Nat) :
    Signal (σ × List Nat × Nat) :=
  match cb t.1 p with
  | Signal.next s1 => Signal.next (s1, t.2.1 ++ [p], t.2.2 + 1)
  | Signal.stop s1 => Signal.stop (s1, t.2.1, t.2.2 + 1)

/-- The text of a list of values, each in decimal and followed by a newline. -/
def lines : List Nat → String
  | [] => ""
  | p :: ps => toString p ++ "\n" ++ lines ps

/-- The callback that writes a value as a line to a text. -/
def writeLine (out : String) (p : Nat) : Signal String :=
  Signal.next (out ++ toString p ++ "\n")

/-- The result of a run that has to return normally. -/
def Run.toOption {σ : Type} : Run σ → Option σ
  | Run.done s => some s
  | Run.stopped _ => none
  | Run.fault => none

/-- The number of set bits of a byte. -/
def byteBits (v : Nat) : Nat := ((List.range 8).filter (fun b => v.testBit b)).length

/-- The number of set bits of the bytes `0 .. n - 1` of `sieve`. -/
def setBitCount (sieve : List Nat) (n : Nat) : Nat :=
  ((List.range n).map (fun j => byteBits (sieve.getD j 0))).sum

/-- The sum of `table[sieve[j]]` over the byte indices `j < n`. -/
def tupletSum (table sieve : List Nat) (n : Nat) : Nat :=
  ((List.range n).map (fun j => table.getD (sieve.getD j 0) 0)).sum

/-- The tables of the kinds requested for counting are the ones that
`init_kCounts` builds. -/
def TablesBuilt (END : Nat) (pf : PrimeFinder) : Prop :=
  ∀ k ∈ List.range' 1 5, pf.ps_.isCount k = true → pf.kCounts_[k]? = some (tableOf END k)

instance (END : Nat) (pf : PrimeFinder) : Decidable (TablesBuilt END pf) := by
  unfold TablesBuilt; infer_instance

/-- The value that `count` leaves in counter `k` when it held `c`: the
plain-prime counter grows by the set bits of the 8-byte words that cover the
buffer, a k-tuplet counter by the 32-bit sum of the table entries of the bytes
that the 4-way unrolled loop reads. -/
def countedValue (pf : PrimeFinder) (sieve : List Nat) (sieveSize k c : Nat) : Nat :=
  if k = 0 then
    if pf.ps_.isFlag PrimeSieve.COUNT_PRIMES then
      u64 (c + setBitCount sieve (8 * ceilDiv sieveSize 8))
    else c
  else if k ≤ 5 ∧ pf.ps_.isCount k = true then
    u64 (c + u32 (tupletSum ((pf.kCounts_[k]?).getD []) sieve (4 * ceilDiv sieveSize 4)))
  else c

/-- The text of one k-tuplet: the values in decimal, separated by a comma and
a blank, in parentheses, followed by a newline. -/
def groupText (vs : List Nat) : String :=
  "(" ++ ", ".intercalate (vs.map toString) ++ ")\n"

/-- The text of a list of k-tuplets, one per line. -/
def groupsText : List (List Nat) → String
  | [] => ""
  | g :: gs => groupText g ++ groupsText gs

/-- The k-tuplets of kind `i` of the byte `v` with byte index `j`: for every
mask of the kind that `v` fully contains, in the order of the mask list, the
values of the bits of the mask. -/
def byteGroups (END i low j v : Nat) : List (List Nat) :=
  ((maskList END i).filter (fun m => v &&& m == m)).map (fun m => decodeByte low j m)

/-- The k-tuplets of kind `i` of the bytes `0 .. n - 1` of `sieve`, byte by
byte. -/
def tupletGroups (END i low : Nat) (sieve : List Nat) (n : Nat) : List (List Nat) :=
  (List.range n).flatMap (fun j => byteGroups END i low j (sieve.getD j 0))

/-- The text that follows the first value of a k-tuplet. -/
def tailText : List Nat → String
  | [] => ")\n"
  | v :: vs => ", " ++ toString v ++ tailText vs

/-- The offset of the lowest set bit of a byte-sized mask. -/
def firstValue (m : Nat) : Nat :=
  (((List.range 8).filter (fun b => m.testBit b)).map (fun b => bitValues.getD b 0)).headD 0

/-- The number of pairs of set bits of the byte `v` whose decoded values
differ by 2. -/
def twinPairs (v : Nat) : Nat :=
  ((List.range 8).flatMap (fun a => (List.range 8).filter (fun b =>
    v.testBit a && v.testBit b && (bitValues.getD b 0 == bitValues.getD a 0 + 2)))).length

/-- An object with the given flags, counters and tables, for the concrete
instances of the properties. -/
def finderOf (flags : Nat) (counts : List Nat) (kCounts : List (List Nat)) : PrimeFinder :=
  { soeStart := 7, soeStop := 1000, soeSieveSize := 8,
    ps_ := { start_ := 0, stop_ := 1000, sieveSize_ := 8, flags_ := flags },
    counts_ := counts, kCounts_ := kCounts }

/-- The six empty tables that the constructor starts from. -/
def emptyTables : List (List Nat) := List.replicate 6 []

/-- The entries that the scan `for (b = row; *b <= v; b++)` tests against the
byte value `v`, that is the entries it passes before it stops at the first
entry above `v`; `none` when `b` leaves the row.  The scan reads one entry
more than it tests. -/
def scanBitmasks : List Nat → Nat → Option (List Nat)
  | [], _ => none
  | b :: bs, v =>
    if b ≤ v then
      match scanBitmasks bs v with
      | none => none
      | some tested => some (b :: tested)
    else some []

/-- The way a run ends, with the function `f` applied to the final state. -/
def Run.map {α β : Type} (f : α → β) : Run α → Run β
  | Run.done s => Run.done (f s)
  | Run.stopped s => Run.stopped (f s)
  | Run.fault => Run.fault

/-- Two segments one after the other: `generatePrimes` for the segment `A`
with base `low` and then, when that call has returned, for the segment `B`
that follows it, with base `low + NUMBERS_PER_BYTE * |A|`.  An exception that
leaves the first call leaves the whole run. -/
def twoSegments {σ : Type} (END : Nat) (cb : σ → Nat → Signal σ)
    (updateStatus : Nat → World σ → World σ) (low : Nat) (A B : List Nat) (w : World σ) :
    Run (World σ) :=
  match generatePrimes END cb updateStatus low A A.length w with
  | Run.done w1 =>
    generatePrimes END cb updateStatus (low + NUMBERS_PER_BYTE * A.length) B B.length w1
  | Run.stopped w1 => Run.stopped w1
  | Run.fault => Run.fault
/-! ## Lemmas: the mask scan and `init_kCounts` -/

theorem land_le_left (v m : Nat) : v &&& m ≤ v := Nat.and_le_left

theorem countBitmasks_skip (v : Nat) :
    ∀ (ms : List Nat), (∀ m ∈ ms, v < m) → matchCount ms v = 0 := by
  intro ms h
  unfold matchCount
  rw [List.length_eq_zero, List.filter_eq_nil_iff]
  intro m hm hmatch
  have h1 : v &&& m = m := by simpa using hmatch
  have h2 := land_le_left v m
  have h3 := h m hm
  omega

theorem countBitmasks_sorted (END v : Nat) (rest : List Nat) (hv : v < END) :
    ∀ (ms : List Nat) (acc : Nat), ms.Pairwise (fun a b => a < b) →
      acc + ms.length < 2 ^ 32 →
      countBitmasks (ms ++ END :: rest) v acc = some (acc + matchCount ms v) := by
  intro ms
  induction ms with
  | nil =>
    intro acc _ _
    have : ¬ END ≤ v := by omega
    simp [countBitmasks, matchCount, this]
  | cons m ms ih =>
    intro acc hs hacc
    rw [List.pairwise_cons] at hs
    simp only [List.length_cons] at hacc
    by_cases hle : m ≤ v
    · by_cases hmatch : v &&& m = m
      · have hu : u32 (acc + 1) = acc + 1 := by
          unfold u32; exact Nat.mod_eq_of_lt (by omega)
        simp only [List.cons_append, countBitmasks, hle, if_true, hmatch, hu]
        show countBitmasks (ms ++ END :: rest) v (acc + 1) = _
        rw [ih (acc + 1) hs.2 (by omega)]
        simp [matchCount, List.filter_cons, hmatch]
        omega
      · simp only [List.cons_append, countBitmasks, hle, if_true, hmatch, if_false]
        show countBitmasks (ms ++ END :: rest) v acc = _
        rw [ih acc hs.2 (by omega)]
        simp [matchCount, List.filter_cons, hmatch]
    · have hskip : matchCount (m :: ms) v = 0 := by
        apply countBitmasks_skip
        intro x hx
        rcases List.mem_cons.1 hx with rfl | hx
        · omega
        · have := hs.1 x hx
          omega
      simp only [List.cons_append, countBitmasks, hle, if_false, hskip, Nat.add_zero]

theorem row_split (END i : Nat) (hEND : 255 < END) (hi1 : 1 ≤ i) (hi5 : i ≤ 5) :
    ∃ rest, (kBitmasks_ END)[i]? = some (maskList END i ++ END :: rest) ∧
      (maskList END i).Pairwise (fun a b => a < b) ∧ (maskList END i).length ≤ 4 ∧
      ∀ m ∈ maskList END i, m < 256 := by
  have h6 : (6 != END) = true := by simp; omega
  have h24 : (24 != END) = true := by simp; omega
  have h192 : (192 != END) = true := by simp; omega
  have h7 : (7 != END) = true := by simp; omega
  have h14 : (14 != END) = true := by simp; omega
  have h28 : (28 != END) = true := by simp; omega
  have h56 : (56 != END) = true := by simp; omega
  have h30 : (30 != END) = true := by simp; omega
  have h31 : (31 != END) = true := by simp; omega
  have h62 : (62 != END) = true := by simp; omega
  have h63 : (63 != END) = true := by simp; omega
  have hE : (END != END) = false := by simp
  interval_cases i
  · exact ⟨[0], by simp [kBitmasks_, maskList, List.takeWhile, h6, h24, h192, hE]⟩
  · exact ⟨[], by simp [kBitmasks_, maskList, List.takeWhile, h7, h14, h28, h56, hE]⟩
  · exact ⟨[0, 0, 0], by simp [kBitmasks_, maskList, List.takeWhile, h30, hE]⟩
  · exact ⟨[0, 0], by simp [kBitmasks_, maskList, List.takeWhile, h31, h62, hE]⟩
  · exact ⟨[0, 0, 0], by simp [kBitmasks_, maskList, List.takeWhile, h63, hE]⟩

/-- The scan of row `i` for the byte value `v` returns the number of
matching masks of the mask list. -/
theorem countBitmasks_row (END i v : Nat) (hEND : 255 < END) (hi1 : 1 ≤ i) (hi5 : i ≤ 5)
    (hv : v < 256) :
    ∃ row, (kBitmasks_ END)[i]? = some row ∧
      countBitmasks row v 0 = some (matchCount (maskList END i) v) := by
  obtain ⟨rest, hrow, hs, hlen, _⟩ := row_split END i hEND hi1 hi5
  refine ⟨_, hrow, ?_⟩
  rw [countBitmasks_sorted END v rest (by omega) _ 0 hs (by omega)]
  simp

theorem fillTable_eq (row : List Nat) (g : Nat → Nat) :
    ∀ (js : List Nat), (∀ j ∈ js, countBitmasks row j 0 = some (g j)) →
      fillTable row js = some (js.map g) := by
  intro js
  induction js with
  | nil => intro _; rfl
  | cons j js ih =>
    intro h
    have h1 := h j (List.mem_cons_self j js)
    have h2 := ih (fun x hx => h x (List.mem_cons_of_mem j hx))
    simp [fillTable, h1, h2]

theorem initKind_eq (END : Nat) (pf : PrimeFinder) (i : Nat) (hEND : 255 < END)
    (hi1 : 1 ≤ i) (hi5 : i ≤ 5) (hk : pf.kCounts_.length = 6) :
    initKind END pf i =
      some (if pf.ps_.isCount i then { pf with kCounts_ := pf.kCounts_.set i (tableOf END i) }
        else pf) := by
  unfold initKind
  by_cases hc : pf.ps_.isCount i = true
  · obtain ⟨rest, hrow, hs, hlen, _⟩ := row_split END i hEND hi1 hi5
    have hfill : fillTable (maskList END i ++ END :: rest) (List.range 256) =
        some (tableOf END i) := by
      apply fillTable_eq
      intro j hj
      have hj : j < 256 := List.mem_range.1 hj
      rw [countBitmasks_sorted END j rest (by omega) _ 0 hs (by omega)]
      simp
    have hlt : i < pf.kCounts_.length := by omega
    simp [hc, hrow, hfill, hlt]
  · simp [hc]

theorem initKinds_spec (END : Nat) (hEND : 255 < END) :
    ∀ (is : List Nat) (pf : PrimeFinder), (∀ i ∈ is, 1 ≤ i ∧ i ≤ 5) →
      pf.kCounts_.length = 6 →
      ∃ pf1, initKinds END is pf = some pf1 ∧ pf1.ps_ = pf.ps_ ∧ pf1.counts_ = pf.counts_ ∧
        pf1.soeStart = pf.soeStart ∧ pf1.soeStop = pf.soeStop ∧
        pf1.soeSieveSize = pf.soeSieveSize ∧ pf1.kCounts_.length = 6 ∧
        ∀ k, pf1.kCounts_[k]? =
          if k ∈ is ∧ pf.ps_.isCount k = true then some (tableOf END k) else pf.kCounts_[k]? := by
  intro is
  induction is with
  | nil =>
    intro pf _ hk
    exact ⟨pf, rfl, rfl, rfl, rfl, rfl, rfl, hk, by simp⟩
  | cons i is ih =>
    intro pf hmem hk
    have hi := hmem i (List.mem_cons_self i is)
    have hstep := initKind_eq END pf i hEND hi.1 hi.2 hk
    by_cases hc : pf.ps_.isCount i = true
    · simp only [hc, if_true] at hstep
      obtain ⟨pf1, h1, h2, h3, h4, h5, h6, h7, h8⟩ :=
        ih { pf with kCounts_ := pf.kCounts_.set i (tableOf END i) }
          (fun x hx => hmem x (List.mem_cons_of_mem i hx)) (by simp [hk])
      refine ⟨pf1, by simp [initKinds, hstep, h1], h2, h3, h4, h5, h6, h7, ?_⟩
      intro k
      rw [h8 k]
      simp only [List.mem_cons]
      by_cases hk1 : k ∈ is ∧ pf.ps_.isCount k = true
      · simp [hk1]
      · by_cases hki : k = i
        · subst hki
          have : k < pf.kCounts_.length := by omega
          simp [hk1, hc, List.getElem?_set, this]
        · have hne : ¬ i = k := fun h => hki h.symm
          have : ¬ ((k = i ∨ k ∈ is) ∧ pf.ps_.isCount k = true) := by
            rintro ⟨h | h, h'⟩
            · exact hki h
            · exact hk1 ⟨h, h'⟩
          simp [hk1, this, List.getElem?_set, hne]
    · simp only [hc] at hstep
      obtain ⟨pf1, h1, h2, h3, h4, h5, h6, h7, h8⟩ :=
        ih pf (fun x hx => hmem x (List.mem_cons_of_mem i hx)) hk
      refine ⟨pf1, by simp [initKinds, hstep, h1], h2, h3, h4, h5, h6, h7, ?_⟩
      intro k
      rw [h8 k]
      simp only [List.mem_cons]
      by_cases hk1 : k ∈ is ∧ pf.ps_.isCount k = true
      · simp [hk1]
      · have : ¬ ((k = i ∨ k ∈ is) ∧ pf.ps_.isCount k = true) := by
          rintro ⟨h | h, h'⟩
          · subst h; exact hc h'
          · exact hk1 ⟨h, h'⟩
        simp [hk1, this]

theorem init_kCounts_spec (END : Nat) (hEND : 255 < END) (pf : PrimeFinder)
    (hc : pf.counts_.length = 6) (hk : pf.kCounts_.length = 6) :
    ∃ pf1, init_kCounts END pf = some pf1 ∧ pf1.ps_ = pf.ps_ ∧ pf1.counts_ = pf.counts_ ∧
      pf1.soeStart = pf.soeStart ∧ pf1.soeStop = pf.soeStop ∧
      pf1.soeSieveSize = pf.soeSieveSize ∧ pf1.kCounts_.length = 6 ∧
      ∀ k, pf1.kCounts_[k]? =
        if (1 ≤ k ∧ k ≤ 5) ∧ pf.ps_.isCount k = true then some (tableOf END k)
        else pf.kCounts_[k]? := by
  unfold init_kCounts
  rw [hc]
  obtain ⟨pf1, h1, h2, h3, h4, h5, h6, h7, h8⟩ :=
    initKinds_spec END hEND (List.range' 1 (6 - 1)) pf
      (by intro i hi; rw [List.mem_range'_1] at hi; omega) hk
  refine ⟨pf1, h1, h2, h3, h4, h5, h6, h7, ?_⟩
  intro k
  rw [h8 k]
  have : k ∈ List.range' 1 (6 - 1) ↔ (1 ≤ k ∧ k ≤ 5) := by
    rw [List.mem_range'_1]; omega
  simp only [this]

/-! ## Lemmas: the lowest set bit of a word -/

theorem bitScanFrom_eq (w n : Nat) (hn : w.testBit n = true) :
    ∀ (fuel k : Nat), k ≤ n → n - k < fuel → (∀ j, k ≤ j → j < n → w.testBit j = false) →
      bitScanFrom w fuel k = n := by
  intro fuel
  induction fuel with
  | zero => intro k _ h _; omega
  | succ fuel ih =>
    intro k hk hf hlow
    unfold bitScanFrom
    by_cases hkn : k = n
    · subst hkn; simp [hn]
    · have hk1 : w.testBit k = false := hlow k (Nat.le_refl k) (by omega)
      simp only [hk1, Bool.false_eq_true, if_false]
      exact ih (k + 1) (by omega) (by omega) (fun j h1 h2 => hlow j (by omega) h2)

theorem low_bits_zero (w n : Nat) (hlow : ∀ j, j < n → w.testBit j = false) :
    w % 2 ^ n = 0 := by
  apply Nat.eq_of_testBit_eq
  intro i
  rw [Nat.testBit_mod_two_pow, Nat.zero_testBit]
  by_cases h : i < n
  · simp [hlow i h]
  · simp [h]

theorem lowest_bit_split (w n : Nat) (hn : w.testBit n = true)
    (hlow : ∀ j, j < n → w.testBit j = false) :
    w = 2 ^ (n + 1) * (w / 2 ^ (n + 1)) + 2 ^ n := by
  have h0 := low_bits_zero w n hlow
  have h1 : w / 2 ^ n % 2 = 1 := by
    have := hn
    rw [Nat.testBit_to_div_mod] at this
    simpa using this
  have h2 : w = 2 ^ n * (w / 2 ^ n) := by
    have := Nat.div_add_mod w (2 ^ n)
    omega
  have h3 : w / 2 ^ (n + 1) = w / 2 ^ n / 2 := by
    rw [Nat.pow_succ, Nat.div_div_eq_div_mul]
  have h4 : w / 2 ^ n = 2 * (w / 2 ^ n / 2) + 1 := by omega
  rw [h3, Nat.pow_succ]
  calc w = 2 ^ n * (w / 2 ^ n) := h2
    _ = 2 ^ n * (2 * (w / 2 ^ n / 2) + 1) := by rw [← h4]
    _ = 2 ^ n * 2 * (w / 2 ^ n / 2) + 2 ^ n := by ring

theorem clear_lowest_bit (w n : Nat) (hn : w.testBit n = true)
    (hlow : ∀ j, j < n → w.testBit j = false) (k : Nat) :
    (w &&& (w - 1)).testBit k = (w.testBit k && decide (k ≠ n)) := by
  have hsplit := lowest_bit_split w n hn hlow
  have hpos : 0 < 2 ^ n := Nat.two_pow_pos n
  have hlt : 2 ^ n < 2 ^ (n + 1) := by rw [Nat.pow_succ]; omega
  have hlt1 : 2 ^ n - 1 < 2 ^ (n + 1) := by omega
  have hw1 : w - 1 = 2 ^ (n + 1) * (w / 2 ^ (n + 1)) + (2 ^ n - 1) := by omega
  have t1 : w.testBit k =
      if k < n + 1 then (2 ^ n).testBit k else (w / 2 ^ (n + 1)).testBit (k - (n + 1)) := by
    have := Nat.testBit_mul_pow_two_add (w / 2 ^ (n + 1)) hlt k
    rw [← hsplit] at this
    exact this
  have t2 : (w - 1).testBit k =
      if k < n + 1 then (2 ^ n - 1).testBit k else (w / 2 ^ (n + 1)).testBit (k - (n + 1)) := by
    rw [hw1]
    exact Nat.testBit_mul_pow_two_add (w / 2 ^ (n + 1)) hlt1 k
  rw [Nat.testBit_and, t2, t1]
  by_cases h1 : k < n + 1
  · simp only [h1, if_true, Nat.testBit_two_pow_sub_one, Nat.testBit_two_pow]
    by_cases h2 : k = n
    · subst h2; simp
    · have : ¬ n = k := fun h => h2 h.symm
      have : k < n := by omega
      simp [*]
  · have : k ≠ n := by omega
    simp [h1, this]

theorem setBits_eq_nil (w : Nat) (hw : w < 2 ^ 64) : setBits w = [] ↔ w = 0 := by
  constructor
  · intro h
    apply Nat.eq_of_testBit_eq
    intro i
    rw [Nat.zero_testBit]
    by_cases hi : i < 64
    · unfold setBits at h
      rw [List.filter_eq_nil_iff] at h
      have := h i (List.mem_range.2 hi)
      simpa using this
    · exact Nat.testBit_lt_two_pow (Nat.lt_of_lt_of_le hw (Nat.pow_le_pow_right (by decide) (by omega)))
  · intro h
    subst h
    simp [setBits]

/-- The step of every drain loop: for a non-zero 64-bit word, `getNextPrime`
decodes the first position of `setBits` and leaves the word of the other
positions. -/
theorem getNextPrime_step (w low : Nat) (hw : w < 2 ^ 64) (h0 : w ≠ 0) :
    ∃ p rest, setBits w = p :: rest ∧ (getNextPrime w low).1 = bitValue low p ∧
      setBits (getNextPrime w low).2 = rest ∧ (getNextPrime w low).2 < 2 ^ 64 := by
  have hex : ∃ n, w.testBit n = true := by
    by_contra hne
    apply h0
    apply Nat.eq_of_testBit_eq
    intro i
    rw [Nat.zero_testBit]
    by_contra hi
    exact hne ⟨i, by simpa using hi⟩
  let n := Nat.find hex
  have hn : w.testBit n = true := Nat.find_spec hex
  have hlow : ∀ j, j < n → w.testBit j = false := by
    intro j hj
    have := Nat.find_min hex hj
    simpa using this
  have hn64 : n < 64 := by
    by_contra h
    have := Nat.testBit_lt_two_pow
      (Nat.lt_of_lt_of_le hw (Nat.pow_le_pow_right (by decide) (Nat.le_of_not_lt h)))
    rw [hn] at this
    exact Bool.noConfusion this
  have hscan : bitScanForward w = n :=
    bitScanFrom_eq w n hn 64 0 (Nat.zero_le n) (by omega) (fun j _ h => hlow j h)
  have hclear := clear_lowest_bit w n hn hlow
  have hrange : List.range 64 = List.range n ++ n :: List.range' (n + 1) (63 - n) := by
    rw [List.range_eq_range', List.range_eq_range']
    have h1 := List.range'_append 0 n (64 - n) 1
    have h2 := List.range'_succ n (63 - n) 1
    have e1 : 64 - n + n = 64 := by omega
    have e2 : 63 - n + 1 = 64 - n := by omega
    rw [e1] at h1
    rw [e2] at h2
    rw [← h1]
    simp only [Nat.zero_add, Nat.one_mul]
    rw [h2]
  have hf1 : ∀ (u : Nat), (∀ j, j < n → u.testBit j = false) →
      (List.range n).filter (fun p => u.testBit p) = [] := by
    intro u hu
    rw [List.filter_eq_nil_iff]
    intro a ha
    simp [hu a (List.mem_range.1 ha)]
  have hlow2 : ∀ j, j < n → (w &&& (w - 1)).testBit j = false := by
    intro j hj
    rw [hclear j, hlow j hj]; rfl
  have hrest : (List.range' (n + 1) (63 - n)).filter (fun p => (w &&& (w - 1)).testBit p) =
      (List.range' (n + 1) (63 - n)).filter (fun p => w.testBit p) := by
    apply List.filter_congr
    intro x hx
    rw [List.mem_range'_1] at hx
    have : x ≠ n := by omega
    rw [hclear x]
    simp [this]
  refine ⟨n, (List.range' (n + 1) (63 - n)).filter (fun p => w.testBit p), ?_, ?_, ?_, ?_⟩
  · unfold setBits
    rw [hrange, List.filter_append, hf1 w hlow, List.filter_cons]
    simp [hn]
  · simp [getNextPrime, hscan]
  · show setBits (w &&& (w - 1)) = _
    unfold setBits
    rw [hrange, List.filter_append, hf1 _ hlow2, List.filter_cons, hrest]
    have : (w &&& (w - 1)).testBit n = false := by rw [hclear n]; simp
    simp [this]
  · show w &&& (w - 1) < 2 ^ 64
    exact Nat.lt_of_le_of_lt Nat.and_le_left hw

/-! ## Lemmas: draining a word through the callback -/

theorem drainCallback_eq {σ : Type} (cb : σ → Nat → Signal σ) (low : Nat) :
    ∀ (fuel w : Nat) (s : σ), w < 2 ^ 64 → (setBits w).length < fuel →
      drainCallback cb low fuel w s = deliver cb ((setBits w).map (bitValue low)) s := by
  intro fuel
  induction fuel with
  | zero => intro w s _ h; omega
  | succ fuel ih =>
    intro w s hw hf
    unfold drainCallback
    by_cases h0 : w = 0
    · subst h0
      simp [setBits, deliver]
    · obtain ⟨p, rest, h1, h2, h3, h4⟩ := getNextPrime_step w low hw h0
      simp only [ne_eq, h0, not_false_eq_true, if_true, h1, List.map_cons, deliver, h2]
      cases cb s (bitValue low p) with
      | next s1 =>
        simp only
        rw [ih _ s1 h4 (by rw [h3]; rw [h1] at hf; simpa using hf), h3]
      | stop s1 => rfl

theorem setBits_length_le (w : Nat) : (setBits w).length ≤ 64 := by
  unfold setBits
  have := List.length_filter_le (fun p => w.testBit p) (List.range 64)
  simpa using this

theorem deliver_append {σ : Type} (cb : σ → Nat → Signal σ) :
    ∀ (xs ys : List Nat) (s : σ),
      deliver cb (xs ++ ys) s =
        match deliver cb xs s with
        | Run.done s1 => deliver cb ys s1
        | Run.stopped s1 => Run.stopped s1
        | Run.fault => Run.fault := by
  intro xs
  induction xs with
  | nil => intro ys s; rfl
  | cons x xs ih =>
    intro ys s
    simp only [List.cons_append, deliver]
    cases cb s x with
    | next s1 => exact ih ys s1
    | stop s1 => rfl

theorem deliver_next {σ : Type} (f : σ → Nat → σ) :
    ∀ (xs : List Nat) (s : σ),
      deliver (fun s p => Signal.next (f s p)) xs s = Run.done (List.foldl f s xs) := by
  intro xs
  induction xs with
  | nil => intro s; rfl
  | cons x xs ih => intro s; simp only [deliver, List.foldl_cons]; exact ih _

/-! ## Lemmas: the bits of a little-endian word -/

theorem littleendianFrom_bits (sieve : List Nat) (hb : ∀ v ∈ sieve, v < 256) :
    ∀ (n i w : Nat), littleendianFrom sieve n i = some w →
      w < 256 ^ n ∧
      ∀ p, w.testBit p = (decide (p < 8 * n) && (sieve.getD (i + p / 8) 0).testBit (p % 8)) := by
  intro n
  induction n with
  | zero =>
    intro i w h
    simp only [littleendianFrom, Option.some.injEq] at h
    subst h
    simp
  | succ n ih =>
    intro i w h
    unfold littleendianFrom at h
    cases hget : sieve[i]? with
    | none => simp [hget] at h
    | some b =>
      cases hrec : littleendianFrom sieve n (i + 1) with
      | none => simp [hget, hrec] at h
      | some w1 =>
        simp only [hget, hrec, Option.some.injEq] at h
        subst h
        obtain ⟨hw1, hbits⟩ := ih (i + 1) w1 hrec
        have hb256 : b < 256 := hb b (List.getElem?_mem hget)
        refine ⟨?_, ?_⟩
        · rw [Nat.pow_succ]; omega
        · intro p
          have hb8 : b < 2 ^ 8 := hb256
          have := Nat.testBit_mul_pow_two_add w1 hb8 p
          have e : b + 256 * w1 = 2 ^ 8 * w1 + b := by omega
          rw [e, this]
          by_cases hp : p < 8
          · have h1 : p / 8 = 0 := by omega
            have h2 : p % 8 = p := by omega
            have h3 : p < 8 * (n + 1) := by omega
            simp [hp, h1, h2, h3, hget]
          · have h1 : (p - 8) / 8 + 1 = p / 8 := by omega
            have h2 : (p - 8) % 8 = p % 8 := by omega
            have h3 : (p - 8 < 8 * n) ↔ (p < 8 * (n + 1)) := by omega
            simp only [hp, if_false, hbits (p - 8), h2]
            rw [show i + 1 + (p - 8) / 8 = i + p / 8 by omega]
            simp only [h3]

theorem littleendianFrom_some (sieve : List Nat) :
    ∀ (n i : Nat), i + n ≤ sieve.length → ∃ w, littleendianFrom sieve n i = some w := by
  intro n
  induction n with
  | zero => intro i _; exact ⟨0, rfl⟩
  | succ n ih =>
    intro i h
    obtain ⟨w, hw⟩ := ih (i + 1) (by omega)
    have hi : i < sieve.length := by omega
    refine ⟨sieve[i] + 256 * w, ?_⟩
    simp [littleendianFrom, hw, List.getElem?_eq_getElem hi]

theorem range_mul_flatMap {β : Type} (g : Nat → List β) :
    ∀ (n : Nat), (List.range (8 * n)).flatMap g =
      (List.range n).flatMap (fun k => (List.range 8).flatMap (fun b => g (8 * k + b))) := by
  intro n
  induction n with
  | zero => rfl
  | succ n ih =>
    rw [show 8 * (n + 1) = 8 * n + 8 by omega, List.range_add, List.flatMap_append, ih,
      show List.range (n + 1) = List.range n ++ [n] from List.range_succ n,
      List.flatMap_append, List.flatMap_map]
    simp

theorem filter_map_eq_flatMap {β : Type} (P : Nat → Bool) (f : Nat → β) (l : List Nat) :
    (l.filter P).map f = l.flatMap (fun p => if P p then [f p] else []) := by
  induction l with
  | nil => rfl
  | cons a l ih =>
    rw [List.flatMap_cons, List.filter_cons]
    by_cases h : P a = true
    · simp [h, ih]
    · simp [h, ih]

/-- The values decoded from the set bits of the word at byte index `8 * a`:
the values of its eight bytes, byte by byte. -/
theorem word_values (sieve : List Nat) (hb : ∀ v ∈ sieve, v < 256) (low a w : Nat)
    (h : littleendian_cast sieve (8 * a) = some w) :
    (setBits w).map (bitValue (u64 (low + NUMBERS_PER_BYTE * 8 * a))) =
      (List.range 8).flatMap (fun k => decodeByte low (8 * a + k) (sieve.getD (8 * a + k) 0)) := by
  obtain ⟨_, hbits⟩ := littleendianFrom_bits sieve hb 8 (8 * a) w h
  unfold setBits
  rw [filter_map_eq_flatMap]
  have h64 : List.range 64 = List.range (8 * 8) := rfl
  rw [h64, range_mul_flatMap]
  apply List.flatMap_congr
  intro k hk
  have hk8 : k < 8 := List.mem_range.1 hk
  unfold decodeByte
  rw [filter_map_eq_flatMap]
  apply List.flatMap_congr
  intro b hb'
  have hb8 : b < 8 := List.mem_range.1 hb'
  have e1 : (8 * k + b) / 8 = k := by omega
  have e2 : (8 * k + b) % 8 = b := by omega
  have e3 : 8 * k + b < 8 * 8 := by omega
  rw [hbits (8 * k + b), e1, e2]
  simp only [e3, decide_True, Bool.true_and]
  have e4 : bitValue (u64 (low + NUMBERS_PER_BYTE * 8 * a)) (8 * k + b) =
      u64 (low + NUMBERS_PER_BYTE * (8 * a + k) + bitValues.getD b 0) := by
    unfold bitValue u64 NUMBERS_PER_BYTE
    rw [e1, e2]
    omega
  rw [e4]

/-! ## Lemmas: `callbackPrimes` delivers the decoded buffer -/

theorem bitValue_u64 (lw p : Nat) : bitValue lw p = bitValue (u64 lw) p := by
  unfold bitValue u64
  omega

theorem ceilDiv_eight (n : Nat) : ceilDiv n 8 = (n + 7) / 8 := rfl

theorem callbackLoop_eq {σ : Type} (cb : σ → Nat → Signal σ) (sieve : List Nat) (sieveSize low : Nat)
    (hb : ∀ v ∈ sieve, v < 256) (hlen : sieve.length < 2 ^ 32)
    (hin : 8 * ceilDiv sieveSize 8 ≤ sieve.length) :
    ∀ (d a fuel lw : Nat) (s : σ), a + d = ceilDiv sieveSize 8 → d < fuel →
      u64 lw = u64 (low + NUMBERS_PER_BYTE * 8 * a) →
      callbackLoop cb sieve sieveSize fuel (8 * a) lw s =
        deliver cb ((List.range' a d).flatMap (fun k =>
          (List.range 8).flatMap (fun b =>
            decodeByte low (8 * k + b) (sieve.getD (8 * k + b) 0)))) s := by
  intro d
  induction d with
  | zero =>
    intro a fuel lw s ha hf _
    rw [ceilDiv_eight] at ha
    obtain ⟨fuel, rfl⟩ : ∃ f, fuel = f + 1 := ⟨fuel - 1, by omega⟩
    have : ¬ 8 * a < sieveSize := by omega
    simp [callbackLoop, this, deliver]
  | succ d ih =>
    intro a fuel lw s ha hf hlw
    rw [ceilDiv_eight] at ha hin
    obtain ⟨fuel, rfl⟩ : ∃ f, fuel = f + 1 := ⟨fuel - 1, by omega⟩
    have hlt : 8 * a < sieveSize := by omega
    obtain ⟨w, hw⟩ := littleendianFrom_some sieve 8 (8 * a) (by omega)
    have hw' : littleendian_cast sieve (8 * a) = some w := hw
    obtain ⟨hw64, _⟩ := littleendianFrom_bits sieve hb 8 (8 * a) w hw
    have hw64' : w < 2 ^ 64 := by
      have e : (256 : Nat) ^ 8 = 2 ^ 64 := by norm_num
      omega
    have hdrain := drainCallback_eq cb lw 65 w s hw64'
      (Nat.lt_of_le_of_lt (setBits_length_le w) (by omega))
    have hvals : (setBits w).map (bitValue lw) =
        (List.range 8).flatMap (fun k =>
          decodeByte low (8 * a + k) (sieve.getD (8 * a + k) 0)) := by
      rw [← word_values sieve hb low a w hw']
      apply List.map_congr_left
      intro p _
      rw [bitValue_u64 lw p, hlw]
    have hu32 : u32 (8 * a + 8) = 8 * (a + 1) := by
      unfold u32; omega
    have hlw1 : u64 (u64 (lw + NUMBERS_PER_BYTE * 8)) =
        u64 (low + NUMBERS_PER_BYTE * 8 * (a + 1)) := by
      unfold u64 NUMBERS_PER_BYTE at *
      omega
    rw [List.range'_succ, List.flatMap_cons, deliver_append, ← hvals, ← hdrain]
    unfold callbackLoop
    simp only [hlt, if_true, hw']
    cases drainCallback cb lw 65 w s with
    | done s1 =>
      simp only
      rw [hu32]
      exact ih (a + 1) fuel (u64 (lw + NUMBERS_PER_BYTE * 8)) s1
        (by rw [ceilDiv_eight]; omega) (by omega) hlw1
    | stopped s1 => rfl
    | fault => rfl

/-- The function `callbackPrimes` invokes the callback on the values of the
set bits of the bytes it reads (the whole 8-byte words that cover the
buffer), in order, until the callback throws. -/
theorem callbackPrimes_eq {σ : Type} (cb : σ → Nat → Signal σ) (low : Nat) (sieve : List Nat)
    (sieveSize : Nat) (s : σ) (hb : ∀ v ∈ sieve, v < 256) (hlen : sieve.length < 2 ^ 32)
    (hin : 8 * ceilDiv sieveSize 8 ≤ sieve.length) :
    callbackPrimes cb low sieve sieveSize s =
      deliver cb (decodeBuffer low sieve (8 * ceilDiv sieveSize 8)) s := by
  unfold callbackPrimes decodeBuffer
  have h := callbackLoop_eq cb sieve sieveSize low hb hlen hin (ceilDiv sieveSize 8) 0
    (sieveSize + 1) low s (by omega) (by rw [ceilDiv_eight]; omega) (by simp)
  rw [Nat.mul_zero] at h
  rw [h, range_mul_flatMap, List.range_eq_range' (ceilDiv sieveSize 8)]

theorem decodeByte_zero (low j : Nat) : decodeByte low j 0 = [] := by
  simp [decodeByte]

/-- Zero bytes after the buffer add no value. -/
theorem decodeBuffer_padding (low : Nat) (sieve : List Nat) (n m : Nat) (hnm : n ≤ m)
    (hpad : ∀ j, n ≤ j → j < m → sieve.getD j 0 = 0) :
    decodeBuffer low sieve m = decodeBuffer low sieve n := by
  obtain ⟨d, rfl⟩ : ∃ d, m = n + d := ⟨m - n, by omega⟩
  unfold decodeBuffer
  rw [List.range_add, List.flatMap_append, List.flatMap_map]
  have : (List.range d).flatMap (fun a => decodeByte low (n + a) (sieve.getD (n + a) 0)) = [] := by
    rw [List.flatMap_eq_nil_iff]
    intro a ha
    have ha := List.mem_range.1 ha
    rw [hpad (n + a) (by omega) (by omega), decodeByte_zero]
  rw [this, List.append_nil]

/-! ## Lemmas: the decoded values ascend -/

theorem bitValues_bounds : ∀ b, b < 8 → 7 ≤ bitValues.getD b 0 ∧ bitValues.getD b 0 ≤ 31 := by
  decide

theorem bitValues_strictMono :
    ∀ a, a < 8 → ∀ b, b < 8 → a < b → bitValues.getD a 0 < bitValues.getD b 0 := by
  decide

theorem mem_decodeByte (low j v x : Nat) (h : x ∈ decodeByte low j v) :
    ∃ b, b < 8 ∧ v.testBit b = true ∧
      x = u64 (low + NUMBERS_PER_BYTE * j + bitValues.getD b 0) := by
  unfold decodeByte at h
  rw [List.mem_map] at h
  obtain ⟨b, hb, rfl⟩ := h
  rw [List.mem_filter] at hb
  exact ⟨b, List.mem_range.1 hb.1, hb.2, rfl⟩

theorem decodeByte_ascending (low j v : Nat)
    (hfit : low + NUMBERS_PER_BYTE * j + 31 < 2 ^ 64) :
    (decodeByte low j v).Pairwise (fun x y => x < y) := by
  unfold decodeByte
  rw [List.pairwise_map]
  have hp : ((List.range 8).filter (fun b => v.testBit b)).Pairwise (fun a b => a < b) :=
    (List.pairwise_lt_range 8).filter _
  refine hp.imp_of_mem ?_
  intro a b ha hb hab
  have ha8 : a < 8 := List.mem_range.1 (List.mem_filter.1 ha).1
  have hb8 : b < 8 := List.mem_range.1 (List.mem_filter.1 hb).1
  have h1 := bitValues_strictMono a ha8 b hb8 hab
  have h2 := bitValues_bounds b hb8
  unfold u64
  rw [Nat.mod_eq_of_lt (by omega), Nat.mod_eq_of_lt (by omega)]
  omega

theorem decodeBuffer_ascending (low : Nat) (sieve : List Nat) (n : Nat)
    (hfit : low + NUMBERS_PER_BYTE * n + 1 < 2 ^ 64) :
    (decodeBuffer low sieve n).Pairwise (fun x y => x < y) := by
  unfold decodeBuffer
  rw [List.pairwise_flatMap]
  unfold NUMBERS_PER_BYTE at hfit
  constructor
  · intro j hj
    have hj := List.mem_range.1 hj
    apply decodeByte_ascending
    unfold NUMBERS_PER_BYTE
    omega
  · refine (List.pairwise_lt_range n).imp_of_mem ?_
    intro j1 j2 hj1 hj2 hlt x hx y hy
    have hj2 := List.mem_range.1 hj2
    obtain ⟨a, ha, _, rfl⟩ := mem_decodeByte _ _ _ _ hx
    obtain ⟨b, hb, _, rfl⟩ := mem_decodeByte _ _ _ _ hy
    have h1 := bitValues_bounds a ha
    have h2 := bitValues_bounds b hb
    unfold u64 NUMBERS_PER_BYTE
    rw [Nat.mod_eq_of_lt (by omega), Nat.mod_eq_of_lt (by omega)]
    omega

/-! ## Lemmas: the `PRINT_PRIMES` branch of `print` -/

theorem drainPrint_eq (low : Nat) :
    ∀ (fuel bits : Nat) (out : String),
      drainPrint low fuel bits out = (drainCallback writeLine low fuel bits out).toOption := by
  intro fuel
  induction fuel with
  | zero => intro bits out; rfl
  | succ fuel ih =>
    intro bits out
    unfold drainPrint drainCallback
    by_cases h : bits = 0
    · simp [h, Run.toOption]
    · simp only [ne_eq, h, not_false_eq_true, if_true, writeLine]
      exact ih _ _

theorem printPrimesLoop_eq (sieve : List Nat) (sieveSize : Nat) :
    ∀ (fuel i low : Nat) (out : String),
      printPrimesLoop sieve sieveSize fuel i low out =
        (callbackLoop writeLine sieve sieveSize fuel i low out).toOption := by
  intro fuel
  induction fuel with
  | zero => intro i low out; rfl
  | succ fuel ih =>
    intro i low out
    unfold printPrimesLoop callbackLoop
    by_cases h : i < sieveSize
    · simp only [h, if_true]
      cases littleendian_cast sieve i with
      | none => rfl
      | some bits =>
        simp only
        rw [drainPrint_eq]
        cases drainCallback writeLine low 65 bits out with
        | done s1 => simp only [Run.toOption]; exact ih _ _ _
        | stopped s1 => rfl
        | fault => rfl
    · simp [h, Run.toOption]

theorem foldl_writeLine (vals : List Nat) :
    ∀ (out : String), List.foldl (fun o p => o ++ toString p ++ "\n") out vals = out ++ lines vals := by
  induction vals with
  | nil => intro out; simp [lines]
  | cons p ps ih =>
    intro out
    simp only [List.foldl_cons, lines]
    rw [ih]
    simp only [String.append_assoc]

/-- The `PRINT_PRIMES` loop of `print` writes the lines of the decoded values
of the bytes it reads. -/
theorem printPrimesLoop_lines (low : Nat) (sieve : List Nat) (sieveSize : Nat) (out : String)
    (hb : ∀ v ∈ sieve, v < 256) (hlen : sieve.length < 2 ^ 32)
    (hin : 8 * ceilDiv sieveSize 8 ≤ sieve.length) :
    printPrimesLoop sieve sieveSize (sieveSize + 1) 0 low out =
      some (out ++ lines (decodeBuffer low sieve (8 * ceilDiv sieveSize 8))) := by
  rw [printPrimesLoop_eq]
  have h := callbackPrimes_eq writeLine low sieve sieveSize out hb hlen hin
  unfold callbackPrimes at h
  rw [h]
  have h2 := deliver_next (fun o p => o ++ toString p ++ "\n")
    (decodeBuffer low sieve (8 * ceilDiv sieveSize 8)) out
  have h3 : (fun (s : String) (p : Nat) => Signal.next (s ++ toString p ++ "\n")) = writeLine := rfl
  rw [h3] at h2
  rw [h2, foldl_writeLine]
  rfl

theorem callbackPrimes_record (low : Nat) (sieve : List Nat) (sieveSize : Nat)
    (hb : ∀ v ∈ sieve, v < 256) (hlen : sieve.length < 2 ^ 32)
    (hin : 8 * ceilDiv sieveSize 8 ≤ sieve.length) :
    callbackPrimes record low sieve sieveSize [] =
      Run.done (decodeBuffer low sieve (8 * ceilDiv sieveSize 8)) := by
  rw [callbackPrimes_eq record low sieve sieveSize [] hb hlen hin]
  have h := deliver_next (fun (s : List Nat) p => s ++ [p])
    (decodeBuffer low sieve (8 * ceilDiv sieveSize 8)) []
  have h3 : (fun (s : List Nat) (p : Nat) => Signal.next (s ++ [p])) = record := rfl
  rw [h3] at h
  rw [h]
  congr 1
  generalize decodeBuffer low sieve (8 * ceilDiv sieveSize 8) = l
  have : ∀ (acc : List Nat), List.foldl (fun s p => s ++ [p]) acc l = acc ++ l := by
    induction l with
    | nil => intro acc; simp
    | cons x xs ih => intro acc; simp [ih]
  simpa using this []

/-! ## Lemmas: cancellation -/

theorem deliver_observing {σ : Type} (cb : σ → Nat → Signal σ) :
    ∀ (l : List Nat) (s : σ) (got : List Nat) (n : Nat),
      (∃ s1 m, m < l.length ∧
        deliver (observing cb) l (s, got, n) =
          Run.stopped (s1, got ++ l.take m, n + m + 1)) ∨
      (∃ s1, deliver (observing cb) l (s, got, n) = Run.done (s1, got ++ l, n + l.length)) := by
  intro l
  induction l with
  | nil =>
    intro s got n
    right
    exact ⟨s, by simp [deliver]⟩
  | cons x xs ih =>
    intro s got n
    unfold deliver
    cases hcb : cb s x with
    | stop s1 =>
      left
      refine ⟨s1, 0, by simp, ?_⟩
      simp [observing, hcb]
    | next s1 =>
      have hstep : observing cb (s, got, n) x = Signal.next (s1, got ++ [x], n + 1) := by
        simp [observing, hcb]
      rw [hstep]
      simp only
      rcases ih s1 (got ++ [x]) (n + 1) with ⟨s2, m, hm, h⟩ | ⟨s2, h⟩
      · left
        refine ⟨s2, m + 1, by simp; omega, ?_⟩
        rw [h]
        simp
        omega
      · right
        refine ⟨s2, ?_⟩
        rw [h]
        simp
        omega

theorem deliver_store (k : Nat) :
    ∀ (l : List Nat) (acc : List Int) (got : List Nat) (n : Nat), acc.length ≤ k →
      deliver (observing (store k)) l (acc, got, n) =
        if k - acc.length < l.length then
          Run.stopped (acc ++ (l.take (k - acc.length)).map (fun p => toInt32 (u32 p)),
            got ++ l.take (k - acc.length), n + (k - acc.length) + 1)
        else Run.done (acc ++ l.map (fun p => toInt32 (u32 p)), got ++ l, n + l.length) := by
  intro l
  induction l with
  | nil => intro acc got n _; simp [deliver]
  | cons x xs ih =>
    intro acc got n hk
    unfold deliver
    by_cases hfull : acc.length = k
    · have h0 : k - acc.length = 0 := by omega
      simp [observing, store, hfull]
    · have hstep : observing (store k) (acc, got, n) x =
          Signal.next (acc ++ [toInt32 (u32 x)], got ++ [x], n + 1) := by
        simp [observing, store, hfull]
      rw [hstep]
      simp only
      rw [ih (acc ++ [toInt32 (u32 x)]) (got ++ [x]) (n + 1) (by simp; omega)]
      obtain ⟨m, hm⟩ : ∃ m, k - acc.length = m + 1 := ⟨k - acc.length - 1, by omega⟩
      have e1 : k - (acc ++ [toInt32 (u32 x)]).length = m := by simp; omega
      rw [e1, hm]
      by_cases hlt : m < xs.length
      · have : m + 1 < (x :: xs).length := by simp; omega
        simp [hlt, this]
        omega
      · have : ¬ m + 1 < (x :: xs).length := by simp; omega
        simp [hlt, this]
        omega

theorem toInt32_small (p : Nat) (h : p < 2 ^ 31) : toInt32 (u32 p) = (p : Int) := by
  have hu : u32 p = p := by unfold u32; omega
  rw [hu]
  unfold toInt32
  rw [if_pos h]

/-! ## Lemmas: `count` -/

theorem decodeBuffer_length (low : Nat) (sieve : List Nat) (n : Nat) :
    (decodeBuffer low sieve n).length = setBitCount sieve n := by
  unfold decodeBuffer setBitCount
  rw [List.length_flatMap]
  congr 1
  apply List.map_congr_left
  intro j _
  simp [decodeByte, byteBits]

theorem popcountFrom_eq (sieve : List Nat) (hb : ∀ v ∈ sieve, v < 256) :
    ∀ (n k : Nat), 8 * (k + n) ≤ sieve.length →
      popcountFrom sieve n k = some ((List.range' k n).flatMap (fun a =>
        (List.range 8).flatMap (fun b =>
          decodeByte 0 (8 * a + b) (sieve.getD (8 * a + b) 0)))).length := by
  intro n
  induction n with
  | zero => intro k _; rfl
  | succ n ih =>
    intro k h
    obtain ⟨w, hw⟩ := littleendianFrom_some sieve 8 (8 * k) (by omega)
    have hw' : littleendian_cast sieve (8 * k) = some w := hw
    have hv := word_values sieve hb 0 k w hw'
    have hlen : popcount64 w = ((List.range 8).flatMap (fun b =>
        decodeByte 0 (8 * k + b) (sieve.getD (8 * k + b) 0))).length := by
      rw [← hv, List.length_map]; rfl
    unfold popcountFrom
    rw [hw', ih (k + 1) (by omega), List.range'_succ, List.flatMap_cons, List.length_append]
    simp only [hlen]

theorem popcount_eq (sieve : List Nat) (hb : ∀ v ∈ sieve, v < 256) (n : Nat)
    (h : 8 * n ≤ sieve.length) :
    popcount sieve n = some (u64 (setBitCount sieve (8 * n))) := by
  unfold popcount
  rw [popcountFrom_eq sieve hb n 0 (by omega), ← decodeBuffer_length 0]
  unfold decodeBuffer
  rw [range_mul_flatMap, List.range_eq_range' n]
  rfl

theorem setBitCount_padding (sieve : List Nat) (n m : Nat) (hnm : n ≤ m)
    (hpad : ∀ j, n ≤ j → j < m → sieve.getD j 0 = 0) :
    setBitCount sieve m = setBitCount sieve n := by
  rw [← decodeBuffer_length 0, ← decodeBuffer_length 0,
    decodeBuffer_padding 0 sieve n m hnm hpad]

theorem ceilDiv_four (n : Nat) : ceilDiv n 4 = (n + 3) / 4 := rfl

theorem kCountAt_eq (pf : PrimeFinder) (i : Nat) (sieve table : List Nat) (j : Nat)
    (hb : ∀ v ∈ sieve, v < 256) (htab : pf.kCounts_[i]? = some table)
    (hlen : table.length = 256) (hj : j < sieve.length) :
    kCountAt pf i sieve j = some (table.getD (sieve.getD j 0) 0) := by
  have h1 : sieve[j]? = some sieve[j] := List.getElem?_eq_getElem hj
  have h2 : sieve[j] < 256 := hb _ (List.getElem_mem hj)
  have h3 : sieve[j] < table.length := by omega
  unfold kCountAt
  rw [h1, htab]
  simp [List.getD_eq_getElem?_getD, h1, List.getElem?_eq_getElem h3]

theorem countLoop_eq (pf : PrimeFinder) (i : Nat) (sieve table : List Nat) (sieveSize : Nat)
    (hb : ∀ v ∈ sieve, v < 256) (hslen : sieve.length < 2 ^ 32)
    (hin : 4 * ceilDiv sieveSize 4 ≤ sieve.length)
    (htab : pf.kCounts_[i]? = some table) (hlen : table.length = 256) :
    ∀ (d a fuel sum : Nat), a + d = ceilDiv sieveSize 4 → d < fuel → sum < 2 ^ 32 →
      countLoop pf i sieve sieveSize fuel (4 * a) sum =
        some (u32 (sum + ((List.range' (4 * a) (4 * d)).map
          (fun j => table.getD (sieve.getD j 0) 0)).sum)) := by
  intro d
  induction d with
  | zero =>
    intro a fuel sum ha hf hsum
    rw [ceilDiv_four] at ha
    obtain ⟨fuel, rfl⟩ : ∃ f, fuel = f + 1 := ⟨fuel - 1, by omega⟩
    have : ¬ 4 * a < sieveSize := by omega
    have hu : u32 sum = sum := Nat.mod_eq_of_lt hsum
    simp [countLoop, this, hu]
  | succ d ih =>
    intro a fuel sum ha hf hsum
    rw [ceilDiv_four] at ha hin
    obtain ⟨fuel, rfl⟩ : ∃ f, fuel = f + 1 := ⟨fuel - 1, by omega⟩
    have hlt : 4 * a < sieveSize := by omega
    have hu : ∀ k, k ≤ 4 → u32 (4 * a + k) = 4 * a + k := by
      intro k hk; unfold u32; omega
    have h0 := kCountAt_eq pf i sieve table (4 * a + 0) hb htab hlen (by omega)
    have h1 := kCountAt_eq pf i sieve table (4 * a + 1) hb htab hlen (by omega)
    have h2 := kCountAt_eq pf i sieve table (4 * a + 2) hb htab hlen (by omega)
    have h3 := kCountAt_eq pf i sieve table (4 * a + 3) hb htab hlen (by omega)
    unfold countLoop
    rw [if_pos hlt, hu 0 (by omega), hu 1 (by omega), hu 2 (by omega), hu 3 (by omega),
      hu 4 (by omega), h0, h1, h2, h3]
    simp only
    rw [show 4 * a + 4 = 4 * (a + 1) by omega,
      ih (a + 1) fuel _ (by rw [ceilDiv_four]; omega) (by omega)
        (by unfold u32; omega)]
    rw [show 4 * (d + 1) = 4 * d + 1 + 1 + 1 + 1 by omega]
    simp only [List.range'_succ, List.map_cons, List.sum_cons]
    rw [show 4 * a + 1 + 1 + 1 + 1 = 4 * (a + 1) by omega,
      show 4 * a + 1 + 1 = 4 * a + 2 by omega, show 4 * a + 1 + 1 + 1 = 4 * a + 3 by omega]
    congr 1
    unfold u32
    simp only [Nat.add_zero]
    omega

theorem countLoop_top (pf : PrimeFinder) (i : Nat) (sieve table : List Nat) (sieveSize : Nat)
    (hb : ∀ v ∈ sieve, v < 256) (hslen : sieve.length < 2 ^ 32)
    (hin : 4 * ceilDiv sieveSize 4 ≤ sieve.length)
    (htab : pf.kCounts_[i]? = some table) (hlen : table.length = 256) :
    countLoop pf i sieve sieveSize (sieveSize + 1) 0 0 =
      some (u32 (tupletSum table sieve (4 * ceilDiv sieveSize 4))) := by
  have h := countLoop_eq pf i sieve table sieveSize hb hslen hin htab hlen
    (ceilDiv sieveSize 4) 0 (sieveSize + 1) 0 (by omega) (by rw [ceilDiv_four]; omega)
    (by norm_num)
  rw [Nat.mul_zero] at h
  rw [h, Nat.zero_add, ← List.range_eq_range']
  rfl

theorem countKind_eq (sieve : List Nat) (sieveSize : Nat) (pf : PrimeFinder) (i : Nat)
    (hb : ∀ v ∈ sieve, v < 256) (hslen : sieve.length < 2 ^ 32)
    (hin : 4 * ceilDiv sieveSize 4 ≤ sieve.length) (hi : i < pf.counts_.length)
    (htab : pf.ps_.isCount i = true → ∃ t, pf.kCounts_[i]? = some t ∧ t.length = 256) :
    countKind sieve sieveSize pf i =
      some (if pf.ps_.isCount i = true then
        { pf with counts_ := pf.counts_.set i (u64 (pf.counts_.getD i 0 +
            u32 (tupletSum ((pf.kCounts_[i]?).getD []) sieve (4 * ceilDiv sieveSize 4)))) }
        else pf) := by
  unfold countKind
  by_cases hc : pf.ps_.isCount i = true
  · obtain ⟨t, ht, htl⟩ := htab hc
    have hget : pf.counts_[i]? = some pf.counts_[i] := List.getElem?_eq_getElem hi
    rw [if_pos hc, if_pos hc, countLoop_top pf i sieve t sieveSize hb hslen hin ht htl]
    simp [addCount, hget, ht, List.getD_eq_getElem?_getD]
  · simp [hc]

theorem countKinds_spec (sieve : List Nat) (sieveSize : Nat)
    (hb : ∀ v ∈ sieve, v < 256) (hslen : sieve.length < 2 ^ 32)
    (hin : 4 * ceilDiv sieveSize 4 ≤ sieve.length) :
    ∀ (is : List Nat) (pf : PrimeFinder), is.Nodup → (∀ i ∈ is, i < pf.counts_.length) →
      (∀ i ∈ is, pf.ps_.isCount i = true → ∃ t, pf.kCounts_[i]? = some t ∧ t.length = 256) →
      ∃ pf1, countKinds sieve sieveSize is pf = some pf1 ∧ pf1.ps_ = pf.ps_ ∧
        pf1.kCounts_ = pf.kCounts_ ∧ pf1.soeStart = pf.soeStart ∧ pf1.soeStop = pf.soeStop ∧
        pf1.soeSieveSize = pf.soeSieveSize ∧ pf1.counts_.length = pf.counts_.length ∧
        ∀ k, pf1.counts_[k]? =
          if k ∈ is ∧ pf.ps_.isCount k = true then
            (pf.counts_[k]?).map (fun c => u64 (c +
              u32 (tupletSum ((pf.kCounts_[k]?).getD []) sieve (4 * ceilDiv sieveSize 4))))
          else pf.counts_[k]? := by
  intro is
  induction is with
  | nil =>
    intro pf _ _ _
    exact ⟨pf, rfl, rfl, rfl, rfl, rfl, rfl, rfl, by simp⟩
  | cons i is ih =>
    intro pf hnd hlt htab
    rw [List.nodup_cons] at hnd
    have hi := hlt i (List.mem_cons_self i is)
    have hstep := countKind_eq sieve sieveSize pf i hb hslen hin hi
      (htab i (List.mem_cons_self i is))
    have hget : pf.counts_[i]? = some pf.counts_[i] := List.getElem?_eq_getElem hi
    by_cases hc : pf.ps_.isCount i = true
    · rw [if_pos hc] at hstep
      obtain ⟨pf1, h1, h2, h3, h4, h5, h6, h7, h8⟩ :=
        ih { pf with counts_ := pf.counts_.set i (u64 (pf.counts_.getD i 0 +
            u32 (tupletSum ((pf.kCounts_[i]?).getD []) sieve (4 * ceilDiv sieveSize 4)))) }
          hnd.2 (fun x hx => by simpa using hlt x (List.mem_cons_of_mem i hx))
          (fun x hx => htab x (List.mem_cons_of_mem i hx))
      dsimp only at h2 h3 h4 h5 h6 h7 h8
      have hrun : countKinds sieve sieveSize (i :: is) pf = some pf1 := by
        simp only [countKinds, hstep]
        exact h1
      refine ⟨pf1, hrun, h2, h3, h4, h5, h6, by simpa using h7, ?_⟩
      intro k
      rw [h8 k]
      by_cases hk1 : k ∈ is ∧ pf.ps_.isCount k = true
      · have hne : i ≠ k := fun h => hnd.1 (h ▸ hk1.1)
        rw [if_pos hk1, if_pos ⟨List.mem_cons_of_mem i hk1.1, hk1.2⟩, List.getElem?_set_ne hne]
      · rw [if_neg hk1]
        by_cases hki : k = i
        · subst hki
          rw [if_pos ⟨List.mem_cons_self k is, hc⟩, List.getElem?_set_self hi, hget,
            List.getD_eq_getElem?_getD, hget]
          rfl
        · have hne : i ≠ k := fun h => hki h.symm
          have : ¬ (k ∈ i :: is ∧ pf.ps_.isCount k = true) := by
            rintro ⟨h, h'⟩
            rcases List.mem_cons.1 h with h | h
            · exact hki h
            · exact hk1 ⟨h, h'⟩
          rw [if_neg this, List.getElem?_set_ne hne]
    · rw [if_neg hc] at hstep
      obtain ⟨pf1, h1, h2, h3, h4, h5, h6, h7, h8⟩ :=
        ih pf hnd.2 (fun x hx => hlt x (List.mem_cons_of_mem i hx))
          (fun x hx => htab x (List.mem_cons_of_mem i hx))
      have hrun : countKinds sieve sieveSize (i :: is) pf = some pf1 := by
        simp only [countKinds, hstep]
        exact h1
      refine ⟨pf1, hrun, h2, h3, h4, h5, h6, h7, ?_⟩
      intro k
      rw [h8 k]
      by_cases hk1 : k ∈ is ∧ pf.ps_.isCount k = true
      · rw [if_pos hk1, if_pos ⟨List.mem_cons_of_mem i hk1.1, hk1.2⟩]
      · have : ¬ (k ∈ i :: is ∧ pf.ps_.isCount k = true) := by
          rintro ⟨h, h'⟩
          rcases List.mem_cons.1 h with h | h
          · subst h; exact hc h'
          · exact hk1 ⟨h, h'⟩
        rw [if_neg hk1, if_neg this]

theorem countPrimes_eq (pf : PrimeFinder) (sieve : List Nat) (sieveSize : Nat)
    (hb : ∀ v ∈ sieve, v < 256) (hin : 8 * ceilDiv sieveSize 8 ≤ sieve.length)
    (hc : 0 < pf.counts_.length) :
    countPrimes pf sieve sieveSize =
      some (if pf.ps_.isFlag PrimeSieve.COUNT_PRIMES = true then
        { pf with counts_ := pf.counts_.set 0 (u64 (pf.counts_.getD 0 0 +
            setBitCount sieve (8 * ceilDiv sieveSize 8))) }
        else pf) := by
  unfold countPrimes
  by_cases hf : pf.ps_.isFlag PrimeSieve.COUNT_PRIMES = true
  · have hget : pf.counts_[0]? = some pf.counts_[0] := List.getElem?_eq_getElem hc
    rw [if_pos hf, if_pos hf, popcount_eq sieve hb _ hin]
    simp only [addCount, hget, List.getD_eq_getElem?_getD, Option.getD_some]
    congr 3
    unfold u64
    omega
  · simp [hf]

/-- The function `count` returns, changes nothing but the counters and leaves
in every counter its `countedValue`. -/
theorem count_spec (pf : PrimeFinder) (sieve : List Nat) (sieveSize : Nat)
    (hb : ∀ v ∈ sieve, v < 256) (hslen : sieve.length < 2 ^ 32)
    (hin : 8 * ceilDiv sieveSize 8 ≤ sieve.length) (hc : pf.counts_.length = 6)
    (htab : ∀ i ∈ List.range' 1 5, pf.ps_.isCount i = true →
      ∃ t, pf.kCounts_[i]? = some t ∧ t.length = 256) :
    ∃ pf1, count pf sieve sieveSize = some pf1 ∧ pf1.ps_ = pf.ps_ ∧
      pf1.kCounts_ = pf.kCounts_ ∧ pf1.soeStart = pf.soeStart ∧ pf1.soeStop = pf.soeStop ∧
      pf1.soeSieveSize = pf.soeSieveSize ∧ pf1.counts_.length = 6 ∧
      ∀ k, pf1.counts_[k]? = (pf.counts_[k]?).map (countedValue pf sieve sieveSize k) := by
  have hin4 : 4 * ceilDiv sieveSize 4 ≤ sieve.length := by
    rw [ceilDiv_four]; rw [ceilDiv_eight] at hin; omega
  have h0 := countPrimes_eq pf sieve sieveSize hb hin (by omega)
  have hget0 : pf.counts_[0]? = some pf.counts_[0] := List.getElem?_eq_getElem (by omega)
  unfold count
  rw [h0]
  simp only
  by_cases hf : pf.ps_.isFlag PrimeSieve.COUNT_PRIMES = true
  · rw [if_pos hf]
    obtain ⟨pf1, h1, h2, h3, h4, h5, h6, h7, h8⟩ :=
      countKinds_spec sieve sieveSize hb hslen hin4 (List.range' 1 5)
        { pf with counts_ := pf.counts_.set 0 (u64 (pf.counts_.getD 0 0 +
            setBitCount sieve (8 * ceilDiv sieveSize 8))) }
        (List.nodup_range' 1 5)
        (by intro i hi; rw [List.mem_range'_1] at hi; simp [hc]; omega) htab
    refine ⟨pf1, by simpa [hc] using h1, h2, h3, h4, h5, h6, by simpa [hc] using h7, ?_⟩
    intro k
    rw [h8 k]
    unfold countedValue
    by_cases hk0 : k = 0
    · subst hk0
      simp [hf, hget0, hc, List.getD_eq_getElem?_getD, List.getElem?_set]
    · have hne : ¬ 0 = k := fun h => hk0 h.symm
      have hmem : k ∈ List.range' 1 5 ↔ k ≤ 5 := by rw [List.mem_range'_1]; omega
      simp only [hmem, hk0, if_false, List.getElem?_set, hne]
      by_cases hcond : k ≤ 5 ∧ pf.ps_.isCount k = true
      · simp only [if_pos hcond]
      · simp only [if_neg hcond]; simp
  · rw [if_neg hf]
    obtain ⟨pf1, h1, h2, h3, h4, h5, h6, h7, h8⟩ :=
      countKinds_spec sieve sieveSize hb hslen hin4 (List.range' 1 5) pf
        (List.nodup_range' 1 5)
        (by intro i hi; rw [List.mem_range'_1] at hi; omega) htab
    refine ⟨pf1, by simpa [hc] using h1, h2, h3, h4, h5, h6, by omega, ?_⟩
    intro k
    rw [h8 k]
    unfold countedValue
    by_cases hk0 : k = 0
    · subst hk0
      simp [hf]
    · have hmem : k ∈ List.range' 1 5 ↔ k ≤ 5 := by rw [List.mem_range'_1]; omega
      simp only [hmem, hk0, if_false]
      by_cases hcond : k ≤ 5 ∧ pf.ps_.isCount k = true
      · simp only [if_pos hcond]
      · simp only [if_neg hcond]; simp

theorem maskList_pos (END i : Nat) (hEND : 255 < END) (hi1 : 1 ≤ i) (hi5 : i ≤ 5) :
    ∀ m ∈ maskList END i, 0 < m := by
  have h6 : (6 != END) = true := by simp; omega
  have h24 : (24 != END) = true := by simp; omega
  have h192 : (192 != END) = true := by simp; omega
  have h7 : (7 != END) = true := by simp; omega
  have h14 : (14 != END) = true := by simp; omega
  have h28 : (28 != END) = true := by simp; omega
  have h56 : (56 != END) = true := by simp; omega
  have h30 : (30 != END) = true := by simp; omega
  have h31 : (31 != END) = true := by simp; omega
  have h62 : (62 != END) = true := by simp; omega
  have h63 : (63 != END) = true := by simp; omega
  have hE : (END != END) = false := by simp
  interval_cases i
  · simp [kBitmasks_, maskList, List.takeWhile, h6, h24, h192, hE]
  · simp [kBitmasks_, maskList, List.takeWhile, h7, h14, h28, h56, hE]
  · simp [kBitmasks_, maskList, List.takeWhile, h30, hE]
  · simp [kBitmasks_, maskList, List.takeWhile, h31, h62, hE]
  · simp [kBitmasks_, maskList, List.takeWhile, h63, hE]

theorem tableOf_length (END i : Nat) : (tableOf END i).length = 256 := by
  simp [tableOf]

theorem tableOf_getD (END i v : Nat) (hv : v < 256) :
    (tableOf END i).getD v 0 = matchCount (maskList END i) v := by
  simp [tableOf, List.getD_eq_getElem?_getD, List.getElem?_map, List.getElem?_range hv]

theorem tableOf_zero (END i : Nat) (hEND : 255 < END) (hi1 : 1 ≤ i) (hi5 : i ≤ 5) :
    (tableOf END i).getD 0 0 = 0 := by
  rw [tableOf_getD END i 0 (by omega)]
  exact countBitmasks_skip 0 _ (maskList_pos END i hEND hi1 hi5)

theorem tupletSum_padding (table sieve : List Nat) (n m : Nat) (hnm : n ≤ m)
    (h0 : table.getD 0 0 = 0) (hpad : ∀ j, n ≤ j → j < m → sieve.getD j 0 = 0) :
    tupletSum table sieve m = tupletSum table sieve n := by
  obtain ⟨d, rfl⟩ : ∃ d, m = n + d := ⟨m - n, by omega⟩
  unfold tupletSum
  rw [List.range_add, List.map_append, List.sum_append, List.map_map]
  have : ((List.range d).map ((fun j => table.getD (sieve.getD j 0) 0) ∘ fun x => n + x)).sum
      = 0 := by
    apply List.sum_eq_zero
    intro x hx
    rw [List.mem_map] at hx
    obtain ⟨a, ha, rfl⟩ := hx
    have ha := List.mem_range.1 ha
    simp only [Function.comp]
    rw [hpad (n + a) (by omega) (by omega), h0]
  rw [this, Nat.add_zero]

theorem tablesBuilt_ready (END : Nat) (pf : PrimeFinder) (h : TablesBuilt END pf) :
    ∀ i ∈ List.range' 1 5, pf.ps_.isCount i = true →
      ∃ t, pf.kCounts_[i]? = some t ∧ t.length = 256 :=
  fun i hi hc => ⟨tableOf END i, h i hi hc, tableOf_length END i⟩

/-! ## Lemmas: the k-tuplet branch of `print` -/

theorem intercalate_go_tail :
    ∀ (vs : List Nat) (acc : String),
      String.intercalate.go acc ", " (vs.map toString) ++ ")\n" = acc ++ tailText vs := by
  intro vs
  induction vs with
  | nil => intro acc; simp [String.intercalate.go, tailText]
  | cons v vs ih =>
    intro acc
    simp only [String.intercalate.go, List.map_cons, tailText]
    rw [ih]
    simp only [String.append_assoc]

theorem groupText_cons (v : Nat) (vs : List Nat) :
    groupText (v :: vs) = "(" ++ (toString v ++ tailText vs) := by
  unfold groupText
  simp only [List.map_cons, String.intercalate]
  rw [String.append_assoc, intercalate_go_tail]

theorem drainTuplet_eq (low : Nat) :
    ∀ (fuel w : Nat) (acc : String), w < 2 ^ 64 → (setBits w).length < fuel →
      drainTuplet low fuel w acc =
        some (match (setBits w).map (bitValue low) with
          | [] => acc
          | v :: vs => acc ++ (toString v ++ tailText vs)) := by
  intro fuel
  induction fuel with
  | zero => intro w acc _ h; omega
  | succ fuel ih =>
    intro w acc hw hf
    unfold drainTuplet
    by_cases h0 : w = 0
    · subst h0
      simp [setBits]
    · obtain ⟨p, rest, h1, h2, h3, h4⟩ := getNextPrime_step w low hw h0
      have hlen : (setBits (getNextPrime w low).2).length < fuel := by
        rw [h3]; rw [h1] at hf; simpa using hf
      simp only [ne_eq, h0, not_false_eq_true, if_true, h1, List.map_cons, h2]
      rw [ih _ _ h4 hlen, h3]
      have hnil := setBits_eq_nil _ h4
      rw [h3] at hnil
      cases rest with
      | nil =>
        have : (getNextPrime w low).2 = 0 := hnil.1 rfl
        simp [this, tailText, String.append_assoc]
      | cons q rest =>
        have : (getNextPrime w low).2 ≠ 0 := fun h => by
          have := hnil.2 h
          exact List.cons_ne_nil _ _ this
        simp [this, tailText, String.append_assoc]

theorem setBits_byte (m : Nat) (hm : m < 256) :
    setBits m = (List.range 8).filter (fun b => m.testBit b) := by
  unfold setBits
  have h64 : List.range 64 = List.range 8 ++ (List.range 56).map (fun x => 8 + x) :=
    List.range_add 8 56
  rw [h64, List.filter_append]
  have : ((List.range 56).map (fun x => 8 + x)).filter (fun b => m.testBit b) = [] := by
    rw [List.filter_eq_nil_iff]
    intro a ha
    rw [List.mem_map] at ha
    obtain ⟨x, _, rfl⟩ := ha
    have h1 : m < 2 ^ (8 + x) :=
      Nat.lt_of_lt_of_le (show m < 2 ^ 8 from hm) (Nat.pow_le_pow_right (by decide) (by omega))
    simp [Nat.testBit_lt_two_pow h1]
  rw [this, List.append_nil]

/-- The values that the loop on the string stream decodes from a mask are
the values of the bits of the mask relative to the base of the byte. -/
theorem mask_values (low j lw m : Nat) (hm : m < 256)
    (hlw : u64 lw = u64 (low + NUMBERS_PER_BYTE * j)) :
    (setBits m).map (bitValue lw) = decodeByte low j m := by
  rw [setBits_byte m hm]
  unfold decodeByte
  apply List.map_congr_left
  intro b hb
  have hb8 : b < 8 := List.mem_range.1 (List.mem_filter.1 hb).1
  have e1 : b / 8 = 0 := by omega
  have e2 : b % 8 = b := by omega
  unfold bitValue
  rw [e1, e2]
  unfold u64 at *
  omega

theorem decodeByte_ne_nil (low j m : Nat) (h0 : 0 < m) (hm : m < 256) :
    decodeByte low j m ≠ [] := by
  intro h
  have h1 : setBits m = [] := by
    have := mask_values low j (low + NUMBERS_PER_BYTE * j) m hm rfl
    rw [h] at this
    simpa using this
  have := (setBits_eq_nil m (by omega)).1 h1
  omega

theorem drainTuplet_mask (low j lw m : Nat) (h0 : 0 < m) (hm : m < 256)
    (hlw : u64 lw = u64 (low + NUMBERS_PER_BYTE * j)) :
    drainTuplet lw 65 m "(" = some (groupText (decodeByte low j m)) := by
  rw [drainTuplet_eq lw 65 m "(" (by omega)
    (Nat.lt_of_le_of_lt (setBits_length_le m) (by omega)), mask_values low j lw m hm hlw]
  have hne := decodeByte_ne_nil low j m h0 hm
  cases h : decodeByte low j m with
  | nil => exact absurd h hne
  | cons v vs => simp only [groupText_cons]

theorem groupsText_append :
    ∀ (xs ys : List (List Nat)), groupsText (xs ++ ys) = groupsText xs ++ groupsText ys := by
  intro xs
  induction xs with
  | nil => intro ys; simp [groupsText]
  | cons x xs ih => intro ys; simp [groupsText, ih, String.append_assoc]

theorem filter_match_nil (v : Nat) (ms : List Nat) (h : ∀ m ∈ ms, v < m) :
    ms.filter (fun m => v &&& m == m) = [] := by
  have := countBitmasks_skip v ms h
  unfold matchCount at this
  exact List.length_eq_zero.1 this

theorem printBitmasks_sorted (END low j lw v : Nat) (rest : List Nat) (hv : v < END)
    (hlw : u64 lw = u64 (low + NUMBERS_PER_BYTE * j)) :
    ∀ (ms : List Nat) (out : String), ms.Pairwise (fun a b => a < b) →
      (∀ m ∈ ms, 0 < m ∧ m < 256) →
      printBitmasks lw v (ms ++ END :: rest) out =
        some (out ++ groupsText ((ms.filter (fun m => v &&& m == m)).map
          (fun m => decodeByte low j m))) := by
  intro ms
  induction ms with
  | nil =>
    intro out _ _
    have : ¬ END ≤ v := by omega
    simp [printBitmasks, this, groupsText]
  | cons m ms ih =>
    intro out hs hm
    rw [List.pairwise_cons] at hs
    have hm1 := hm m (List.mem_cons_self m ms)
    have hms : ∀ x ∈ ms, 0 < x ∧ x < 256 := fun x hx => hm x (List.mem_cons_of_mem m hx)
    by_cases hle : m ≤ v
    · by_cases hmatch : v &&& m = m
      · simp only [List.cons_append, printBitmasks, hle, if_true, hmatch,
          drainTuplet_mask low j lw m hm1.1 hm1.2 hlw]
        show printBitmasks lw v (ms ++ END :: rest) _ = _
        rw [ih _ hs.2 hms]
        simp [List.filter_cons, hmatch, groupsText, String.append_assoc]
      · simp only [List.cons_append, printBitmasks, hle, if_true, hmatch, if_false]
        show printBitmasks lw v (ms ++ END :: rest) _ = _
        rw [ih _ hs.2 hms]
        simp [List.filter_cons, hmatch]
    · have hskip : (m :: ms).filter (fun m => v &&& m == m) = [] := by
        apply filter_match_nil
        intro x hx
        rcases List.mem_cons.1 hx with rfl | hx
        · omega
        · have := hs.1 x hx
          omega
      simp only [List.cons_append, printBitmasks, hle, if_false, hskip, List.map_nil, groupsText,
        String.append_empty]

theorem printTupletsLoop_eq (END i low : Nat) (rest sieve : List Nat) (sieveSize : Nat)
    (hEND : 255 < END) (hb : ∀ v ∈ sieve, v < 256) (hslen : sieve.length < 2 ^ 32)
    (hin : sieveSize ≤ sieve.length)
    (hs : (maskList END i).Pairwise (fun a b => a < b))
    (hm : ∀ m ∈ maskList END i, 0 < m ∧ m < 256) :
    ∀ (d j fuel lw : Nat) (out : String), j + d = sieveSize → d < fuel →
      u64 lw = u64 (low + NUMBERS_PER_BYTE * j) →
      printTupletsLoop (maskList END i ++ END :: rest) sieve sieveSize fuel j lw out =
        some (out ++ groupsText ((List.range' j d).flatMap
          (fun j => byteGroups END i low j (sieve.getD j 0)))) := by
  intro d
  induction d with
  | zero =>
    intro j fuel lw out hj hf _
    obtain ⟨fuel, rfl⟩ : ∃ f, fuel = f + 1 := ⟨fuel - 1, by omega⟩
    have : ¬ j < sieveSize := by omega
    simp [printTupletsLoop, this, groupsText]
  | succ d ih =>
    intro j fuel lw out hj hf hlw
    obtain ⟨fuel, rfl⟩ : ∃ f, fuel = f + 1 := ⟨fuel - 1, by omega⟩
    have hlt : j < sieveSize := by omega
    have hjl : j < sieve.length := by omega
    have hget : sieve[j]? = some sieve[j] := List.getElem?_eq_getElem hjl
    have hv : sieve[j] < 256 := hb _ (List.getElem_mem hjl)
    have hD : sieve.getD j 0 = sieve[j] := by
      rw [List.getD_eq_getElem?_getD, hget]; rfl
    have hu32 : u32 (j + 1) = j + 1 := by unfold u32; omega
    have hlw1 : u64 (u64 (lw + NUMBERS_PER_BYTE)) = u64 (low + NUMBERS_PER_BYTE * (j + 1)) := by
      unfold u64 NUMBERS_PER_BYTE at *
      omega
    unfold printTupletsLoop
    rw [if_pos hlt, hget]
    simp only
    rw [printBitmasks_sorted END low j lw sieve[j] rest (by omega) hlw _ out hs hm]
    simp only
    rw [hu32, ih (j + 1) fuel _ _ (by omega) (by omega) hlw1, List.range'_succ,
      List.flatMap_cons, groupsText_append, hD]
    simp only [byteGroups, String.append_assoc]

theorem selectKind_eq (ps : PrimeSieve) (i : Nat) (hi : ps.isPrint i = true)
    (hi32 : i < 2 ^ 32) :
    ∀ (fuel k : Nat), k ≤ i → i - k < fuel → (∀ j, k ≤ j → j < i → ps.isPrint j = false) →
      selectKind ps fuel k = some i := by
  intro fuel
  induction fuel with
  | zero => intro k _ h _; omega
  | succ fuel ih =>
    intro k hk hf hlow
    unfold selectKind
    by_cases hki : k = i
    · subst hki; simp [hi]
    · have hk1 : ps.isPrint k = false := hlow k (Nat.le_refl k) (by omega)
      have hu : u32 (k + 1) = k + 1 := by unfold u32; omega
      simp only [hk1, Bool.false_eq_true, if_false, hu]
      exact ih (k + 1) (by omega) (by omega) (fun j h1 h2 => hlow j (by omega) h2)

theorem isFlagRange_print (ps : PrimeSieve) (i : Nat) (hi1 : 1 ≤ i) (hi5 : i ≤ 5)
    (hi : ps.isPrint i = true) :
    ps.isFlagRange PrimeSieve.PRINT_TWINS PrimeSieve.PRINT_SEXTUPLETS = true := by
  unfold PrimeSieve.isPrint PrimeSieve.isFlag at hi
  unfold PrimeSieve.isFlagRange
  have hi : ps.flags_ &&& (PrimeSieve.PRINT_PRIMES <<< i) = PrimeSieve.PRINT_PRIMES <<< i := by
    simpa using hi
  have hmask : (PrimeSieve.PRINT_SEXTUPLETS * 2 - PrimeSieve.PRINT_TWINS) &&&
      (PrimeSieve.PRINT_PRIMES <<< i) = PrimeSieve.PRINT_PRIMES <<< i := by
    interval_cases i <;> decide
  have hpos : PrimeSieve.PRINT_PRIMES <<< i ≠ 0 := by
    interval_cases i <;> decide
  simp only [bne_iff_ne, ne_eq]
  intro h0
  have h1 : (ps.flags_ &&& (PrimeSieve.PRINT_SEXTUPLETS * 2 - PrimeSieve.PRINT_TWINS)) &&&
      (PrimeSieve.PRINT_PRIMES <<< i) = PrimeSieve.PRINT_PRIMES <<< i := by
    rw [Nat.land_assoc, hmask, hi]
  rw [h0, Nat.zero_and] at h1
  exact hpos h1.symm

/-- The k-tuplet branch of `print` writes the k-tuplets of the smallest
requested kind. -/
theorem printTuplets_eq (END : Nat) (pf : PrimeFinder) (low : Nat) (sieve : List Nat)
    (sieveSize : Nat) (out : String) (i : Nat) (hEND : 255 < END)
    (hb : ∀ v ∈ sieve, v < 256) (hslen : sieve.length < 2 ^ 32) (hin : sieveSize ≤ sieve.length)
    (hi1 : 1 ≤ i) (hi5 : i ≤ 5) (hreq : pf.ps_.isPrint i = true)
    (hmin : ∀ k, 1 ≤ k → k < i → pf.ps_.isPrint k = false) :
    printTuplets END pf low sieve sieveSize out =
      some (out ++ groupsText (tupletGroups END i low sieve sieveSize)) := by
  obtain ⟨rest, hrow, hs, _, hm⟩ := row_split END i hEND hi1 hi5
  have hpos := maskList_pos END i hEND hi1 hi5
  unfold printTuplets
  rw [if_pos (isFlagRange_print pf.ps_ i hi1 hi5 hreq),
    selectKind_eq pf.ps_ i hreq (by omega) 32 1 hi1 (by omega) hmin]
  simp only [hrow]
  rw [printTupletsLoop_eq END i low rest sieve sieveSize hEND hb hslen hin hs
    (fun m h => ⟨hpos m h, hm m h⟩) sieveSize 0 (sieveSize + 1) low out (by omega) (by omega)
    (by simp), ← List.range_eq_range']
  rfl

theorem maskList_END (END i : Nat) (hEND : 255 < END) (hi1 : 1 ≤ i) (hi5 : i ≤ 5) :
    maskList END i = maskList 256 i := by
  have h6 : (6 != END) = true := by simp; omega
  have h24 : (24 != END) = true := by simp; omega
  have h192 : (192 != END) = true := by simp; omega
  have h7 : (7 != END) = true := by simp; omega
  have h14 : (14 != END) = true := by simp; omega
  have h28 : (28 != END) = true := by simp; omega
  have h56 : (56 != END) = true := by simp; omega
  have h30 : (30 != END) = true := by simp; omega
  have h31 : (31 != END) = true := by simp; omega
  have h62 : (62 != END) = true := by simp; omega
  have h63 : (63 != END) = true := by simp; omega
  have hE : (END != END) = false := by simp
  interval_cases i
  · simp [kBitmasks_, maskList, List.takeWhile, h6, h24, h192, hE]
  · simp [kBitmasks_, maskList, List.takeWhile, h7, h14, h28, h56, hE]
  · simp [kBitmasks_, maskList, List.takeWhile, h30, hE]
  · simp [kBitmasks_, maskList, List.takeWhile, h31, h62, hE]
  · simp [kBitmasks_, maskList, List.takeWhile, h63, hE]

theorem maskList_firstValue (END i : Nat) (hEND : 255 < END) (hi1 : 1 ≤ i) (hi5 : i ≤ 5) :
    (maskList END i).Pairwise (fun a b => firstValue a < firstValue b) := by
  rw [maskList_END END i hEND hi1 hi5]
  interval_cases i <;> decide

set_option maxRecDepth 100000 in
theorem firstValue_bounds : ∀ m, m < 256 → 0 < m → 7 ≤ firstValue m ∧ firstValue m ≤ 31 := by
  decide

theorem decodeByte_head (low j m : Nat) (h0 : 0 < m) (hm : m < 256) :
    (decodeByte low j m).headD 0 = u64 (low + NUMBERS_PER_BYTE * j + firstValue m) := by
  have hne := decodeByte_ne_nil low j m h0 hm
  unfold decodeByte at hne ⊢
  unfold firstValue
  cases h : (List.range 8).filter (fun b => m.testBit b) with
  | nil => rw [h] at hne; exact absurd rfl hne
  | cons b bs => rfl

theorem mem_byteGroups (END i low j v : Nat) (g : List Nat) (h : g ∈ byteGroups END i low j v) :
    ∃ m, m ∈ maskList END i ∧ v &&& m = m ∧ g = decodeByte low j m := by
  unfold byteGroups at h
  rw [List.mem_map] at h
  obtain ⟨m, hm, rfl⟩ := h
  rw [List.mem_filter] at hm
  exact ⟨m, hm.1, by simpa using hm.2, rfl⟩

theorem mem_tupletGroups (END i low : Nat) (sieve : List Nat) (n : Nat) (g : List Nat)
    (h : g ∈ tupletGroups END i low sieve n) :
    ∃ j m, j < n ∧ m ∈ maskList END i ∧ sieve.getD j 0 &&& m = m ∧ g = decodeByte low j m := by
  unfold tupletGroups at h
  rw [List.mem_flatMap] at h
  obtain ⟨j, hj, hg⟩ := h
  obtain ⟨m, h1, h2, h3⟩ := mem_byteGroups END i low j _ g hg
  exact ⟨j, m, List.mem_range.1 hj, h1, h2, h3⟩

theorem headD_mem (g : List Nat) (h : g ≠ []) : g.headD 0 ∈ g := by
  cases g with
  | nil => exact absurd rfl h
  | cons a l => simp

/-- The first values of the k-tuplets of a segment ascend strictly. -/
theorem tupletGroups_heads (END i low : Nat) (sieve : List Nat) (n : Nat) (hEND : 255 < END)
    (hi1 : 1 ≤ i) (hi5 : i ≤ 5) (hfit : low + NUMBERS_PER_BYTE * n + 1 < 2 ^ 64) :
    ((tupletGroups END i low sieve n).map (fun g => g.headD 0)).Pairwise (fun x y => x < y) := by
  obtain ⟨_, _, _, _, hm⟩ := row_split END i hEND hi1 hi5
  have hpos := maskList_pos END i hEND hi1 hi5
  unfold tupletGroups
  rw [List.map_flatMap, List.pairwise_flatMap]
  unfold NUMBERS_PER_BYTE at hfit
  constructor
  · intro j hj
    have hj := List.mem_range.1 hj
    unfold byteGroups
    rw [List.map_map, List.pairwise_map]
    have hp : ((maskList END i).filter (fun m => sieve.getD j 0 &&& m == m)).Pairwise
        (fun a b => firstValue a < firstValue b) :=
      (maskList_firstValue END i hEND hi1 hi5).filter _
    refine hp.imp_of_mem ?_
    intro a b ha hb hab
    have ha := (List.mem_filter.1 ha).1
    have hb := (List.mem_filter.1 hb).1
    simp only [Function.comp]
    rw [decodeByte_head low j a (hpos a ha) (hm a ha),
      decodeByte_head low j b (hpos b hb) (hm b hb)]
    have h2 := firstValue_bounds b (hm b hb) (hpos b hb)
    unfold u64 NUMBERS_PER_BYTE
    rw [Nat.mod_eq_of_lt (by omega), Nat.mod_eq_of_lt (by omega)]
    omega
  · refine (List.pairwise_lt_range n).imp_of_mem ?_
    intro j1 j2 hj1 hj2 hlt x hx y hy
    have hj2 := List.mem_range.1 hj2
    rw [List.mem_map] at hx hy
    obtain ⟨g1, hg1, rfl⟩ := hx
    obtain ⟨g2, hg2, rfl⟩ := hy
    obtain ⟨m1, hm1, _, rfl⟩ := mem_byteGroups END i low j1 _ g1 hg1
    obtain ⟨m2, hm2, _, rfl⟩ := mem_byteGroups END i low j2 _ g2 hg2
    have hx := headD_mem _ (decodeByte_ne_nil low j1 m1 (hpos m1 hm1) (hm m1 hm1))
    have hy := headD_mem _ (decodeByte_ne_nil low j2 m2 (hpos m2 hm2) (hm m2 hm2))
    obtain ⟨a, ha, _, hxa⟩ := mem_decodeByte _ _ _ _ hx
    obtain ⟨b, hb, _, hyb⟩ := mem_decodeByte _ _ _ _ hy
    rw [hxa, hyb]
    have h1 := bitValues_bounds a ha
    have h2 := bitValues_bounds b hb
    unfold u64 NUMBERS_PER_BYTE
    rw [Nat.mod_eq_of_lt (by omega), Nat.mod_eq_of_lt (by omega)]
    omega

/-! ## Lemmas: twins -/

theorem twin_residues :
    ∀ r, r < 30 → Nat.gcd r 30 = 1 → Nat.gcd ((r + 2) % 30) 30 = 1 →
      r = 11 ∨ r = 17 ∨ r = 29 := by
  decide

theorem coprime_mod (n : Nat) (h : Nat.Coprime n 30) : Nat.gcd (n % 30) 30 = 1 := by
  have : Nat.gcd (n % 30) 30 = Nat.gcd 30 n := (Nat.gcd_rec 30 n).symm
  rw [this, Nat.gcd_comm]
  exact h

set_option maxRecDepth 100000 in
theorem twin_table : ∀ v, v < 256 → matchCount (maskList 256 1) v = twinPairs v := by
  decide

/-! ## Lemmas: the print flags -/

theorem land_two_pow_iff (x k : Nat) : x &&& 2 ^ k = 2 ^ k ↔ x.testBit k = true := by
  constructor
  · intro h
    have := congrArg (fun y => Nat.testBit y k) h
    simpa [Nat.testBit_and, Nat.testBit_two_pow_self] using this
  · intro h
    apply Nat.eq_of_testBit_eq
    intro j
    rw [Nat.testBit_and, Nat.testBit_two_pow]
    by_cases hkj : k = j
    · subst hkj; simp [h]
    · simp [hkj]

theorem isPrint_iff (ps : PrimeSieve) (i : Nat) :
    ps.isPrint i = true ↔ ps.flags_.testBit (6 + i) = true := by
  unfold PrimeSieve.isPrint PrimeSieve.isFlag PrimeSieve.PRINT_PRIMES
  rw [← land_two_pow_iff]
  have : (1 <<< 6) <<< i = 2 ^ (6 + i) := by
    rw [Nat.shiftLeft_eq, Nat.one_shiftLeft, ← Nat.pow_add]
  rw [this]
  simp

theorem testBit_print_mask :
    ∀ j, j < 12 → Nat.testBit 3968 j = decide (7 ≤ j) := by
  decide

/-- When some k-tuplet print flag is set, some kind in 1..5 is requested for
printing. -/
theorem isPrint_of_isFlagRange (ps : PrimeSieve)
    (h : ps.isFlagRange PrimeSieve.PRINT_TWINS PrimeSieve.PRINT_SEXTUPLETS = true) :
    ∃ i, 1 ≤ i ∧ i ≤ 5 ∧ ps.isPrint i = true := by
  by_contra hne
  have hall : ∀ i, 1 ≤ i → i ≤ 5 → ps.flags_.testBit (6 + i) = false := by
    intro i h1 h5
    by_contra hb
    exact hne ⟨i, h1, h5, (isPrint_iff ps i).2 (by simpa using hb)⟩
  unfold PrimeSieve.isFlagRange at h
  have hmask : PrimeSieve.PRINT_SEXTUPLETS * 2 - PrimeSieve.PRINT_TWINS = 3968 := by decide
  rw [hmask] at h
  have h0 : ps.flags_ &&& 3968 = 0 := by
    apply Nat.eq_of_testBit_eq
    intro j
    rw [Nat.testBit_and, Nat.zero_testBit]
    by_cases hj : j < 12
    · rw [testBit_print_mask j hj]
      by_cases h7 : 7 ≤ j
      · have := hall (j - 6) (by omega) (by omega)
        rw [show 6 + (j - 6) = j by omega] at this
        simp [this]
      · simp [h7]
    · have : Nat.testBit 3968 j = false :=
        Nat.testBit_lt_two_pow (Nat.lt_of_lt_of_le (by decide : 3968 < 2 ^ 12)
          (Nat.pow_le_pow_right (by decide) (by omega)))
      simp [this]
  rw [h0] at h
  exact absurd h (by decide)

theorem selectKind_spec (ps : PrimeSieve) :
    ∀ (fuel k i : Nat), k + fuel < 2 ^ 32 → selectKind ps fuel k = some i →
      k ≤ i ∧ i < k + fuel ∧ ps.isPrint i = true ∧
        ∀ j, k ≤ j → j < i → ps.isPrint j = false := by
  intro fuel
  induction fuel with
  | zero => intro k i _ h; simp [selectKind] at h
  | succ fuel ih =>
    intro k i hk h
    unfold selectKind at h
    by_cases hp : ps.isPrint k = true
    · simp only [hp, if_true, Option.some.injEq] at h
      subst h
      exact ⟨Nat.le_refl _, by omega, hp, fun j h1 h2 => by omega⟩
    · have hu : u32 (k + 1) = k + 1 := by unfold u32; omega
      simp only [hp, if_false, hu] at h
      obtain ⟨h1, h2, h3, h4⟩ := ih (k + 1) i (by omega) h
      refine ⟨by omega, by omega, h3, ?_⟩
      intro j hj1 hj2
      by_cases hjk : j = k
      · subst hjk; simpa using hp
      · exact h4 j (by omega) hj2

/-- The k-tuplet branch of `print` returns: nothing is written without a
k-tuplet print flag, and otherwise the k-tuplets of the smallest requested
kind are written. -/
theorem printTuplets_total (END : Nat) (pf : PrimeFinder) (low : Nat) (sieve : List Nat)
    (sieveSize : Nat) (out : String) (hEND : 255 < END)
    (hb : ∀ v ∈ sieve, v < 256) (hslen : sieve.length < 2 ^ 32)
    (hin : sieveSize ≤ sieve.length) :
    (pf.ps_.isFlagRange PrimeSieve.PRINT_TWINS PrimeSieve.PRINT_SEXTUPLETS = false ∧
      printTuplets END pf low sieve sieveSize out = some out) ∨
    (∃ i, 1 ≤ i ∧ i ≤ 5 ∧ pf.ps_.isPrint i = true ∧
      (∀ k, 1 ≤ k → k < i → pf.ps_.isPrint k = false) ∧
      printTuplets END pf low sieve sieveSize out =
        some (out ++ groupsText (tupletGroups END i low sieve sieveSize))) := by
  by_cases hg : pf.ps_.isFlagRange PrimeSieve.PRINT_TWINS PrimeSieve.PRINT_SEXTUPLETS = true
  · right
    obtain ⟨i0, h1, h5, hp⟩ := isPrint_of_isFlagRange pf.ps_ hg
    have hex : ∃ i, 1 ≤ i ∧ pf.ps_.isPrint i = true := ⟨i0, h1, hp⟩
    let i := Nat.find hex
    have hi : 1 ≤ i ∧ pf.ps_.isPrint i = true := Nat.find_spec hex
    have hle : i ≤ i0 := Nat.find_min' hex ⟨h1, hp⟩
    have hmin : ∀ k, 1 ≤ k → k < i → pf.ps_.isPrint k = false := by
      intro k hk1 hk2
      have := Nat.find_min hex hk2
      by_contra hb'
      exact this ⟨hk1, by simpa using hb'⟩
    exact ⟨i, hi.1, by omega, hi.2, hmin,
      printTuplets_eq END pf low sieve sieveSize out i hEND hb hslen hin hi.1 (by omega) hi.2 hmin⟩
  · left
    have hg' : pf.ps_.isFlagRange PrimeSieve.PRINT_TWINS PrimeSieve.PRINT_SEXTUPLETS = false := by
      simpa using hg
    exact ⟨hg', by simp [printTuplets, hg']⟩

/-! ## Lemmas: concatenation of two buffers -/

theorem getD_append_left (A B : List Nat) (j : Nat) (h : j < A.length) :
    (A ++ B).getD j 0 = A.getD j 0 := by
  simp [List.getD_eq_getElem?_getD, List.getElem?_append_left h]

theorem getD_append_right (A B : List Nat) (j : Nat) :
    (A ++ B).getD (A.length + j) 0 = B.getD j 0 := by
  simp [List.getD_eq_getElem?_getD, List.getElem?_append_right]

theorem decodeByte_shift (low n j v : Nat) :
    decodeByte low (n + j) v = decodeByte (low + NUMBERS_PER_BYTE * n) j v := by
  unfold decodeByte
  apply List.map_congr_left
  intro b _
  rw [Nat.mul_add]
  congr 1
  omega

theorem decodeBuffer_congr (low : Nat) (A B : List Nat) (n : Nat)
    (h : ∀ j, j < n → A.getD j 0 = B.getD j 0) :
    decodeBuffer low A n = decodeBuffer low B n := by
  unfold decodeBuffer
  apply List.flatMap_congr
  intro j hj
  rw [h j (List.mem_range.1 hj)]

theorem decodeBuffer_append (low : Nat) (A B : List Nat) :
    decodeBuffer low (A ++ B) (A ++ B).length =
      decodeBuffer low A A.length ++
        decodeBuffer (low + NUMBERS_PER_BYTE * A.length) B B.length := by
  rw [List.length_append]
  unfold decodeBuffer
  rw [List.range_add, List.flatMap_append, List.flatMap_map]
  congr 1
  · apply List.flatMap_congr
    intro j hj
    rw [getD_append_left A B j (List.mem_range.1 hj)]
  · apply List.flatMap_congr
    intro j _
    rw [getD_append_right, decodeByte_shift]

theorem tupletGroups_append (END i low : Nat) (A B : List Nat) :
    tupletGroups END i low (A ++ B) (A ++ B).length =
      tupletGroups END i low A A.length ++
        tupletGroups END i (low + NUMBERS_PER_BYTE * A.length) B B.length := by
  rw [List.length_append]
  unfold tupletGroups
  rw [List.range_add, List.flatMap_append, List.flatMap_map]
  congr 1
  · apply List.flatMap_congr
    intro j hj
    rw [getD_append_left A B j (List.mem_range.1 hj)]
  · apply List.flatMap_congr
    intro j _
    rw [getD_append_right]
    unfold byteGroups
    apply List.map_congr_left
    intro m _
    rw [decodeByte_shift]

theorem tupletGroups_congr (END i low : Nat) (A B : List Nat) (n : Nat)
    (h : ∀ j, j < n → A.getD j 0 = B.getD j 0) :
    tupletGroups END i low A n = tupletGroups END i low B n := by
  unfold tupletGroups
  apply List.flatMap_congr
  intro j hj
  rw [h j (List.mem_range.1 hj)]

theorem setBitCount_append (A B : List Nat) :
    setBitCount (A ++ B) (A ++ B).length = setBitCount A A.length + setBitCount B B.length := by
  rw [← decodeBuffer_length 0, ← decodeBuffer_length 0,
    ← decodeBuffer_length (0 + NUMBERS_PER_BYTE * A.length), decodeBuffer_append,
    List.length_append]

theorem tupletSum_append (table A B : List Nat) :
    tupletSum table (A ++ B) (A ++ B).length =
      tupletSum table A A.length + tupletSum table B B.length := by
  rw [List.length_append]
  unfold tupletSum
  rw [List.range_add, List.map_append, List.sum_append, List.map_map]
  congr 2
  · apply List.map_congr_left
    intro j hj
    rw [getD_append_left A B j (List.mem_range.1 hj)]
  · apply List.map_congr_left
    intro j _
    simp only [Function.comp]
    rw [getD_append_right]

theorem tupletSum_le (table sieve : List Nat) (n c : Nat) (h : ∀ v, table.getD v 0 ≤ c) :
    tupletSum table sieve n ≤ c * n := by
  unfold tupletSum
  induction n with
  | zero => simp
  | succ n ih =>
    rw [List.range_succ, List.map_append, List.sum_append]
    have := h (sieve.getD n 0)
    simp only [List.map_cons, List.map_nil, List.sum_cons, List.sum_nil, Nat.add_zero]
    rw [Nat.mul_succ]
    omega

theorem matchCount_le (ms : List Nat) (v : Nat) : matchCount ms v ≤ ms.length :=
  List.length_filter_le _ _

theorem tableOf_le (END i : Nat) (hEND : 255 < END) (hi1 : 1 ≤ i) (hi5 : i ≤ 5) :
    ∀ v, (tableOf END i).getD v 0 ≤ 4 := by
  intro v
  obtain ⟨_, _, _, hlen, _⟩ := row_split END i hEND hi1 hi5
  by_cases hv : v < 256
  · rw [tableOf_getD END i v hv]
    exact Nat.le_trans (matchCount_le _ _) hlen
  · rw [List.getD_eq_getElem?_getD, List.getElem?_eq_none (by rw [tableOf_length]; omega)]
    simp

theorem lines_append : ∀ (xs ys : List Nat), lines (xs ++ ys) = lines xs ++ lines ys := by
  intro xs
  induction xs with
  | nil => intro ys; simp [lines]
  | cons x xs ih => intro ys; simp [lines, ih, String.append_assoc]

theorem ceilDiv_eight_mul (n : Nat) (h : n % 8 = 0) : 8 * ceilDiv n 8 = n := by
  rw [ceilDiv_eight]; omega

theorem ceilDiv_four_mul (n : Nat) (h : n % 8 = 0) : 4 * ceilDiv n 4 = n := by
  rw [ceilDiv_four]; omega

theorem callbackPrimes_whole {σ : Type} (cb : σ → Nat → Signal σ) (low : Nat) (A : List Nat)
    (s : σ) (hA : ∀ v ∈ A, v < 256) (hlen : A.length < 2 ^ 32) (h8 : A.length % 8 = 0) :
    callbackPrimes cb low A A.length s = deliver cb (decodeBuffer low A A.length) s := by
  have := callbackPrimes_eq cb low A A.length s hA hlen
    (by rw [ceilDiv_eight_mul _ h8])
  rw [ceilDiv_eight_mul _ h8] at this
  exact this

theorem callbackPrimes_append {σ : Type} (cb : σ → Nat → Signal σ) (low : Nat) (A B : List Nat)
    (s : σ) (hA : ∀ v ∈ A, v < 256) (hB : ∀ v ∈ B, v < 256) (hA8 : A.length % 8 = 0)
    (hB8 : B.length % 8 = 0) (hlen : (A ++ B).length < 2 ^ 32) :
    callbackPrimes cb low (A ++ B) (A ++ B).length s =
      match callbackPrimes cb low A A.length s with
      | Run.done s1 => callbackPrimes cb (low + NUMBERS_PER_BYTE * A.length) B B.length s1
      | Run.stopped s1 => Run.stopped s1
      | Run.fault => Run.fault := by
  have hAB : ∀ v ∈ A ++ B, v < 256 := by
    intro v hv
    rcases List.mem_append.1 hv with h | h
    · exact hA v h
    · exact hB v h
  have hl := hlen
  rw [List.length_append] at hl
  rw [callbackPrimes_whole cb low (A ++ B) s hAB hlen (by rw [List.length_append]; omega),
    callbackPrimes_whole cb low A s hA (by omega) hA8, decodeBuffer_append, deliver_append]
  cases deliver cb (decodeBuffer low A A.length) s with
  | done s1 =>
    simp only
    rw [callbackPrimes_whole cb _ B s1 hB (by omega) hB8]
  | stopped s1 => rfl
  | fault => rfl

theorem countedValue_congr (pf pf1 : PrimeFinder) (sieve : List Nat) (sieveSize k c : Nat)
    (h1 : pf1.ps_ = pf.ps_) (h2 : pf1.kCounts_ = pf.kCounts_) :
    countedValue pf1 sieve sieveSize k c = countedValue pf sieve sieveSize k c := by
  unfold countedValue
  rw [h1, h2]

theorem countedValue_append (END : Nat) (pf : PrimeFinder) (A B : List Nat) (k c : Nat)
    (hEND : 255 < END) (hA8 : A.length % 8 = 0) (hB8 : B.length % 8 = 0)
    (hlen : (A ++ B).length < 2 ^ 30) (htab : TablesBuilt END pf) :
    countedValue pf B B.length k (countedValue pf A A.length k c) =
      countedValue pf (A ++ B) (A ++ B).length k c := by
  have hAB8 : (A ++ B).length % 8 = 0 := by rw [List.length_append]; omega
  have hl := hlen
  rw [List.length_append] at hl
  unfold countedValue
  rw [ceilDiv_eight_mul _ hA8, ceilDiv_eight_mul _ hB8, ceilDiv_eight_mul _ hAB8,
    ceilDiv_four_mul _ hA8, ceilDiv_four_mul _ hB8, ceilDiv_four_mul _ hAB8]
  by_cases hk0 : k = 0
  · simp only [hk0, if_true]
    by_cases hf : pf.ps_.isFlag PrimeSieve.COUNT_PRIMES = true
    · simp only [hf, if_true]
      rw [setBitCount_append]
      unfold u64
      omega
    · simp only [hf]
      simp
  · simp only [hk0, if_false]
    by_cases hcond : k ≤ 5 ∧ pf.ps_.isCount k = true
    · have hk1 : 1 ≤ k := by omega
      have ht : pf.kCounts_[k]? = some (tableOf END k) :=
        htab k (by rw [List.mem_range'_1]; omega) hcond.2
      simp only [hcond, and_self, if_true, ht, Option.getD_some]
      rw [tupletSum_append]
      have hle := tableOf_le END k hEND hk1 hcond.1
      have h1 := tupletSum_le (tableOf END k) A A.length 4 hle
      have h2 := tupletSum_le (tableOf END k) B B.length 4 hle
      unfold u64 u32
      omega
    · simp only [hcond, if_false]

theorem PrimeFinder_ext (p q : PrimeFinder) (h1 : p.soeStart = q.soeStart)
    (h2 : p.soeStop = q.soeStop) (h3 : p.soeSieveSize = q.soeSieveSize) (h4 : p.ps_ = q.ps_)
    (h5 : p.counts_ = q.counts_) (h6 : p.kCounts_ = q.kCounts_) : p = q := by
  cases p; cases q; simp_all

theorem count_append (END : Nat) (pf : PrimeFinder) (A B : List Nat) (hEND : 255 < END)
    (hA : ∀ v ∈ A, v < 256) (hB : ∀ v ∈ B, v < 256) (hA8 : A.length % 8 = 0)
    (hB8 : B.length % 8 = 0) (hlen : (A ++ B).length < 2 ^ 30)
    (hc : pf.counts_.length = 6) (htab : TablesBuilt END pf) :
    ∃ pf2, count pf (A ++ B) (A ++ B).length = some pf2 ∧
      (count pf A A.length).bind (fun pf1 => count pf1 B B.length) = some pf2 := by
  have hAB : ∀ v ∈ A ++ B, v < 256 := by
    intro v hv
    rcases List.mem_append.1 hv with h | h
    · exact hA v h
    · exact hB v h
  have hAB8 : (A ++ B).length % 8 = 0 := by rw [List.length_append]; omega
  have hl := hlen
  rw [List.length_append] at hl
  have hready := tablesBuilt_ready END pf htab
  obtain ⟨pfC, c1, c2, c3, c4, c5, c6, c7, c8⟩ :=
    count_spec pf (A ++ B) (A ++ B).length hAB (by omega)
      (by rw [ceilDiv_eight_mul _ hAB8]) hc hready
  obtain ⟨pfA, a1, a2, a3, a4, a5, a6, a7, a8⟩ :=
    count_spec pf A A.length hA (by omega) (by rw [ceilDiv_eight_mul _ hA8]) hc hready
  obtain ⟨pfB, b1, b2, b3, b4, b5, b6, b7, b8⟩ :=
    count_spec pfA B B.length hB (by omega) (by rw [ceilDiv_eight_mul _ hB8]) a7
      (by rw [a2, a3]; exact hready)
  refine ⟨pfC, c1, ?_⟩
  rw [a1]
  simp only [Option.some_bind]
  rw [b1]
  congr 1
  apply PrimeFinder_ext
  · rw [b4, a4, c4]
  · rw [b5, a5, c5]
  · rw [b6, a6, c6]
  · rw [b2, a2, c2]
  · apply List.ext_getElem?
    intro k
    rw [b8 k, a8 k, c8 k]
    cases pf.counts_[k]? with
    | none => rfl
    | some c =>
      simp only [Option.map_some']
      rw [countedValue_congr pf pfA B B.length k _ a2 a3,
        countedValue_append END pf A B k c hEND hA8 hB8 hlen htab]
  · rw [b3, a3, c3]

theorem printPrimes_whole (pf : PrimeFinder) (low : Nat) (A : List Nat) (out : String)
    (hA : ∀ v ∈ A, v < 256) (hlen : A.length < 2 ^ 32) (h8 : A.length % 8 = 0) :
    printPrimes pf low A A.length out =
      some (if pf.ps_.isFlag PrimeSieve.PRINT_PRIMES = true then
        out ++ lines (decodeBuffer low A A.length) else out) := by
  unfold printPrimes
  by_cases hf : pf.ps_.isFlag PrimeSieve.PRINT_PRIMES = true
  · have := printPrimesLoop_lines low A A.length out hA hlen (by rw [ceilDiv_eight_mul _ h8])
    rw [ceilDiv_eight_mul _ h8] at this
    rw [if_pos hf, if_pos hf, this]
  · rw [if_neg hf, if_neg hf]

theorem printPrimes_append (pf : PrimeFinder) (low : Nat) (A B : List Nat) (out : String)
    (hA : ∀ v ∈ A, v < 256) (hB : ∀ v ∈ B, v < 256) (hA8 : A.length % 8 = 0)
    (hB8 : B.length % 8 = 0) (hlen : (A ++ B).length < 2 ^ 32) :
    ∃ out2, printPrimes pf low (A ++ B) (A ++ B).length out = some out2 ∧
      (printPrimes pf low A A.length out).bind
        (fun o => printPrimes pf (low + NUMBERS_PER_BYTE * A.length) B B.length o) =
        some out2 := by
  have hAB : ∀ v ∈ A ++ B, v < 256 := by
    intro v hv
    rcases List.mem_append.1 hv with h | h
    · exact hA v h
    · exact hB v h
  have hl := hlen
  rw [List.length_append] at hl
  refine ⟨_, printPrimes_whole pf low (A ++ B) out hAB hlen
    (by rw [List.length_append]; omega), ?_⟩
  rw [printPrimes_whole pf low A out hA (by omega) hA8]
  simp only [Option.some_bind]
  rw [printPrimes_whole pf _ B _ hB (by omega) hB8]
  by_cases hf : pf.ps_.isFlag PrimeSieve.PRINT_PRIMES = true
  · simp only [hf, if_true]
    rw [decodeBuffer_append, lines_append, String.append_assoc]
  · simp [hf]

theorem printTuplets_append (END : Nat) (pf : PrimeFinder) (low : Nat) (A B : List Nat)
    (out : String) (hEND : 255 < END) (hA : ∀ v ∈ A, v < 256) (hB : ∀ v ∈ B, v < 256)
    (hlen : (A ++ B).length < 2 ^ 32) :
    ∃ out2, printTuplets END pf low (A ++ B) (A ++ B).length out = some out2 ∧
      (printTuplets END pf low A A.length out).bind
        (fun o => printTuplets END pf (low + NUMBERS_PER_BYTE * A.length) B B.length o) =
        some out2 := by
  have hAB : ∀ v ∈ A ++ B, v < 256 := by
    intro v hv
    rcases List.mem_append.1 hv with h | h
    · exact hA v h
    · exact hB v h
  have hl := hlen
  rw [List.length_append] at hl
  rcases printTuplets_total END pf low (A ++ B) (A ++ B).length out hEND hAB hlen
    (Nat.le_refl _) with ⟨hg, h⟩ | ⟨i, hi1, hi5, hp, hmin, h⟩
  · refine ⟨out, h, ?_⟩
    simp [printTuplets, hg]
  · refine ⟨_, h, ?_⟩
    rw [printTuplets_eq END pf low A A.length out i hEND hA (by omega) (Nat.le_refl _)
      hi1 hi5 hp hmin]
    simp only [Option.some_bind]
    rw [printTuplets_eq END pf _ B B.length _ i hEND hB (by omega) (Nat.le_refl _)
      hi1 hi5 hp hmin, tupletGroups_append, groupsText_append, String.append_assoc]

theorem print_append (END : Nat) (pf : PrimeFinder) (low : Nat) (A B : List Nat)
    (out : String) (hEND : 255 < END) (hA : ∀ v ∈ A, v < 256) (hB : ∀ v ∈ B, v < 256)
    (hA8 : A.length % 8 = 0) (hB8 : B.length % 8 = 0) (hlen : (A ++ B).length < 2 ^ 32)
    (hone : pf.ps_.isFlag PrimeSieve.PRINT_PRIMES = false ∨
      pf.ps_.isFlagRange PrimeSieve.PRINT_TWINS PrimeSieve.PRINT_SEXTUPLETS = false) :
    ∃ out2, print END pf low (A ++ B) (A ++ B).length out = some out2 ∧
      (print END pf low A A.length out).bind
        (fun o => print END pf (low + NUMBERS_PER_BYTE * A.length) B B.length o) =
        some out2 := by
  have hAB : ∀ v ∈ A ++ B, v < 256 := by
    intro v hv
    rcases List.mem_append.1 hv with h | h
    · exact hA v h
    · exact hB v h
  have hl := hlen
  rw [List.length_append] at hl
  have hAB8 : (A ++ B).length % 8 = 0 := by rw [List.length_append]; omega
  rcases hone with hf | hg
  · have hf' : ¬ pf.ps_.isFlag PrimeSieve.PRINT_PRIMES = true := by simp [hf]
    obtain ⟨out2, h1, h2⟩ := printTuplets_append END pf low A B out hEND hA hB hlen
    refine ⟨out2, ?_, ?_⟩
    · unfold print
      rw [printPrimes_whole pf low (A ++ B) out hAB hlen hAB8, if_neg hf']
      exact h1
    · have e1 : ∀ o, print END pf low A A.length o = printTuplets END pf low A A.length o := by
        intro o
        unfold print
        rw [printPrimes_whole pf low A o hA (by omega) hA8, if_neg hf']
      have e2 : ∀ o, print END pf (low + NUMBERS_PER_BYTE * A.length) B B.length o =
          printTuplets END pf (low + NUMBERS_PER_BYTE * A.length) B B.length o := by
        intro o
        unfold print
        rw [printPrimes_whole pf _ B o hB (by omega) hB8, if_neg hf']
      rw [e1]
      simp only [e2]
      exact h2
  · have e : ∀ lw S n o, printTuplets END pf lw S n o = some o := by
      intro lw S n o
      simp [printTuplets, hg]
    obtain ⟨out2, h1, h2⟩ := printPrimes_append pf low A B out hA hB hA8 hB8 hlen
    refine ⟨out2, ?_, ?_⟩
    · unfold print
      rw [h1]
      exact e _ _ _ _
    · have e1 : ∀ lw S n o, print END pf lw S n o = printPrimes pf lw S n o := by
        intro lw S n o
        unfold print
        cases printPrimes pf lw S n o with
        | none => rfl
        | some o1 => exact e _ _ _ _
      simp only [e1]
      exact h2

/-! ## Lemmas: `generatePrimes` -/

/-- The function `print` returns when the array holds the 8-byte words that
cover the buffer. -/
theorem print_total (END : Nat) (pf : PrimeFinder) (low : Nat) (sieve : List Nat)
    (sieveSize : Nat) (out : String) (hEND : 255 < END) (hb : ∀ v ∈ sieve, v < 256)
    (hlen : sieve.length < 2 ^ 32) (hin : 8 * ceilDiv sieveSize 8 ≤ sieve.length) :
    ∃ out1, print END pf low sieve sieveSize out = some out1 := by
  have hsz : sieveSize ≤ sieve.length := by rw [ceilDiv_eight] at hin; omega
  have h1 : ∃ o, printPrimes pf low sieve sieveSize out = some o := by
    unfold printPrimes
    by_cases hf : pf.ps_.isFlag PrimeSieve.PRINT_PRIMES = true
    · rw [if_pos hf, printPrimesLoop_lines low sieve sieveSize out hb hlen hin]
      exact ⟨_, rfl⟩
    · rw [if_neg hf]
      exact ⟨_, rfl⟩
  obtain ⟨o, ho⟩ := h1
  unfold print
  rw [ho]
  rcases printTuplets_total END pf low sieve sieveSize o hEND hb hlen hsz with
    ⟨_, h⟩ | ⟨i, _, _, _, _, h⟩
  · exact ⟨_, h⟩
  · exact ⟨_, h⟩

/-! ## Lemmas: the frame of `count` -/

theorem byteBits_le (v : Nat) : byteBits v ≤ 8 := by
  unfold byteBits
  have := List.length_filter_le (fun b => v.testBit b) (List.range 8)
  simpa using this

theorem setBitCount_le (sieve : List Nat) (n : Nat) : setBitCount sieve n ≤ 8 * n := by
  unfold setBitCount
  induction n with
  | zero => simp
  | succ n ih =>
    rw [List.range_succ, List.map_append, List.sum_append]
    have := byteBits_le (sieve.getD n 0)
    simp only [List.map_cons, List.map_nil, List.sum_cons, List.sum_nil, Nat.add_zero]
    omega

theorem isCount_zero (ps : PrimeSieve) : ps.isCount 0 = ps.isFlag PrimeSieve.COUNT_PRIMES := rfl

theorem countedValue_ge (END : Nat) (pf : PrimeFinder) (sieve : List Nat) (sieveSize k c : Nat)
    (hEND : 255 < END) (hin : 8 * ceilDiv sieveSize 8 ≤ sieve.length)
    (htab : TablesBuilt END pf) (hroom : c + 8 * sieve.length < 2 ^ 64) :
    c ≤ countedValue pf sieve sieveSize k c := by
  have hin4 : 4 * ceilDiv sieveSize 4 ≤ sieve.length := by
    rw [ceilDiv_four]; rw [ceilDiv_eight] at hin; omega
  unfold countedValue
  by_cases hk0 : k = 0
  · simp only [hk0, if_true]
    by_cases hf : pf.ps_.isFlag PrimeSieve.COUNT_PRIMES = true
    · simp only [hf, if_true]
      have := setBitCount_le sieve (8 * ceilDiv sieveSize 8)
      unfold u64
      rw [Nat.mod_eq_of_lt (by omega)]
      omega
    · simp [hf]
  · simp only [hk0, if_false]
    by_cases hcond : k ≤ 5 ∧ pf.ps_.isCount k = true
    · have hk1 : 1 ≤ k := by omega
      have ht : pf.kCounts_[k]? = some (tableOf END k) :=
        htab k (by rw [List.mem_range'_1]; omega) hcond.2
      simp only [hcond, and_self, if_true, ht, Option.getD_some]
      have h1 := tupletSum_le (tableOf END k) sieve (4 * ceilDiv sieveSize 4) 4
        (tableOf_le END k hEND hk1 hcond.1)
      have h2 : u32 (tupletSum (tableOf END k) sieve (4 * ceilDiv sieveSize 4)) ≤
          tupletSum (tableOf END k) sieve (4 * ceilDiv sieveSize 4) := Nat.mod_le _ _
      unfold u64
      rw [Nat.mod_eq_of_lt (by omega)]
      omega
    · simp only [hcond, if_false]
      exact Nat.le_refl c

/-! ## Lemmas: the constructor and the lower bound of the wheel -/

/-- The constructor returns and leaves the tables of `init_kCounts`. -/
theorem new_spec (END : Nat) (ps : PrimeSieve) (counts : List Nat) (hEND : 255 < END)
    (hc : counts.length = 6) :
    ∃ pf, PrimeFinder.new END ps counts = some pf ∧ pf.ps_ = ps ∧ pf.counts_ = counts ∧
      pf.soeStart = max 7 ps.start_ ∧ pf.soeStop = ps.stop_ ∧
      pf.soeSieveSize = ps.sieveSize_ ∧ pf.kCounts_.length = 6 ∧
      ∀ k, pf.kCounts_[k]? =
        if ps.isFlagRange PrimeSieve.COUNT_TWINS PrimeSieve.COUNT_SEXTUPLETS = true ∧
            (1 ≤ k ∧ k ≤ 5) ∧ ps.isCount k = true then some (tableOf END k)
        else (List.replicate 6 ([] : List Nat))[k]? := by
  unfold PrimeFinder.new
  by_cases hg : ps.isFlagRange PrimeSieve.COUNT_TWINS PrimeSieve.COUNT_SEXTUPLETS = true
  · obtain ⟨pf1, h1, h2, h3, h4, h5, h6, h7, h8⟩ :=
      init_kCounts_spec END hEND
        { soeStart := max 7 ps.start_, soeStop := ps.stop_, soeSieveSize := ps.sieveSize_,
          ps_ := ps, counts_ := counts, kCounts_ := List.replicate 6 [] } hc (by simp)
    refine ⟨pf1, by simp only [hg, if_true]; exact h1, h2, h3, h4, h5, h6, h7, ?_⟩
    intro k
    rw [h8 k]
    simp only [hg, true_and]
  · refine ⟨_, by simp only [hg, if_false]; rfl, rfl, rfl, rfl, rfl, rfl, by simp, ?_⟩
    intro k
    simp [hg]

theorem mem_decodeBuffer (low : Nat) (sieve : List Nat) (n x : Nat)
    (h : x ∈ decodeBuffer low sieve n) :
    ∃ j b, j < n ∧ b < 8 ∧ x = u64 (low + NUMBERS_PER_BYTE * j + bitValues.getD b 0) := by
  unfold decodeBuffer at h
  rw [List.mem_flatMap] at h
  obtain ⟨j, hj, hx⟩ := h
  obtain ⟨b, hb, _, rfl⟩ := mem_decodeByte _ _ _ _ hx
  exact ⟨j, b, List.mem_range.1 hj, hb, rfl⟩

theorem decoded_ge (low j b n : Nat) (hj : j < n) (hb : b < 8)
    (hfit : low + NUMBERS_PER_BYTE * n + 1 < 2 ^ 64) :
    low + 7 ≤ u64 (low + NUMBERS_PER_BYTE * j + bitValues.getD b 0) := by
  have h1 := bitValues_bounds b hb
  unfold NUMBERS_PER_BYTE at *
  unfold u64
  rw [Nat.mod_eq_of_lt (by omega)]
  omega

/-! ## Lemmas: print and count agree on k-tuplets -/

theorem byteGroups_length (END i low j v : Nat) :
    (byteGroups END i low j v).length = matchCount (maskList END i) v := by
  simp [byteGroups, matchCount]

theorem getD_lt (sieve : List Nat) (hb : ∀ v ∈ sieve, v < 256) (j : Nat) :
    sieve.getD j 0 < 256 := by
  rw [List.getD_eq_getElem?_getD]
  cases h : sieve[j]? with
  | none => simp
  | some v => exact hb v (List.getElem?_mem h)

/-- The number of k-tuplets of kind `i` of a buffer is the sum of the table
entries of its bytes. -/
theorem tupletGroups_length (END i low : Nat) (sieve : List Nat) (n : Nat)
    (hb : ∀ v ∈ sieve, v < 256) :
    (tupletGroups END i low sieve n).length = tupletSum (tableOf END i) sieve n := by
  unfold tupletGroups tupletSum
  rw [List.length_flatMap]
  congr 1
  apply List.map_congr_left
  intro j _
  simp only [Function.comp]
  rw [byteGroups_length, tableOf_getD END i _ (getD_lt sieve hb j)]

/-! ## Lemmas: the bounds of the buffer -/

theorem deliver_ne_fault {σ : Type} (cb : σ → Nat → Signal σ) :
    ∀ (l : List Nat) (s : σ), deliver cb l s ≠ Run.fault := by
  intro l
  induction l with
  | nil => intro s h; exact Run.noConfusion h
  | cons x xs ih =>
    intro s
    unfold deliver
    cases cb s x with
    | next s1 => exact ih s1
    | stop s1 => intro h; exact Run.noConfusion h

theorem kCountAt_outside (pf : PrimeFinder) (i : Nat) (sieve : List Nat) (j : Nat)
    (h : sieve.length ≤ j) : kCountAt pf i sieve j = none := by
  unfold kCountAt
  rw [List.getElem?_eq_none h]

/-- With an array of exactly `sieveSize` bytes and `sieveSize` not a multiple
of 4, the unrolled loop of `count` reads outside the array. -/
theorem countLoop_outside (pf : PrimeFinder) (i : Nat) (sieve : List Nat) (sieveSize : Nat)
    (hexact : sieve.length = sieveSize) (h4 : sieveSize % 4 ≠ 0)
    (hslen : sieve.length + 4 < 2 ^ 32) :
    ∀ (d a fuel sum : Nat), a + d = ceilDiv sieveSize 4 → 1 ≤ d →
      countLoop pf i sieve sieveSize fuel (4 * a) sum = none := by
  intro d
  induction d with
  | zero => intro a fuel sum _ h; omega
  | succ d ih =>
    intro a fuel sum ha _
    rw [ceilDiv_four] at ha
    cases fuel with
    | zero => rfl
    | succ fuel =>
      have hlt : 4 * a < sieveSize := by omega
      have hu : ∀ k, k ≤ 4 → u32 (4 * a + k) = 4 * a + k := by
        intro k hk; unfold u32; omega
      unfold countLoop
      rw [if_pos hlt, hu 0 (by omega), hu 1 (by omega), hu 2 (by omega), hu 3 (by omega),
        hu 4 (by omega)]
      by_cases hd : d = 0
      · have h3 : kCountAt pf i sieve (4 * a + 3) = none :=
          kCountAt_outside pf i sieve _ (by omega)
        rw [h3]
        cases kCountAt pf i sieve (4 * a + 0) <;> cases kCountAt pf i sieve (4 * a + 1) <;>
          cases kCountAt pf i sieve (4 * a + 2) <;> rfl
      · have hrec : ∀ s, countLoop pf i sieve sieveSize fuel (4 * a + 4) s = none := by
          intro s
          rw [show 4 * a + 4 = 4 * (a + 1) by omega]
          exact ih (a + 1) fuel s (by rw [ceilDiv_four]; omega) (by omega)
        cases kCountAt pf i sieve (4 * a + 0) <;> cases kCountAt pf i sieve (4 * a + 1) <;>
          cases kCountAt pf i sieve (4 * a + 2) <;> cases kCountAt pf i sieve (4 * a + 3) <;>
          first | rfl | exact hrec _

theorem countKinds_outside (sieve : List Nat) (sieveSize : Nat)
    (hloop : ∀ (pf : PrimeFinder) (i : Nat),
      countLoop pf i sieve sieveSize (sieveSize + 1) 0 0 = none) :
    ∀ (is : List Nat) (pf : PrimeFinder), (∃ i ∈ is, pf.ps_.isCount i = true) →
      countKinds sieve sieveSize is pf = none := by
  intro is
  induction is with
  | nil => intro pf ⟨i, hi, _⟩; exact absurd hi (List.not_mem_nil i)
  | cons k is ih =>
    intro pf ⟨i, hi, hc⟩
    unfold countKinds
    by_cases hk : pf.ps_.isCount k = true
    · have : countKind sieve sieveSize pf k = none := by
        unfold countKind
        rw [if_pos hk, hloop pf k]
      rw [this]
    · have : countKind sieve sieveSize pf k = some pf := by
        unfold countKind
        rw [if_neg hk]
      rw [this]
      simp only
      apply ih pf
      rcases List.mem_cons.1 hi with rfl | hi
      · exact absurd hc hk
      · exact ⟨i, hi, hc⟩

/-! ## Lemmas: the tables are available -/

theorem isFlagRange_count (ps : PrimeSieve) (i : Nat) (hi1 : 1 ≤ i) (hi5 : i ≤ 5)
    (hi : ps.isCount i = true) :
    ps.isFlagRange PrimeSieve.COUNT_TWINS PrimeSieve.COUNT_SEXTUPLETS = true := by
  unfold PrimeSieve.isCount PrimeSieve.isFlag at hi
  unfold PrimeSieve.isFlagRange
  have hi : ps.flags_ &&& (PrimeSieve.COUNT_PRIMES <<< i) = PrimeSieve.COUNT_PRIMES <<< i := by
    simpa using hi
  have hmask : (PrimeSieve.COUNT_SEXTUPLETS * 2 - PrimeSieve.COUNT_TWINS) &&&
      (PrimeSieve.COUNT_PRIMES <<< i) = PrimeSieve.COUNT_PRIMES <<< i := by
    interval_cases i <;> decide
  have hpos : PrimeSieve.COUNT_PRIMES <<< i ≠ 0 := by
    interval_cases i <;> decide
  simp only [bne_iff_ne, ne_eq]
  intro h0
  have h1 : (ps.flags_ &&& (PrimeSieve.COUNT_SEXTUPLETS * 2 - PrimeSieve.COUNT_TWINS)) &&&
      (PrimeSieve.COUNT_PRIMES <<< i) = PrimeSieve.COUNT_PRIMES <<< i := by
    rw [Nat.land_assoc, hmask, hi]
  rw [h0, Nat.zero_and] at h1
  exact hpos h1.symm

theorem countKind_preserves (sieve : List Nat) (sieveSize : Nat) (pf pf1 : PrimeFinder) (i : Nat)
    (h : countKind sieve sieveSize pf i = some pf1) :
    pf1.ps_ = pf.ps_ ∧ pf1.kCounts_ = pf.kCounts_ := by
  unfold countKind at h
  by_cases hc : pf.ps_.isCount i = true
  · rw [if_pos hc] at h
    cases hl : countLoop pf i sieve sieveSize (sieveSize + 1) 0 0 with
    | none => rw [hl] at h; exact Option.noConfusion h
    | some sum =>
      rw [hl] at h
      simp only at h
      cases ha : addCount pf.counts_ i sum with
      | none => rw [ha] at h; exact Option.noConfusion h
      | some counts =>
        rw [ha] at h
        simp only [Option.some.injEq] at h
        subst h
        exact ⟨rfl, rfl⟩
  · rw [if_neg hc] at h
    simp only [Option.some.injEq] at h
    subst h
    exact ⟨rfl, rfl⟩

theorem countKinds_preserves (sieve : List Nat) (sieveSize : Nat) :
    ∀ (is : List Nat) (pf pf1 : PrimeFinder), countKinds sieve sieveSize is pf = some pf1 →
      pf1.ps_ = pf.ps_ ∧ pf1.kCounts_ = pf.kCounts_ := by
  intro is
  induction is with
  | nil =>
    intro pf pf1 h
    simp only [countKinds, Option.some.injEq] at h
    subst h
    exact ⟨rfl, rfl⟩
  | cons i is ih =>
    intro pf pf1 h
    unfold countKinds at h
    cases hk : countKind sieve sieveSize pf i with
    | none => rw [hk] at h; exact Option.noConfusion h
    | some pf2 =>
      rw [hk] at h
      simp only at h
      obtain ⟨a1, a2⟩ := countKind_preserves sieve sieveSize pf pf2 i hk
      obtain ⟨b1, b2⟩ := ih pf2 pf1 h
      exact ⟨by rw [b1, a1], by rw [b2, a2]⟩

/-- Whenever `count` returns, the flags and the tables are as before. -/
theorem count_preserves (pf pf1 : PrimeFinder) (sieve : List Nat) (sieveSize : Nat)
    (h : count pf sieve sieveSize = some pf1) :
    pf1.ps_ = pf.ps_ ∧ pf1.kCounts_ = pf.kCounts_ := by
  unfold count at h
  cases hp : countPrimes pf sieve sieveSize with
  | none => rw [hp] at h; exact Option.noConfusion h
  | some pf2 =>
    rw [hp] at h
    simp only at h
    have h2 : pf2.ps_ = pf.ps_ ∧ pf2.kCounts_ = pf.kCounts_ := by
      unfold countPrimes at hp
      by_cases hf : pf.ps_.isFlag PrimeSieve.COUNT_PRIMES = true
      · rw [if_pos hf] at hp
        cases hpop : popcount sieve (ceilDiv sieveSize 8) with
        | none => rw [hpop] at hp; exact Option.noConfusion hp
        | some m =>
          rw [hpop] at hp
          simp only at hp
          cases ha : addCount pf.counts_ 0 m with
          | none => rw [ha] at hp; exact Option.noConfusion hp
          | some counts =>
            rw [ha] at hp
            simp only [Option.some.injEq] at hp
            subst hp
            exact ⟨rfl, rfl⟩
      · rw [if_neg hf] at hp
        simp only [Option.some.injEq] at hp
        subst hp
        exact ⟨rfl, rfl⟩
    obtain ⟨b1, b2⟩ := countKinds_preserves sieve sieveSize _ pf2 pf1 h
    exact ⟨by rw [b1, h2.1], by rw [b2, h2.2]⟩

/-! ## Lemmas: the sentinel -/

theorem scanBitmasks_eq (END v : Nat) (rest : List Nat) (hv : v < END) :
    ∀ (ms : List Nat),
      scanBitmasks (ms ++ END :: rest) v = some (ms.takeWhile (fun m => decide (m ≤ v))) := by
  intro ms
  induction ms with
  | nil =>
    have : ¬ END ≤ v := by omega
    simp [scanBitmasks, this]
  | cons m ms ih =>
    by_cases hle : m ≤ v
    · simp only [List.cons_append, scanBitmasks, hle, if_true]
      show (match scanBitmasks (ms ++ END :: rest) v with
        | none => none
        | some tested => some (m :: tested)) = _
      rw [ih]
      simp [List.takeWhile, hle]
    · simp [scanBitmasks, hle, List.takeWhile]

/-- The scan of `init_kCounts` counts the matches among the entries that the
scan tests. -/
theorem countBitmasks_scan (v : Nat) :
    ∀ (row : List Nat) (acc : Nat), acc + row.length < 2 ^ 32 →
      countBitmasks row v acc = (scanBitmasks row v).map (fun t => acc + matchCount t v) := by
  intro row
  induction row with
  | nil => intro acc _; rfl
  | cons b bs ih =>
    intro acc hacc
    simp only [List.length_cons] at hacc
    unfold countBitmasks scanBitmasks
    by_cases hle : b ≤ v
    · simp only [hle, if_true]
      by_cases hmatch : v &&& b = b
      · have hu : u32 (acc + 1) = acc + 1 := by unfold u32; omega
        simp only [hmatch, if_true, hu]
        rw [ih (acc + 1) (by omega)]
        cases scanBitmasks bs v with
        | none => rfl
        | some t =>
          simp only [Option.map_some', matchCount, List.filter_cons, hmatch, beq_self_eq_true,
            if_true, List.length_cons, Option.some.injEq]
          omega
      · simp only [hmatch, if_false]
        rw [ih acc (by omega)]
        cases scanBitmasks bs v with
        | none => rfl
        | some t =>
          have : (v &&& b == b) = false := by simpa using hmatch
          simp [matchCount, List.filter_cons, this]
    · simp [hle, matchCount]

/-- The scan of `print` writes the groups of the matches among the entries
that the scan tests. -/
theorem printBitmasks_scan (END low j lw v : Nat) (rest : List Nat) (hv : v < END)
    (hlw : u64 lw = u64 (low + NUMBERS_PER_BYTE * j)) :
    ∀ (ms : List Nat) (out : String), (∀ m ∈ ms, 0 < m ∧ m < 256) →
      printBitmasks lw v (ms ++ END :: rest) out =
        some (out ++ groupsText (((ms.takeWhile (fun m => decide (m ≤ v))).filter
          (fun m => v &&& m == m)).map (fun m => decodeByte low j m))) := by
  intro ms
  induction ms with
  | nil =>
    intro out _
    have : ¬ END ≤ v := by omega
    simp [printBitmasks, this, groupsText]
  | cons m ms ih =>
    intro out hm
    have hm1 := hm m (List.mem_cons_self m ms)
    have hms : ∀ x ∈ ms, 0 < x ∧ x < 256 := fun x hx => hm x (List.mem_cons_of_mem m hx)
    by_cases hle : m ≤ v
    · by_cases hmatch : v &&& m = m
      · simp only [List.cons_append, printBitmasks, hle, if_true, hmatch,
          drainTuplet_mask low j lw m hm1.1 hm1.2 hlw]
        show printBitmasks lw v (ms ++ END :: rest) _ = _
        rw [ih _ hms]
        simp [List.takeWhile, hle, List.filter_cons, hmatch, groupsText, String.append_assoc]
      · simp only [List.cons_append, printBitmasks, hle, if_true, hmatch, if_false]
        show printBitmasks lw v (ms ++ END :: rest) _ = _
        rw [ih _ hms]
        simp [List.takeWhile, hle, List.filter_cons, hmatch]
    · simp [printBitmasks, hle, List.takeWhile, groupsText]

/-! ## Lemmas: `generatePrimes` on two segments -/

theorem print_flags (END : Nat) (pf pf1 : PrimeFinder) (low : Nat) (sieve : List Nat)
    (sieveSize : Nat) (out : String) (h : pf1.ps_ = pf.ps_) :
    print END pf1 low sieve sieveSize out = print END pf low sieve sieveSize out := by
  unfold print printPrimes printTuplets
  rw [h]

theorem generatePrimes_run {σ : Type} (END : Nat) (cb : σ → Nat → Signal σ)
    (updateStatus : Nat → World σ → World σ) (low : Nat) (sieve : List Nat) (sieveSize : Nat)
    (w : World σ) (hEND : 255 < END) (hb : ∀ v ∈ sieve, v < 256)
    (hlen : sieve.length < 2 ^ 32) (hin : 8 * ceilDiv sieveSize 8 ≤ sieve.length)
    (hc : w.finder.counts_.length = 6) (htab : TablesBuilt END w.finder)
    (hframe : ∀ n v, (updateStatus n v).finder = v.finder ∧ (updateStatus n v).cout = v.cout ∧
      (updateStatus n v).cbState = v.cbState) :
    ∃ pf1 out1,
      (if w.finder.ps_.isCountAny then count w.finder sieve sieveSize else some w.finder) =
        some pf1 ∧
      (if w.finder.ps_.isPrintAny then print END w.finder low sieve sieveSize w.cout
        else some w.cout) = some out1 ∧
      pf1.ps_ = w.finder.ps_ ∧ pf1.counts_.length = 6 ∧ TablesBuilt END pf1 ∧
      (∀ s1, (if w.finder.ps_.isCallback then callbackPrimes cb low sieve sieveSize w.cbState
          else Run.done w.cbState) = Run.done s1 →
        ∃ w1, generatePrimes END cb updateStatus low sieve sieveSize w = Run.done w1 ∧
          w1.finder = pf1 ∧ w1.cout = out1 ∧ w1.cbState = s1) ∧
      (∀ s1, (if w.finder.ps_.isCallback then callbackPrimes cb low sieve sieveSize w.cbState
          else Run.done w.cbState) = Run.stopped s1 →
        generatePrimes END cb updateStatus low sieve sieveSize w =
          Run.stopped { w with cbState := s1 }) ∧
      (if w.finder.ps_.isCallback then callbackPrimes cb low sieve sieveSize w.cbState
        else Run.done w.cbState) ≠ Run.fault := by
  obtain ⟨pfc, hcount, hps, hkc, _, _, _, h7, _⟩ :=
    count_spec w.finder sieve sieveSize hb hlen hin hc (tablesBuilt_ready END w.finder htab)
  have hC : ∃ pf1, (if w.finder.ps_.isCountAny then count w.finder sieve sieveSize
      else some w.finder) = some pf1 ∧ pf1.ps_ = w.finder.ps_ ∧
        pf1.kCounts_ = w.finder.kCounts_ ∧ pf1.counts_.length = 6 := by
    by_cases hf : w.finder.ps_.isCountAny = true
    · exact ⟨pfc, by rw [if_pos hf, hcount], hps, hkc, h7⟩
    · exact ⟨w.finder, by rw [if_neg hf], rfl, rfl, hc⟩
  obtain ⟨pf1, hpf1, hps1, hk1, hl1⟩ := hC
  have hP : ∃ out1, (if w.finder.ps_.isPrintAny then print END w.finder low sieve sieveSize w.cout
      else some w.cout) = some out1 := by
    by_cases hf : w.finder.ps_.isPrintAny = true
    · obtain ⟨o, ho⟩ := print_total END w.finder low sieve sieveSize w.cout hEND hb hlen hin
      exact ⟨o, by rw [if_pos hf, ho]⟩
    · exact ⟨w.cout, by rw [if_neg hf]⟩
  obtain ⟨out1, hout1⟩ := hP
  have hprint : ∀ o, print END pf1 low sieve sieveSize o =
      print END w.finder low sieve sieveSize o :=
    fun o => print_flags END w.finder pf1 low sieve sieveSize o hps1
  have htab1 : TablesBuilt END pf1 := by
    intro k hk hck
    rw [hk1]
    rw [hps1] at hck
    exact htab k hk hck
  refine ⟨pf1, out1, hpf1, hout1, hps1, hl1, htab1, ?_, ?_, ?_⟩
  · intro s1 hrun
    unfold generatePrimes
    rw [hrun]
    simp only [hpf1, hps1, hprint, hout1]
    by_cases hs : w.finder.ps_.isStatus = true
    · rw [if_pos hs]
      exact ⟨_, rfl, (hframe _ _).1, (hframe _ _).2.1, (hframe _ _).2.2⟩
    · rw [if_neg hs]
      exact ⟨_, rfl, rfl, rfl, rfl⟩
  · intro s1 hrun
    unfold generatePrimes
    rw [hrun]
  · by_cases hf : w.finder.ps_.isCallback = true
    · rw [if_pos hf, callbackPrimes_eq cb low sieve sieveSize _ hb hlen hin]
      exact deliver_ne_fault cb _ _
    · rw [if_neg hf]
      exact fun h => Run.noConfusion h

theorem callbackRun_append {σ : Type} (cb : σ → Nat → Signal σ) (low : Nat) (A B : List Nat)
    (s : σ) (flag : Bool) (hA : ∀ v ∈ A, v < 256) (hB : ∀ v ∈ B, v < 256)
    (hA8 : A.length % 8 = 0) (hB8 : B.length % 8 = 0) (hlen : (A ++ B).length < 2 ^ 32) :
    (if flag then callbackPrimes cb low (A ++ B) (A ++ B).length s else Run.done s) =
      match (if flag then callbackPrimes cb low A A.length s else Run.done s) with
      | Run.done s1 =>
        if flag then callbackPrimes cb (low + NUMBERS_PER_BYTE * A.length) B B.length s1
        else Run.done s1
      | Run.stopped s1 => Run.stopped s1
      | Run.fault => Run.fault := by
  cases flag with
  | false => simp
  | true =>
    simp only [if_true]
    rw [callbackPrimes_append cb low A B s hA hB hA8 hB8 hlen]

theorem twoSegments_spec {σ : Type} (END : Nat) (cb : σ → Nat → Signal σ)
    (updateStatus : Nat → World σ → World σ) (low : Nat) (A B : List Nat) (w : World σ)
    (hEND : 255 < END) (hA : ∀ v ∈ A, v < 256) (hB : ∀ v ∈ B, v < 256)
    (hA8 : A.length % 8 = 0) (hB8 : B.length % 8 = 0) (hlen : (A ++ B).length < 2 ^ 30)
    (hc : w.finder.counts_.length = 6) (htab : TablesBuilt END w.finder)
    (hframe : ∀ n v, (updateStatus n v).finder = v.finder ∧ (updateStatus n v).cout = v.cout ∧
      (updateStatus n v).cbState = v.cbState) :
    (if w.finder.ps_.isCallback then callbackPrimes cb low (A ++ B) (A ++ B).length w.cbState
      else Run.done w.cbState) ≠ Run.fault ∧
    Run.map World.cbState (generatePrimes END cb updateStatus low (A ++ B) (A ++ B).length w) =
      (if w.finder.ps_.isCallback then callbackPrimes cb low (A ++ B) (A ++ B).length w.cbState
        else Run.done w.cbState) ∧
    Run.map World.cbState (twoSegments END cb updateStatus low A B w) =
      (if w.finder.ps_.isCallback then callbackPrimes cb low (A ++ B) (A ++ B).length w.cbState
        else Run.done w.cbState) ∧
    (Run.toOption (twoSegments END cb updateStatus low A B w)).map World.finder =
      (Run.toOption (generatePrimes END cb updateStatus low (A ++ B) (A ++ B).length w)).map
        World.finder ∧
    ((w.finder.ps_.isFlag PrimeSieve.PRINT_PRIMES = false ∨
        w.finder.ps_.isFlagRange PrimeSieve.PRINT_TWINS PrimeSieve.PRINT_SEXTUPLETS = false) →
      (Run.toOption (twoSegments END cb updateStatus low A B w)).map World.cout =
        (Run.toOption (generatePrimes END cb updateStatus low (A ++ B) (A ++ B).length w)).map
          World.cout) := by
  have h32 : (A ++ B).length < 2 ^ 32 := Nat.lt_trans hlen (by norm_num)
  have hl : (A ++ B).length = A.length + B.length := List.length_append A B
  have hA32 : A.length < 2 ^ 32 := by omega
  have hB32 : B.length < 2 ^ 32 := by omega
  have hAB : ∀ v ∈ A ++ B, v < 256 := by
    intro v hv
    rcases List.mem_append.1 hv with h | h
    · exact hA v h
    · exact hB v h
  have hinA : 8 * ceilDiv A.length 8 ≤ A.length := by rw [ceilDiv_eight_mul _ hA8]
  have hinB : 8 * ceilDiv B.length 8 ≤ B.length := by rw [ceilDiv_eight_mul _ hB8]
  have hinAB : 8 * ceilDiv (A ++ B).length 8 ≤ (A ++ B).length := by
    rw [ceilDiv_eight_mul _ (by omega)]
  obtain ⟨pfA, outA, hcA, hpA, hpsA, hlenA, htabA, hdoneA, hstopA, hnfA⟩ :=
    generatePrimes_run END cb updateStatus low A A.length w hEND hA hA32 hinA hc htab hframe
  obtain ⟨pfAB, outAB, hcAB, hpAB, _, _, _, hdoneAB, hstopAB, hnfAB⟩ :=
    generatePrimes_run END cb updateStatus low (A ++ B) (A ++ B).length w hEND hAB h32 hinAB
      hc htab hframe
  have happ := callbackRun_append cb low A B w.cbState w.finder.ps_.isCallback hA hB hA8 hB8 h32
  refine ⟨hnfAB, ?_⟩
  cases hrA : (if w.finder.ps_.isCallback then callbackPrimes cb low A A.length w.cbState
      else Run.done w.cbState) with
  | fault => exact absurd hrA hnfA
  | stopped s1 =>
    rw [hrA] at happ
    simp only at happ
    have h1 := hstopAB s1 happ
    have h2 := hstopA s1 hrA
    unfold twoSegments
    rw [happ, h1, h2]
    simp [Run.map, Run.toOption]
  | done s1 =>
    rw [hrA] at happ
    simp only at happ
    obtain ⟨w1, hg1, hf1, ho1, hs1⟩ := hdoneA s1 hrA
    obtain ⟨pfB, outB, hcB, hpB, _, _, _, hdoneB, hstopB, _⟩ :=
      generatePrimes_run END cb updateStatus (low + NUMBERS_PER_BYTE * A.length) B B.length w1
        hEND hB hB32 hinB (by rw [hf1]; exact hlenA) (by rw [hf1]; exact htabA) hframe
    rw [hf1, hpsA, hs1, ← happ] at hdoneB hstopB
    rw [hf1, hpsA] at hcB hpB
    rw [ho1] at hpB
    unfold twoSegments
    rw [hg1]
    simp only
    cases hrAB : (if w.finder.ps_.isCallback then
        callbackPrimes cb low (A ++ B) (A ++ B).length w.cbState else Run.done w.cbState) with
    | fault => exact absurd hrAB hnfAB
    | stopped s2 =>
      rw [hstopAB s2 hrAB, hstopB s2 hrAB]
      simp [Run.map, Run.toOption]
    | done s2 =>
      obtain ⟨w2, hg2, hf2, ho2, hs2⟩ := hdoneAB s2 hrAB
      obtain ⟨w3, hg3, hf3, ho3, hs3⟩ := hdoneB s2 hrAB
      rw [hg2, hg3]
      simp only [Run.map, Run.toOption, Option.map_some', hs2, hs3, true_and, hf2, hf3, ho2, ho3,
        Option.some.injEq]
      constructor
      · by_cases hcnt : w.finder.ps_.isCountAny = true
        · rw [if_pos hcnt] at hcA hcAB hcB
          obtain ⟨pf2, e1, e2⟩ := count_append END w.finder A B hEND hA hB hA8 hB8 hlen hc htab
          rw [hcA, Option.some_bind, hcB] at e2
          rw [hcAB] at e1
          exact Option.some.inj (e2.trans e1.symm)
        · rw [if_neg hcnt] at hcA hcAB hcB
          have e1 := Option.some.inj hcA
          have e2 := Option.some.inj hcAB
          have e3 := Option.some.inj hcB
          rw [← e3, ← e1, e2]
      · intro hone
        by_cases hprt : w.finder.ps_.isPrintAny = true
        · rw [if_pos hprt] at hpA hpAB hpB
          obtain ⟨o2, e1, e2⟩ := print_append END w.finder low A B w.cout hEND hA hB hA8 hB8 h32 hone
          rw [hpA, Option.some_bind,
            ← print_flags END w.finder pfA _ B B.length outA hpsA, hpB] at e2
          rw [hpAB] at e1
          exact Option.some.inj (e2.trans e1.symm)
        · rw [if_neg hprt] at hpA hpAB hpB
          have e1 := Option.some.inj hpA
          have e2 := Option.some.inj hpAB
          have e3 := Option.some.inj hpB
          rw [← e3, ← e1, e2]
/-! ## Properties -/

/-- C1: for a kind `i` in 1..5 requested for counting and a byte value `v`,
`init_kCounts` returns and leaves at `kCounts_[i]` a table of 256 entries whose
entry `v` is the number of masks `m` of the mask list of kind `i` (the
entries of row `i` before `END`) with `(v & m) == m`; the early exit of the
scan loses no matching mask. -/
theorem init_kCounts_entry (END : Nat) (pf : PrimeFinder) (i v : Nat) (hEND : 255 < END)
    (hc : pf.counts_.length = 6) (hk : pf.kCounts_.length = 6)
    (hi1 : 1 ≤ i) (hi5 : i ≤ 5) (hreq : pf.ps_.isCount i = true) (hv : v < 256) :
    ∃ pf1 table, init_kCounts END pf = some pf1 ∧ pf1.kCounts_[i]? = some table ∧
      table.length = 256 ∧
      table[v]? = some (((maskList END i).filter (fun m => v &&& m == m)).length) := by
  obtain ⟨pf1, h1, _, _, _, _, _, _, h8⟩ := init_kCounts_spec END hEND pf hc hk
  refine ⟨pf1, tableOf END i, h1, ?_, ?_, ?_⟩
  · rw [h8 i]; simp [hi1, hi5, hreq]
  · simp [tableOf]
  · simp [tableOf, List.getElem?_map, List.getElem?_range hv, matchCount]

set_option maxRecDepth 100000 in
/-- Witness of C1: twins are requested, `END` is 256, the byte value is 0xde. -/
theorem init_kCounts_entry_witness :
    ∃ pf1 table, init_kCounts 256 ⟨7, 100, 8, ⟨0, 100, 8, 2⟩, [0, 0, 0, 0, 0, 0],
        [[], [], [], [], [], []]⟩ = some pf1 ∧ pf1.kCounts_[1]? = some table ∧
      table.length = 256 ∧
      table[0xde]? = some (((maskList 256 1).filter (fun m => 0xde &&& m == m)).length) :=
  init_kCounts_entry 256 _ 1 0xde (by decide) (by decide) (by decide) (by decide) (by decide)
    (by decide) (by decide)

/-- C2 (as stated, refuted): with `sieveSize = 1` the callback is also given
241, the value of a bit of byte 7, which is not a byte of the buffer; a
buffer that is exactly one byte long is read beyond its end. -/
theorem callbackPrimes_delivers_counterexample :
    callbackPrimes record 0 [0x01, 0, 0, 0, 0, 0, 0, 0x80] 1 [] = Run.done [7, 241] ∧
    decodeBuffer 0 [0x01, 0, 0, 0, 0, 0, 0, 0x80] 1 = [7] ∧
    callbackPrimes record 0 [0x01, 0, 0, 0, 0, 0, 0, 0x80] 1 [] ≠
      Run.done (decodeBuffer 0 [0x01, 0, 0, 0, 0, 0, 0, 0x80] 1) ∧
    callbackPrimes record 0 [0x01] 1 [] = Run.fault := by
  decide

/-- C2 (amended): when the array holds the whole 8-byte words that cover the
buffer and its bytes from `sieveSize` up to the next multiple of 8 are zero (in
particular when `sieveSize` is a multiple of 8), `callbackPrimes` with a
callback that never throws returns after having invoked the callback exactly
on the values `low + NUMBERS_PER_BYTE * j + bitValues[b]` (64-bit arithmetic)
of the set bits `b` of the bytes `j < sieveSize`, in the order of `j`, then
`b`. -/
theorem callbackPrimes_delivers {σ : Type} (f : σ → Nat → σ) (low : Nat) (sieve : List Nat)
    (sieveSize : Nat) (s : σ) (hb : ∀ v ∈ sieve, v < 256) (hlen : sieve.length < 2 ^ 32)
    (hin : 8 * ceilDiv sieveSize 8 ≤ sieve.length)
    (hpad : ∀ j, j < 8 * ceilDiv sieveSize 8 → sieveSize ≤ j → sieve.getD j 0 = 0) :
    callbackPrimes (fun s p => Signal.next (f s p)) low sieve sieveSize s =
      Run.done (List.foldl f s (decodeBuffer low sieve sieveSize)) := by
  rw [callbackPrimes_eq _ low sieve sieveSize s hb hlen hin, deliver_next,
    decodeBuffer_padding low sieve sieveSize (8 * ceilDiv sieveSize 8)
      (by rw [ceilDiv_eight]; omega) (fun j h1 h2 => hpad j h2 h1)]

/-- Witness of C2 (amended): a buffer of one byte in an array of eight. -/
theorem callbackPrimes_delivers_witness :
    callbackPrimes (fun s p => Signal.next (s ++ [p])) 30 [0x06, 0, 0, 0, 0, 0, 0, 0] 1 [] =
      Run.done (List.foldl (fun s p => s ++ [p]) []
        (decodeBuffer 30 [0x06, 0, 0, 0, 0, 0, 0, 0] 1)) :=
  callbackPrimes_delivers (fun s p => s ++ [p]) 30 [0x06, 0, 0, 0, 0, 0, 0, 0] 1 []
    (by decide) (by decide) (by decide) (by decide)

/-- C3: when the array holds the whole 8-byte words that cover the buffer and
the upper bound of the segment fits in 64 bits, `callbackPrimes` delivers to a
recording callback a strictly ascending sequence without duplicates, and the
`PRINT_PRIMES` branch of `print` writes the lines of exactly this sequence. -/
theorem callbackPrimes_ascending (pf : PrimeFinder) (low : Nat) (sieve : List Nat)
    (sieveSize : Nat) (out : String) (hb : ∀ v ∈ sieve, v < 256) (hlen : sieve.length < 2 ^ 32)
    (hin : 8 * ceilDiv sieveSize 8 ≤ sieve.length)
    (hfit : low + NUMBERS_PER_BYTE * (8 * ceilDiv sieveSize 8) + 1 < 2 ^ 64) :
    ∃ vals, callbackPrimes record low sieve sieveSize [] = Run.done vals ∧
      (pf.ps_.isFlag PrimeSieve.PRINT_PRIMES = true →
        printPrimes pf low sieve sieveSize out = some (out ++ lines vals)) ∧
      vals.Pairwise (fun x y => x < y) ∧ vals.Nodup := by
  have hasc := decodeBuffer_ascending low sieve (8 * ceilDiv sieveSize 8) hfit
  refine ⟨_, callbackPrimes_record low sieve sieveSize hb hlen hin, ?_, hasc, ?_⟩
  · intro hflag
    unfold printPrimes
    rw [if_pos hflag]
    exact printPrimesLoop_lines low sieve sieveSize out hb hlen hin
  · exact hasc.imp (fun h => Nat.ne_of_lt h)

/-- Witness of C3: a segment of eight bytes with base 30. -/
theorem callbackPrimes_ascending_witness :
    ∃ vals, callbackPrimes record 30 [0xff, 0x01, 0, 0, 0, 0, 0, 0x80] 8 [] = Run.done vals ∧
      ((PrimeFinder.mk 7 1000 8 ⟨0, 1000, 8, PrimeSieve.PRINT_PRIMES⟩ [0, 0, 0, 0, 0, 0]
          [[], [], [], [], [], []]).ps_.isFlag PrimeSieve.PRINT_PRIMES = true →
        printPrimes (PrimeFinder.mk 7 1000 8 ⟨0, 1000, 8, PrimeSieve.PRINT_PRIMES⟩
          [0, 0, 0, 0, 0, 0] [[], [], [], [], [], []]) 30 [0xff, 0x01, 0, 0, 0, 0, 0, 0x80] 8 "" =
          some ("" ++ lines vals)) ∧
      vals.Pairwise (fun x y => x < y) ∧ vals.Nodup :=
  callbackPrimes_ascending _ 30 [0xff, 0x01, 0, 0, 0, 0, 0, 0x80] 8 ""
    (by decide) (by decide) (by decide) (by decide)

/-- C4: when the array holds the whole 8-byte words that cover the buffer, a
never-stopping (recording) callback receives a sequence `full`.  (1) Every
callback, observed from any state, either throws on an invocation `m + 1` with
`m` below the length of `full`, and then it has been delivered exactly the
first `m` values of `full` and `callbackPrimes` is left by the exception after
`m + 1` invocations, or it never throws, is delivered `full` and is invoked
once per value.  (2) For every `k` the callback `store` with capacity `k`
throws on invocation `k + 1` when `k` is below the length of `full`: it has
then been delivered the first `k` values of `full`, its vector holds these
values converted to `int`, and it is not invoked again; for `k` from the
length on it is delivered all of `full`.  (3) Below `2^31` the conversion
changes nothing. -/
theorem callbackPrimes_cancel {σ : Type} (cb : σ → Nat → Signal σ) (s : σ) (low : Nat)
    (sieve : List Nat) (sieveSize k : Nat)
    (hb : ∀ v ∈ sieve, v < 256) (hlen : sieve.length < 2 ^ 32)
    (hin : 8 * ceilDiv sieveSize 8 ≤ sieve.length) :
    ∃ full, callbackPrimes record low sieve sieveSize [] = Run.done full ∧
      ((∃ s1 m, m < full.length ∧
          callbackPrimes (observing cb) low sieve sieveSize (s, [], 0) =
            Run.stopped (s1, full.take m, m + 1)) ∨
        (∃ s1, callbackPrimes (observing cb) low sieve sieveSize (s, [], 0) =
          Run.done (s1, full, full.length))) ∧
      callbackPrimes (observing (store k)) low sieve sieveSize ([], [], 0) =
        (if k < full.length then
          Run.stopped ((full.take k).map (fun p => toInt32 (u32 p)), full.take k, k + 1)
        else Run.done (full.map (fun p => toInt32 (u32 p)), full, full.length)) ∧
      ∀ p ∈ full, p < 2 ^ 31 → toInt32 (u32 p) = (p : Int) := by
  refine ⟨_, callbackPrimes_record low sieve sieveSize hb hlen hin, ?_, ?_, ?_⟩
  · rw [callbackPrimes_eq _ low sieve sieveSize _ hb hlen hin]
    simpa using deliver_observing cb (decodeBuffer low sieve (8 * ceilDiv sieveSize 8)) s [] 0
  · rw [callbackPrimes_eq _ low sieve sieveSize _ hb hlen hin,
      deliver_store k _ [] [] 0 (by simp)]
    simp
  · intro p _ hp
    exact toInt32_small p hp

set_option maxRecDepth 100000 in
/-- Witness of C4: ten values are delivered by a segment of eight bytes; a
callback that stores at most five values is observed next to `store` with
capacity 3. -/
theorem callbackPrimes_cancel_witness :
    ∃ full, callbackPrimes record 0 [0xff, 0x01, 0, 0, 0, 0, 0, 0x80] 8 [] = Run.done full ∧
      ((∃ s1 m, m < full.length ∧
          callbackPrimes (observing (store 5)) 0 [0xff, 0x01, 0, 0, 0, 0, 0, 0x80] 8
              ([], [], 0) =
            Run.stopped (s1, full.take m, m + 1)) ∨
        (∃ s1, callbackPrimes (observing (store 5)) 0 [0xff, 0x01, 0, 0, 0, 0, 0, 0x80] 8
            ([], [], 0) =
          Run.done (s1, full, full.length))) ∧
      callbackPrimes (observing (store 3)) 0 [0xff, 0x01, 0, 0, 0, 0, 0, 0x80] 8 ([], [], 0) =
        (if 3 < full.length then
          Run.stopped ((full.take 3).map (fun p => toInt32 (u32 p)), full.take 3, 3 + 1)
        else Run.done (full.map (fun p => toInt32 (u32 p)), full, full.length)) ∧
      ∀ p ∈ full, p < 2 ^ 31 → toInt32 (u32 p) = (p : Int) :=
  callbackPrimes_cancel (store 5) [] 0 [0xff, 0x01, 0, 0, 0, 0, 0, 0x80] 8 3
    (by decide) (by decide) (by decide)

/-- C9: when the array holds the whole 8-byte words that cover the buffer and
`PRINT_PRIMES` is set, the first branch of `print` writes, one per line and in
decimal, exactly the values that `callbackPrimes` delivers to a recording
callback for the same array, size and base, in the same order; what `print`
writes afterwards is the output of its k-tuplet branch, which is nothing when
no k-tuplet print flag is set. -/
theorem print_primes_refines (END : Nat) (pf : PrimeFinder) (low : Nat) (sieve : List Nat)
    (sieveSize : Nat) (out : String) (hb : ∀ v ∈ sieve, v < 256) (hlen : sieve.length < 2 ^ 32)
    (hin : 8 * ceilDiv sieveSize 8 ≤ sieve.length)
    (hflag : pf.ps_.isFlag PrimeSieve.PRINT_PRIMES = true) :
    ∃ vals, callbackPrimes record low sieve sieveSize [] = Run.done vals ∧
      print END pf low sieve sieveSize out =
        printTuplets END pf low sieve sieveSize (out ++ lines vals) ∧
      (pf.ps_.isFlagRange PrimeSieve.PRINT_TWINS PrimeSieve.PRINT_SEXTUPLETS = false →
        print END pf low sieve sieveSize out = some (out ++ lines vals)) := by
  refine ⟨_, callbackPrimes_record low sieve sieveSize hb hlen hin, ?_, ?_⟩
  · unfold print printPrimes
    rw [if_pos hflag, printPrimesLoop_lines low sieve sieveSize out hb hlen hin]
  · intro hno
    unfold print printPrimes printTuplets
    rw [if_pos hflag, printPrimesLoop_lines low sieve sieveSize out hb hlen hin]
    simp [hno]

/-- Witness of C9: a segment of eight bytes, only `PRINT_PRIMES` set. -/
theorem print_primes_refines_witness :
    ∃ vals, callbackPrimes record 0 [0xff, 0x01, 0, 0, 0, 0, 0, 0x80] 8 [] = Run.done vals ∧
      print 256 (PrimeFinder.mk 7 1000 8 ⟨0, 1000, 8, PrimeSieve.PRINT_PRIMES⟩
          [0, 0, 0, 0, 0, 0] [[], [], [], [], [], []]) 0 [0xff, 0x01, 0, 0, 0, 0, 0, 0x80] 8 "" =
        printTuplets 256 (PrimeFinder.mk 7 1000 8 ⟨0, 1000, 8, PrimeSieve.PRINT_PRIMES⟩
          [0, 0, 0, 0, 0, 0] [[], [], [], [], [], []]) 0 [0xff, 0x01, 0, 0, 0, 0, 0, 0x80] 8
          ("" ++ lines vals) ∧
      ((PrimeFinder.mk 7 1000 8 ⟨0, 1000, 8, PrimeSieve.PRINT_PRIMES⟩
          [0, 0, 0, 0, 0, 0] [[], [], [], [], [], []]).ps_.isFlagRange
            PrimeSieve.PRINT_TWINS PrimeSieve.PRINT_SEXTUPLETS = false →
        print 256 (PrimeFinder.mk 7 1000 8 ⟨0, 1000, 8, PrimeSieve.PRINT_PRIMES⟩
          [0, 0, 0, 0, 0, 0] [[], [], [], [], [], []]) 0 [0xff, 0x01, 0, 0, 0, 0, 0, 0x80] 8 "" =
          some ("" ++ lines vals)) :=
  print_primes_refines 256 _ 0 [0xff, 0x01, 0, 0, 0, 0, 0, 0x80] 8 ""
    (by decide) (by decide) (by decide) (by decide)

/-- C5 (as stated, refuted): with `sieveSize = 1` the plain-prime counter
grows by 2, the set bits of the whole 8-byte word, while the buffer (byte 0)
has one set bit; a buffer that is exactly one byte long is read beyond its
end. -/
theorem count_primes_counterexample :
    (count (PrimeFinder.mk 7 100 8 ⟨0, 100, 8, PrimeSieve.COUNT_PRIMES⟩ [0, 0, 0, 0, 0, 0]
        [[], [], [], [], [], []]) [0x01, 0x01, 0, 0, 0, 0, 0, 0] 1).map (fun pf => pf.counts_) =
      some [2, 0, 0, 0, 0, 0] ∧
    setBitCount [0x01, 0x01, 0, 0, 0, 0, 0, 0] 1 = 1 ∧
    count (PrimeFinder.mk 7 100 8 ⟨0, 100, 8, PrimeSieve.COUNT_PRIMES⟩ [0, 0, 0, 0, 0, 0]
        [[], [], [], [], [], []]) [0x01] 1 = none := by
  decide

/-- C5 (amended): when the array holds the whole 8-byte words that cover the
buffer and its bytes from `sieveSize` up to the next multiple of 8 are zero (in
particular when `sieveSize` is a multiple of 8), `count` with `COUNT_PRIMES`
requested returns, and the counter `counts_[0]` has grown (in 64-bit
arithmetic) by exactly the number of set bits of the bytes `0 .. sieveSize -
1`. -/
theorem count_primes (END : Nat) (pf : PrimeFinder) (sieve : List Nat) (sieveSize : Nat)
    (hb : ∀ v ∈ sieve, v < 256) (hslen : sieve.length < 2 ^ 32)
    (hin : 8 * ceilDiv sieveSize 8 ≤ sieve.length)
    (hpad : ∀ j, j < 8 * ceilDiv sieveSize 8 → sieveSize ≤ j → sieve.getD j 0 = 0)
    (hc : pf.counts_.length = 6) (htab : TablesBuilt END pf)
    (hflag : pf.ps_.isFlag PrimeSieve.COUNT_PRIMES = true) :
    ∃ pf1 c, count pf sieve sieveSize = some pf1 ∧ pf.counts_[0]? = some c ∧
      pf1.counts_[0]? = some (u64 (c + setBitCount sieve sieveSize)) := by
  obtain ⟨pf1, h1, _, _, _, _, _, _, h8⟩ :=
    count_spec pf sieve sieveSize hb hslen hin hc (tablesBuilt_ready END pf htab)
  have hget : pf.counts_[0]? = some pf.counts_[0] := List.getElem?_eq_getElem (by omega)
  refine ⟨pf1, pf.counts_[0], h1, hget, ?_⟩
  rw [h8 0, hget]
  simp only [Option.map_some', countedValue, if_true, hflag]
  rw [setBitCount_padding sieve sieveSize (8 * ceilDiv sieveSize 8)
    (by rw [ceilDiv_eight]; omega) (fun j h1 h2 => hpad j h2 h1)]

/-- Witness of C5 (amended): a buffer of one byte in an array of eight. -/
theorem count_primes_witness :
    ∃ pf1 c, count (PrimeFinder.mk 7 100 8 ⟨0, 100, 8, PrimeSieve.COUNT_PRIMES⟩
        [5, 0, 0, 0, 0, 0] [[], [], [], [], [], []]) [0xff, 0, 0, 0, 0, 0, 0, 0] 1 = some pf1 ∧
      (PrimeFinder.mk 7 100 8 ⟨0, 100, 8, PrimeSieve.COUNT_PRIMES⟩
        [5, 0, 0, 0, 0, 0] [[], [], [], [], [], []]).counts_[0]? = some c ∧
      pf1.counts_[0]? = some (u64 (c + setBitCount [0xff, 0, 0, 0, 0, 0, 0, 0] 1)) :=
  count_primes 256 _ [0xff, 0, 0, 0, 0, 0, 0, 0] 1 (by decide) (by decide) (by decide)
    (by decide) (by decide) (by decide) (by decide)

set_option maxRecDepth 100000 in
/-- C6 (as stated, refuted): with `sieveSize = 1` and twins counted, the twin
counter grows by 2, because the unrolled loop also adds the table entries of
bytes 1, 2 and 3, while the sum over the buffer (byte 0) is 1. -/
theorem count_tuplets_counterexample :
    ((PrimeFinder.new 256 ⟨0, 100, 8, PrimeSieve.COUNT_TWINS⟩ [0, 0, 0, 0, 0, 0]).bind
        (fun pf => count pf [0x06, 0x06, 0, 0, 0, 0, 0, 0] 1)).map (fun pf => pf.counts_) =
      some [0, 2, 0, 0, 0, 0] ∧
    tupletSum (tableOf 256 1) [0x06, 0x06, 0, 0, 0, 0, 0, 0] 1 = 1 := by
  decide

/-- C6 (amended): when the array holds the whole 8-byte words that cover the
buffer, its bytes from `sieveSize` up to the next multiple of 4 are zero (in
particular when `sieveSize` is a multiple of 4) and the tables are those of
`init_kCounts`, `count` returns, and for a kind `i` in 1..5 requested for
counting the counter `counts_[i]` has grown (in 64-bit arithmetic) by the
32-bit sum of `kCounts_[i][sieve[j]]` over the byte indices `j < sieveSize`. -/
theorem count_tuplets (END : Nat) (pf : PrimeFinder) (sieve : List Nat) (sieveSize i : Nat)
    (hEND : 255 < END) (hb : ∀ v ∈ sieve, v < 256) (hslen : sieve.length < 2 ^ 32)
    (hin : 8 * ceilDiv sieveSize 8 ≤ sieve.length)
    (hpad : ∀ j, j < 4 * ceilDiv sieveSize 4 → sieveSize ≤ j → sieve.getD j 0 = 0)
    (hc : pf.counts_.length = 6) (htab : TablesBuilt END pf)
    (hi1 : 1 ≤ i) (hi5 : i ≤ 5) (hreq : pf.ps_.isCount i = true) :
    ∃ pf1 c, count pf sieve sieveSize = some pf1 ∧ pf.counts_[i]? = some c ∧
      pf.kCounts_[i]? = some (tableOf END i) ∧
      pf1.counts_[i]? = some (u64 (c + u32 (tupletSum (tableOf END i) sieve sieveSize))) := by
  obtain ⟨pf1, h1, _, _, _, _, _, _, h8⟩ :=
    count_spec pf sieve sieveSize hb hslen hin hc (tablesBuilt_ready END pf htab)
  have hget : pf.counts_[i]? = some pf.counts_[i] := List.getElem?_eq_getElem (by omega)
  have ht : pf.kCounts_[i]? = some (tableOf END i) :=
    htab i (by rw [List.mem_range'_1]; omega) hreq
  refine ⟨pf1, pf.counts_[i], h1, hget, ht, ?_⟩
  have hi0 : ¬ i = 0 := by omega
  rw [h8 i, hget]
  simp only [Option.map_some', countedValue, hi0, if_false, hi5, hreq, and_self, if_true, ht,
    Option.getD_some]
  rw [tupletSum_padding (tableOf END i) sieve sieveSize (4 * ceilDiv sieveSize 4)
    (by rw [ceilDiv_four]; omega) (tableOf_zero END i hEND hi1 hi5) (fun j h1 h2 => hpad j h2 h1)]

set_option maxRecDepth 100000 in
/-- Witness of C6 (amended): twins counted in a buffer of two bytes in an
array of eight. -/
theorem count_tuplets_witness :
    ∃ pf1 c, count (PrimeFinder.mk 7 100 8 ⟨0, 100, 8, PrimeSieve.COUNT_TWINS⟩
        [0, 5, 0, 0, 0, 0] [[], tableOf 256 1, [], [], [], []])
        [0xde, 0x06, 0, 0, 0, 0, 0, 0] 2 = some pf1 ∧
      (PrimeFinder.mk 7 100 8 ⟨0, 100, 8, PrimeSieve.COUNT_TWINS⟩
        [0, 5, 0, 0, 0, 0] [[], tableOf 256 1, [], [], [], []]).counts_[1]? = some c ∧
      (PrimeFinder.mk 7 100 8 ⟨0, 100, 8, PrimeSieve.COUNT_TWINS⟩
        [0, 5, 0, 0, 0, 0] [[], tableOf 256 1, [], [], [], []]).kCounts_[1]? =
        some (tableOf 256 1) ∧
      pf1.counts_[1]? =
        some (u64 (c + u32 (tupletSum (tableOf 256 1) [0xde, 0x06, 0, 0, 0, 0, 0, 0] 2))) :=
  count_tuplets 256 _ [0xde, 0x06, 0, 0, 0, 0, 0, 0] 2 1 (by decide) (by decide) (by decide)
    (by decide) (by decide) (by decide) (by decide) (by decide) (by decide) (by decide)

/-- C8 (as stated, refuted): with twins and triplets both requested for
printing, the byte 0x07 fully contains the triplet mask 0x07, yet `print`
writes the twin `(11, 13)` only and no line for the triplet `(7, 11, 13)`. -/
theorem print_tuplets_counterexample :
    (PrimeFinder.mk 7 100 8 ⟨0, 100, 8, PrimeSieve.PRINT_TWINS + PrimeSieve.PRINT_TRIPLETS⟩
      [0, 0, 0, 0, 0, 0] [[], [], [], [], [], []]).ps_.isPrint 2 = true ∧
    print 256 (PrimeFinder.mk 7 100 8
      ⟨0, 100, 8, PrimeSieve.PRINT_TWINS + PrimeSieve.PRINT_TRIPLETS⟩
      [0, 0, 0, 0, 0, 0] [[], [], [], [], [], []]) 0 [0x07] 1 "" = some "(11, 13)\n" ∧
    groupsText (tupletGroups 256 2 0 [0x07] 1) = "(7, 11, 13)\n" := by
  decide

/-- C8 (amended): for the smallest requested k-tuplet print kind `i`, a buffer
that lies within the array and a segment whose upper bound fits in 64 bits, the
k-tuplet branch of `print` returns and writes, byte by byte in index order and
for every mask of kind `i` (in the order of the mask list) that the byte fully
contains, one line `(v1, v2, ..., vk)` with the values of the bits of the mask
relative to the base of the byte, and nothing else; the values of a line
ascend strictly and the first values of successive lines ascend strictly. -/
theorem print_tuplets (END : Nat) (pf : PrimeFinder) (low : Nat) (sieve : List Nat)
    (sieveSize : Nat) (out : String) (i : Nat) (hEND : 255 < END)
    (hb : ∀ v ∈ sieve, v < 256) (hslen : sieve.length < 2 ^ 32) (hin : sieveSize ≤ sieve.length)
    (hfit : low + NUMBERS_PER_BYTE * sieveSize + 1 < 2 ^ 64)
    (hi1 : 1 ≤ i) (hi5 : i ≤ 5) (hreq : pf.ps_.isPrint i = true)
    (hmin : ∀ k, k < i → 1 ≤ k → pf.ps_.isPrint k = false) :
    printTuplets END pf low sieve sieveSize out =
      some (out ++ groupsText (tupletGroups END i low sieve sieveSize)) ∧
    (∀ g ∈ tupletGroups END i low sieve sieveSize, g ≠ [] ∧ g.Pairwise (fun x y => x < y)) ∧
    ((tupletGroups END i low sieve sieveSize).map (fun g => g.headD 0)).Pairwise
      (fun x y => x < y) := by
  refine ⟨printTuplets_eq END pf low sieve sieveSize out i hEND hb hslen hin hi1 hi5 hreq
    (fun k h1 h2 => hmin k h2 h1), ?_, tupletGroups_heads END i low sieve sieveSize hEND hi1 hi5 hfit⟩
  intro g hg
  obtain ⟨_, _, _, _, hm⟩ := row_split END i hEND hi1 hi5
  obtain ⟨j, m, hj, hmem, _, rfl⟩ := mem_tupletGroups END i low sieve sieveSize g hg
  refine ⟨decodeByte_ne_nil low j m (maskList_pos END i hEND hi1 hi5 m hmem) (hm m hmem), ?_⟩
  apply decodeByte_ascending
  unfold NUMBERS_PER_BYTE at hfit ⊢
  omega

/-- Witness of C8 (amended): triplets printed from two bytes with base 30. -/
theorem print_tuplets_witness :
    printTuplets 256 (PrimeFinder.mk 7 1000 8 ⟨0, 1000, 8, PrimeSieve.PRINT_TRIPLETS⟩
        [0, 0, 0, 0, 0, 0] [[], [], [], [], [], []]) 30 [0x0f, 0x38] 2 "" =
      some ("" ++ groupsText (tupletGroups 256 2 30 [0x0f, 0x38] 2)) ∧
    (∀ g ∈ tupletGroups 256 2 30 [0x0f, 0x38] 2, g ≠ [] ∧ g.Pairwise (fun x y => x < y)) ∧
    ((tupletGroups 256 2 30 [0x0f, 0x38] 2).map (fun g => g.headD 0)).Pairwise
      (fun x y => x < y) :=
  print_tuplets 256 _ 30 [0x0f, 0x38] 2 "" 2 (by decide) (by decide) (by decide) (by decide)
    (by decide) (by decide) (by decide) (by decide) (by decide)

/-- C7: under the mod-30 byte layout, (1) for every `n >= 7` with `n` and
`n + 2` coprime to 30 there is exactly one twin mask whose two bit positions
decode, in one byte with a base `NUMBERS_PER_BYTE * j`, to `n` and `n + 2`;
(2) every twin mask selects two positions whose decoded values differ by 2;
(3) the table that `init_kCounts` builds for twins holds, for every byte value
`v`, the number of pairs of set bits of `v` whose decoded values differ by
2. -/
theorem twin_masks (END : Nat) (pf : PrimeFinder) (hEND : 255 < END)
    (hc : pf.counts_.length = 6) (hk : pf.kCounts_.length = 6)
    (hreq : pf.ps_.isCount 1 = true) :
    (∀ n, 7 ≤ n → Nat.Coprime n 30 → Nat.Coprime (n + 2) 30 →
      ∃! m, m ∈ maskList END 1 ∧ ∃ j a b, setBits m = [a, b] ∧
        n = NUMBERS_PER_BYTE * j + bitValues.getD a 0 ∧
        n + 2 = NUMBERS_PER_BYTE * j + bitValues.getD b 0) ∧
    (∀ m ∈ maskList END 1, ∃ a b, setBits m = [a, b] ∧
      bitValues.getD b 0 = bitValues.getD a 0 + 2) ∧
    (∃ pf1 table, init_kCounts END pf = some pf1 ∧ pf1.kCounts_[1]? = some table ∧
      ∀ v, v < 256 → table[v]? = some (twinPairs v)) := by
  have hlist : maskList END 1 = [6, 24, 192] := by
    rw [maskList_END END 1 hEND (by omega) (by omega)]; decide
  have s6 : setBits 6 = [1, 2] := by decide
  have s24 : setBits 24 = [3, 4] := by decide
  have s192 : setBits 192 = [6, 7] := by decide
  refine ⟨?_, ?_, ?_⟩
  · intro n hn h1 h2
    have g1 := coprime_mod n h1
    have g2 := coprime_mod (n + 2) h2
    have e2 : (n + 2) % 30 = (n % 30 + 2) % 30 := by omega
    rw [e2] at g2
    have hr := twin_residues (n % 30) (Nat.mod_lt n (by omega)) g1 g2
    rw [hlist]
    unfold NUMBERS_PER_BYTE
    rcases hr with hr | hr | hr
    · refine ⟨6, ⟨by simp, n / 30, 1, 2, s6, ?_, ?_⟩, ?_⟩
      · simp [bitValues]; omega
      · simp [bitValues]; omega
      · rintro m ⟨hm, j, a, b, hs, ha, _⟩
        simp only [List.mem_cons, List.mem_singleton, List.not_mem_nil, or_false] at hm
        rcases hm with rfl | rfl | rfl
        · rfl
        · rw [s24] at hs
          simp only [List.cons.injEq, and_true] at hs
          obtain ⟨rfl, rfl⟩ := hs
          simp [bitValues] at ha; omega
        · rw [s192] at hs
          simp only [List.cons.injEq, and_true] at hs
          obtain ⟨rfl, rfl⟩ := hs
          simp [bitValues] at ha; omega
    · refine ⟨24, ⟨by simp, n / 30, 3, 4, s24, ?_, ?_⟩, ?_⟩
      · simp [bitValues]; omega
      · simp [bitValues]; omega
      · rintro m ⟨hm, j, a, b, hs, ha, _⟩
        simp only [List.mem_cons, List.mem_singleton, List.not_mem_nil, or_false] at hm
        rcases hm with rfl | rfl | rfl
        · rw [s6] at hs
          simp only [List.cons.injEq, and_true] at hs
          obtain ⟨rfl, rfl⟩ := hs
          simp [bitValues] at ha; omega
        · rfl
        · rw [s192] at hs
          simp only [List.cons.injEq, and_true] at hs
          obtain ⟨rfl, rfl⟩ := hs
          simp [bitValues] at ha; omega
    · refine ⟨192, ⟨by simp, n / 30, 6, 7, s192, ?_, ?_⟩, ?_⟩
      · simp [bitValues]; omega
      · simp [bitValues]; omega
      · rintro m ⟨hm, j, a, b, hs, ha, _⟩
        simp only [List.mem_cons, List.mem_singleton, List.not_mem_nil, or_false] at hm
        rcases hm with rfl | rfl | rfl
        · rw [s6] at hs
          simp only [List.cons.injEq, and_true] at hs
          obtain ⟨rfl, rfl⟩ := hs
          simp [bitValues] at ha; omega
        · rw [s24] at hs
          simp only [List.cons.injEq, and_true] at hs
          obtain ⟨rfl, rfl⟩ := hs
          simp [bitValues] at ha; omega
        · rfl
  · intro m hm
    rw [hlist] at hm
    simp only [List.mem_cons, List.mem_singleton, List.not_mem_nil, or_false] at hm
    rcases hm with rfl | rfl | rfl
    · exact ⟨1, 2, s6, by decide⟩
    · exact ⟨3, 4, s24, by decide⟩
    · exact ⟨6, 7, s192, by decide⟩
  · obtain ⟨pf1, h1, _, _, _, _, _, _, h8⟩ := init_kCounts_spec END hEND pf hc hk
    refine ⟨pf1, tableOf END 1, h1, ?_, ?_⟩
    · rw [h8 1]; simp [hreq]
    · intro v hv
      have := tableOf_getD END 1 v hv
      rw [maskList_END END 1 hEND (by omega) (by omega), twin_table v hv] at this
      rw [← this, List.getD_eq_getElem?_getD,
        List.getElem?_eq_getElem (by rw [tableOf_length]; exact hv)]
      rfl

set_option maxRecDepth 100000 in
/-- Witness of C7: twins are requested and `END` is 256. -/
theorem twin_masks_witness :
    (∀ n, 7 ≤ n → Nat.Coprime n 30 → Nat.Coprime (n + 2) 30 →
      ∃! m, m ∈ maskList 256 1 ∧ ∃ j a b, setBits m = [a, b] ∧
        n = NUMBERS_PER_BYTE * j + bitValues.getD a 0 ∧
        n + 2 = NUMBERS_PER_BYTE * j + bitValues.getD b 0) ∧
    (∀ m ∈ maskList 256 1, ∃ a b, setBits m = [a, b] ∧
      bitValues.getD b 0 = bitValues.getD a 0 + 2) ∧
    (∃ pf1 table, init_kCounts 256 (PrimeFinder.mk 7 100 8 ⟨0, 100, 8, PrimeSieve.COUNT_TWINS⟩
        [0, 0, 0, 0, 0, 0] [[], [], [], [], [], []]) = some pf1 ∧
      pf1.kCounts_[1]? = some table ∧ ∀ v, v < 256 → table[v]? = some (twinPairs v)) :=
  twin_masks 256 _ (by decide) (by decide) (by decide) (by decide)

set_option maxRecDepth 100000 in
/-- C10 (as stated, refuted): (1) a buffer `A` of one byte is read beyond its
end, while `A ++ B` of eight bytes delivers 7; inside the array `A ++ B` a
buffer `A` of four bytes already delivers the value 127 of the first byte of
`B`; (2) with `PRINT_PRIMES` and `PRINT_TWINS` both set, printing `A` and then
`B` interleaves primes and twins of the two segments, printing `A ++ B` writes
all primes first; (3) with a callback, `COUNT_PRIMES` and `PRINT_PRIMES`, and
the callback `store` with capacity 3 throwing in `B`: after `A` and then `B`
the two primes of `A` are counted and printed, after `A ++ B` nothing is
counted or printed, while the callback has stored the same three values. -/
theorem segment_independence_counterexample :
    (callbackPrimes record 0 [0x01] 1 [] = Run.fault ∧
      callbackPrimes record 0 ([0x01] ++ [0, 0, 0, 0, 0, 0, 0]) 8 [] = Run.done [7] ∧
      callbackPrimes record 0 ([0x01, 0, 0, 0] ++ [0x01, 0, 0, 0]) 4 [] = Run.done [7, 127]) ∧
    ((print 256 (PrimeFinder.mk 7 1000 8
        ⟨0, 1000, 8, PrimeSieve.PRINT_PRIMES + PrimeSieve.PRINT_TWINS⟩
        [0, 0, 0, 0, 0, 0] [[], [], [], [], [], []]) 0 [0x06, 0, 0, 0, 0, 0, 0, 0] 8 "").bind
        (fun o => print 256 (PrimeFinder.mk 7 1000 8
          ⟨0, 1000, 8, PrimeSieve.PRINT_PRIMES + PrimeSieve.PRINT_TWINS⟩
          [0, 0, 0, 0, 0, 0] [[], [], [], [], [], []]) (0 + NUMBERS_PER_BYTE * 8)
          [0x06, 0, 0, 0, 0, 0, 0, 0] 8 o) =
        some "11\n13\n(11, 13)\n251\n253\n(251, 253)\n" ∧
      print 256 (PrimeFinder.mk 7 1000 8
        ⟨0, 1000, 8, PrimeSieve.PRINT_PRIMES + PrimeSieve.PRINT_TWINS⟩
        [0, 0, 0, 0, 0, 0] [[], [], [], [], [], []]) 0
        ([0x06, 0, 0, 0, 0, 0, 0, 0] ++ [0x06, 0, 0, 0, 0, 0, 0, 0]) 16 "" =
        some "11\n13\n251\n253\n(11, 13)\n(251, 253)\n") ∧
    (Run.map (fun v => (v.finder.counts_, v.cout, v.cbState))
        (twoSegments 256 (store 3) recordStatus 0 [0x06, 0, 0, 0, 0, 0, 0, 0]
          [0x06, 0, 0, 0, 0, 0, 0, 0]
          (World.mk (finderOf (PrimeSieve.COUNT_PRIMES + PrimeSieve.PRINT_PRIMES +
            PrimeSieve.CALLBACK) [0, 0, 0, 0, 0, 0] emptyTables) "" [] [])) =
        Run.stopped ([2, 0, 0, 0, 0, 0], "11\n13\n", [11, 13, 251]) ∧
      Run.map (fun v => (v.finder.counts_, v.cout, v.cbState))
        (generatePrimes 256 (store 3) recordStatus 0
          ([0x06, 0, 0, 0, 0, 0, 0, 0] ++ [0x06, 0, 0, 0, 0, 0, 0, 0]) 16
          (World.mk (finderOf (PrimeSieve.COUNT_PRIMES + PrimeSieve.PRINT_PRIMES +
            PrimeSieve.CALLBACK) [0, 0, 0, 0, 0, 0] emptyTables) "" [] [])) =
        Run.stopped ([0, 0, 0, 0, 0, 0], "", [11, 13, 251])) := by
  decide

/-- C10 (amended): let `A` and `B` be buffers whose sizes are multiples of 8
and together below `2^30` bytes, the tables be those of `init_kCounts` and
`updateStatus` leave the object, the printed text and the callback state as
they are.  Compare `generatePrimes` for `A` with base `low` followed by
`generatePrimes` for `B` with base `low + NUMBERS_PER_BYTE * |A|` (two
segments) with `generatePrimes` for `A ++ B` with base `low` (one segment).
(1) Neither faults, both end in the same way, returning or left by the
exception of the callback, and with the same callback state, the one that
`callbackPrimes` for `A ++ B` leaves: the callback receives the same values in
the same order up to the same stop.  (2) When they return, that is when the
callback is not requested or does not throw, the object is the same, so every
counter ends with the same value, and (3) the printed text is the same when
not both branches of `print` are requested.  (4) The `PRINT_PRIMES` branch and
(5) the k-tuplet branch of `print` each write the same text for two segments
as for one. -/
theorem segment_independence {σ : Type} (END : Nat) (cb : σ → Nat → Signal σ)
    (updateStatus : Nat → World σ → World σ) (low : Nat) (A B : List Nat) (w : World σ)
    (hEND : 255 < END) (hA : ∀ v ∈ A, v < 256) (hB : ∀ v ∈ B, v < 256)
    (hA8 : A.length % 8 = 0) (hB8 : B.length % 8 = 0) (hlen : (A ++ B).length < 2 ^ 30)
    (hc : w.finder.counts_.length = 6) (htab : TablesBuilt END w.finder)
    (hframe : ∀ n v, (updateStatus n v).finder = v.finder ∧ (updateStatus n v).cout = v.cout ∧
      (updateStatus n v).cbState = v.cbState) :
    ((if w.finder.ps_.isCallback then callbackPrimes cb low (A ++ B) (A ++ B).length w.cbState
        else Run.done w.cbState) ≠ Run.fault ∧
      Run.map World.cbState (generatePrimes END cb updateStatus low (A ++ B) (A ++ B).length w) =
        (if w.finder.ps_.isCallback then
          callbackPrimes cb low (A ++ B) (A ++ B).length w.cbState
        else Run.done w.cbState) ∧
      Run.map World.cbState (twoSegments END cb updateStatus low A B w) =
        (if w.finder.ps_.isCallback then
          callbackPrimes cb low (A ++ B) (A ++ B).length w.cbState
        else Run.done w.cbState)) ∧
    (Run.toOption (twoSegments END cb updateStatus low A B w)).map World.finder =
      (Run.toOption (generatePrimes END cb updateStatus low (A ++ B) (A ++ B).length w)).map
        World.finder ∧
    ((w.finder.ps_.isFlag PrimeSieve.PRINT_PRIMES = false ∨
        w.finder.ps_.isFlagRange PrimeSieve.PRINT_TWINS PrimeSieve.PRINT_SEXTUPLETS = false) →
      (Run.toOption (twoSegments END cb updateStatus low A B w)).map World.cout =
        (Run.toOption (generatePrimes END cb updateStatus low (A ++ B) (A ++ B).length w)).map
          World.cout) ∧
    (∀ out, ∃ out2, printPrimes w.finder low (A ++ B) (A ++ B).length out = some out2 ∧
      (printPrimes w.finder low A A.length out).bind
        (fun o => printPrimes w.finder (low + NUMBERS_PER_BYTE * A.length) B B.length o) =
        some out2) ∧
    (∀ out, ∃ out2, printTuplets END w.finder low (A ++ B) (A ++ B).length out = some out2 ∧
      (printTuplets END w.finder low A A.length out).bind
        (fun o => printTuplets END w.finder (low + NUMBERS_PER_BYTE * A.length) B B.length o) =
        some out2) := by
  have h32 : (A ++ B).length < 2 ^ 32 := Nat.lt_trans hlen (by norm_num)
  obtain ⟨h1, h2, h3, h4, h5⟩ :=
    twoSegments_spec END cb updateStatus low A B w hEND hA hB hA8 hB8 hlen hc htab hframe
  refine ⟨⟨h1, h2, h3⟩, h4, h5, ?_, ?_⟩
  · intro out
    exact printPrimes_append w.finder low A B out hA hB hA8 hB8 h32
  · intro out
    exact printTuplets_append END w.finder low A B out hEND hA hB h32

set_option maxRecDepth 100000 in
/-- Witness of C10 (amended): two buffers of eight bytes, a recording
callback, primes and twins counted, twins printed, progress reported. -/
theorem segment_independence_witness :
    ((if (World.mk (finderOf (PrimeSieve.COUNT_PRIMES + PrimeSieve.COUNT_TWINS +
          PrimeSieve.PRINT_TWINS + PrimeSieve.STATUS + PrimeSieve.CALLBACK) [0, 0, 0, 0, 0, 0]
          [[], tableOf 256 1, [], [], [], []]) "" ([] : List Nat) []).finder.ps_.isCallback then
          callbackPrimes record 30
            ([0xff, 0x06, 0, 0, 0, 0, 0, 0x80] ++ [0x18, 0, 0, 0, 0, 0, 0, 1])
            ([0xff, 0x06, 0, 0, 0, 0, 0, 0x80] ++ [0x18, 0, 0, 0, 0, 0, 0, 1]).length
            (World.mk (finderOf (PrimeSieve.COUNT_PRIMES + PrimeSieve.COUNT_TWINS +
              PrimeSieve.PRINT_TWINS + PrimeSieve.STATUS + PrimeSieve.CALLBACK)
              [0, 0, 0, 0, 0, 0] [[], tableOf 256 1, [], [], [], []]) ""
              ([] : List Nat) []).cbState
        else Run.done (World.mk (finderOf (PrimeSieve.COUNT_PRIMES + PrimeSieve.COUNT_TWINS +
              PrimeSieve.PRINT_TWINS + PrimeSieve.STATUS + PrimeSieve.CALLBACK)
              [0, 0, 0, 0, 0, 0] [[], tableOf 256 1, [], [], [], []]) ""
              ([] : List Nat) []).cbState) ≠ Run.fault ∧
      Run.map World.cbState (generatePrimes 256 record recordStatus 30
          ([0xff, 0x06, 0, 0, 0, 0, 0, 0x80] ++ [0x18, 0, 0, 0, 0, 0, 0, 1])
          ([0xff, 0x06, 0, 0, 0, 0, 0, 0x80] ++ [0x18, 0, 0, 0, 0, 0, 0, 1]).length
          (World.mk (finderOf (PrimeSieve.COUNT_PRIMES + PrimeSieve.COUNT_TWINS +
            PrimeSieve.PRINT_TWINS + PrimeSieve.STATUS + PrimeSieve.CALLBACK)
            [0, 0, 0, 0, 0, 0] [[], tableOf 256 1, [], [], [], []]) "" ([] : List Nat) [])) =
        (if (World.mk (finderOf (PrimeSieve.COUNT_PRIMES + PrimeSieve.COUNT_TWINS +
          PrimeSieve.PRINT_TWINS + PrimeSieve.STATUS + PrimeSieve.CALLBACK) [0, 0, 0, 0, 0, 0]
          [[], tableOf 256 1, [], [], [], []]) "" ([] : List Nat) []).finder.ps_.isCallback then
          callbackPrimes record 30
            ([0xff, 0x06, 0, 0, 0, 0, 0, 0x80] ++ [0x18, 0, 0, 0, 0, 0, 0, 1])
            ([0xff, 0x06, 0, 0, 0, 0, 0, 0x80] ++ [0x18, 0, 0, 0, 0, 0, 0, 1]).length
            (World.mk (finderOf (PrimeSieve.COUNT_PRIMES + PrimeSieve.COUNT_TWINS +
              PrimeSieve.PRINT_TWINS + PrimeSieve.STATUS + PrimeSieve.CALLBACK)
              [0, 0, 0, 0, 0, 0] [[], tableOf 256 1, [], [], [], []]) ""
              ([] : List Nat) []).cbState
        else Run.done (World.mk (finderOf (PrimeSieve.COUNT_PRIMES + PrimeSieve.COUNT_TWINS +
              PrimeSieve.PRINT_TWINS + PrimeSieve.STATUS + PrimeSieve.CALLBACK)
              [0, 0, 0, 0, 0, 0] [[], tableOf 256 1, [], [], [], []]) ""
              ([] : List Nat) []).cbState) ∧
      Run.map World.cbState (twoSegments 256 record recordStatus 30
          [0xff, 0x06, 0, 0, 0, 0, 0, 0x80] [0x18, 0, 0, 0, 0, 0, 0, 1]
          (World.mk (finderOf (PrimeSieve.COUNT_PRIMES + PrimeSieve.COUNT_TWINS +
            PrimeSieve.PRINT_TWINS + PrimeSieve.STATUS + PrimeSieve.CALLBACK)
            [0, 0, 0, 0, 0, 0] [[], tableOf 256 1, [], [], [], []]) "" ([] : List Nat) [])) =
        (if (World.mk (finderOf (PrimeSieve.COUNT_PRIMES + PrimeSieve.COUNT_TWINS +
          PrimeSieve.PRINT_TWINS + PrimeSieve.STATUS + PrimeSieve.CALLBACK) [0, 0, 0, 0, 0, 0]
          [[], tableOf 256 1, [], [], [], []]) "" ([] : List Nat) []).finder.ps_.isCallback then
          callbackPrimes record 30
            ([0xff, 0x06, 0, 0, 0, 0, 0, 0x80] ++ [0x18, 0, 0, 0, 0, 0, 0, 1])
            ([0xff, 0x06, 0, 0, 0, 0, 0, 0x80] ++ [0x18, 0, 0, 0, 0, 0, 0, 1]).length
            (World.mk (finderOf (PrimeSieve.COUNT_PRIMES + PrimeSieve.COUNT_TWINS +
              PrimeSieve.PRINT_TWINS + PrimeSieve.STATUS + PrimeSieve.CALLBACK)
              [0, 0, 0, 0, 0, 0] [[], tableOf 256 1, [], [], [], []]) ""
              ([] : List Nat) []).cbState
        else Run.done (World.mk (finderOf (PrimeSieve.COUNT_PRIMES + PrimeSieve.COUNT_TWINS +
              PrimeSieve.PRINT_TWINS + PrimeSieve.STATUS + PrimeSieve.CALLBACK)
              [0, 0, 0, 0, 0, 0] [[], tableOf 256 1, [], [], [], []]) ""
              ([] : List Nat) []).cbState)) ∧
    (Run.toOption (twoSegments 256 record recordStatus 30
        [0xff, 0x06, 0, 0, 0, 0, 0, 0x80] [0x18, 0, 0, 0, 0, 0, 0, 1]
        (World.mk (finderOf (PrimeSieve.COUNT_PRIMES + PrimeSieve.COUNT_TWINS +
          PrimeSieve.PRINT_TWINS + PrimeSieve.STATUS + PrimeSieve.CALLBACK)
          [0, 0, 0, 0, 0, 0] [[], tableOf 256 1, [], [], [], []]) "" ([] : List Nat) [])
        )).map World.finder =
      (Run.toOption (generatePrimes 256 record recordStatus 30
        ([0xff, 0x06, 0, 0, 0, 0, 0, 0x80] ++ [0x18, 0, 0, 0, 0, 0, 0, 1])
        ([0xff, 0x06, 0, 0, 0, 0, 0, 0x80] ++ [0x18, 0, 0, 0, 0, 0, 0, 1]).length
        (World.mk (finderOf (PrimeSieve.COUNT_PRIMES + PrimeSieve.COUNT_TWINS +
          PrimeSieve.PRINT_TWINS + PrimeSieve.STATUS + PrimeSieve.CALLBACK)
          [0, 0, 0, 0, 0, 0] [[], tableOf 256 1, [], [], [], []]) "" ([] : List Nat) [])
        )).map World.finder ∧
    (((World.mk (finderOf (PrimeSieve.COUNT_PRIMES + PrimeSieve.COUNT_TWINS +
          PrimeSieve.PRINT_TWINS + PrimeSieve.STATUS + PrimeSieve.CALLBACK) [0, 0, 0, 0, 0, 0]
          [[], tableOf 256 1, [], [], [], []]) "" ([] : List Nat) []).finder.ps_.isFlag
            PrimeSieve.PRINT_PRIMES = false ∨
        (World.mk (finderOf (PrimeSieve.COUNT_PRIMES + PrimeSieve.COUNT_TWINS +
          PrimeSieve.PRINT_TWINS + PrimeSieve.STATUS + PrimeSieve.CALLBACK) [0, 0, 0, 0, 0, 0]
          [[], tableOf 256 1, [], [], [], []]) "" ([] : List Nat) []).finder.ps_.isFlagRange
            PrimeSieve.PRINT_TWINS PrimeSieve.PRINT_SEXTUPLETS = false) →
      (Run.toOption (twoSegments 256 record recordStatus 30
        [0xff, 0x06, 0, 0, 0, 0, 0, 0x80] [0x18, 0, 0, 0, 0, 0, 0, 1]
        (World.mk (finderOf (PrimeSieve.COUNT_PRIMES + PrimeSieve.COUNT_TWINS +
          PrimeSieve.PRINT_TWINS + PrimeSieve.STATUS + PrimeSieve.CALLBACK)
          [0, 0, 0, 0, 0, 0] [[], tableOf 256 1, [], [], [], []]) "" ([] : List Nat) [])
        )).map World.cout =
      (Run.toOption (generatePrimes 256 record recordStatus 30
        ([0xff, 0x06, 0, 0, 0, 0, 0, 0x80] ++ [0x18, 0, 0, 0, 0, 0, 0, 1])
        ([0xff, 0x06, 0, 0, 0, 0, 0, 0x80] ++ [0x18, 0, 0, 0, 0, 0, 0, 1]).length
        (World.mk (finderOf (PrimeSieve.COUNT_PRIMES + PrimeSieve.COUNT_TWINS +
          PrimeSieve.PRINT_TWINS + PrimeSieve.STATUS + PrimeSieve.CALLBACK)
          [0, 0, 0, 0, 0, 0] [[], tableOf 256 1, [], [], [], []]) "" ([] : List Nat) [])
        )).map World.cout) ∧
    (∀ out, ∃ out2, printPrimes (World.mk (finderOf (PrimeSieve.COUNT_PRIMES +
          PrimeSieve.COUNT_TWINS + PrimeSieve.PRINT_TWINS + PrimeSieve.STATUS +
          PrimeSieve.CALLBACK) [0, 0, 0, 0, 0, 0] [[], tableOf 256 1, [], [], [], []]) ""
          ([] : List Nat) []).finder 30
          ([0xff, 0x06, 0, 0, 0, 0, 0, 0x80] ++ [0x18, 0, 0, 0, 0, 0, 0, 1])
          ([0xff, 0x06, 0, 0, 0, 0, 0, 0x80] ++ [0x18, 0, 0, 0, 0, 0, 0, 1]).length out =
        some out2 ∧
      (printPrimes (World.mk (finderOf (PrimeSieve.COUNT_PRIMES +
          PrimeSieve.COUNT_TWINS + PrimeSieve.PRINT_TWINS + PrimeSieve.STATUS +
          PrimeSieve.CALLBACK) [0, 0, 0, 0, 0, 0] [[], tableOf 256 1, [], [], [], []]) ""
          ([] : List Nat) []).finder 30
          [0xff, 0x06, 0, 0, 0, 0, 0, 0x80] [0xff, 0x06, 0, 0, 0, 0, 0, 0x80].length out).bind
        (fun o => printPrimes (World.mk (finderOf (PrimeSieve.COUNT_PRIMES +
          PrimeSieve.COUNT_TWINS + PrimeSieve.PRINT_TWINS + PrimeSieve.STATUS +
          PrimeSieve.CALLBACK) [0, 0, 0, 0, 0, 0] [[], tableOf 256 1, [], [], [], []]) ""
          ([] : List Nat) []).finder
          (30 + NUMBERS_PER_BYTE * [0xff, 0x06, 0, 0, 0, 0, 0, 0x80].length)
          [0x18, 0, 0, 0, 0, 0, 0, 1] [0x18, 0, 0, 0, 0, 0, 0, 1].length o) = some out2) ∧
    (∀ out, ∃ out2, printTuplets 256 (World.mk (finderOf (PrimeSieve.COUNT_PRIMES +
          PrimeSieve.COUNT_TWINS + PrimeSieve.PRINT_TWINS + PrimeSieve.STATUS +
          PrimeSieve.CALLBACK) [0, 0, 0, 0, 0, 0] [[], tableOf 256 1, [], [], [], []]) ""
          ([] : List Nat) []).finder 30
          ([0xff, 0x06, 0, 0, 0, 0, 0, 0x80] ++ [0x18, 0, 0, 0, 0, 0, 0, 1])
          ([0xff, 0x06, 0, 0, 0, 0, 0, 0x80] ++ [0x18, 0, 0, 0, 0, 0, 0, 1]).length out =
        some out2 ∧
      (printTuplets 256 (World.mk (finderOf (PrimeSieve.COUNT_PRIMES +
          PrimeSieve.COUNT_TWINS + PrimeSieve.PRINT_TWINS + PrimeSieve.STATUS +
          PrimeSieve.CALLBACK) [0, 0, 0, 0, 0, 0] [[], tableOf 256 1, [], [], [], []]) ""
          ([] : List Nat) []).finder 30
          [0xff, 0x06, 0, 0, 0, 0, 0, 0x80] [0xff, 0x06, 0, 0, 0, 0, 0, 0x80].length out).bind
        (fun o => printTuplets 256 (World.mk (finderOf (PrimeSieve.COUNT_PRIMES +
          PrimeSieve.COUNT_TWINS + PrimeSieve.PRINT_TWINS + PrimeSieve.STATUS +
          PrimeSieve.CALLBACK) [0, 0, 0, 0, 0, 0] [[], tableOf 256 1, [], [], [], []]) ""
          ([] : List Nat) []).finder
          (30 + NUMBERS_PER_BYTE * [0xff, 0x06, 0, 0, 0, 0, 0, 0x80].length)
          [0x18, 0, 0, 0, 0, 0, 0, 1] [0x18, 0, 0, 0, 0, 0, 0, 1].length o) = some out2) :=
  segment_independence 256 record recordStatus 30 [0xff, 0x06, 0, 0, 0, 0, 0, 0x80]
    [0x18, 0, 0, 0, 0, 0, 0, 1]
    (World.mk (finderOf (PrimeSieve.COUNT_PRIMES + PrimeSieve.COUNT_TWINS +
      PrimeSieve.PRINT_TWINS + PrimeSieve.STATUS + PrimeSieve.CALLBACK) [0, 0, 0, 0, 0, 0]
      [[], tableOf 256 1, [], [], [], []]) "" ([] : List Nat) [])
    (by decide) (by decide) (by decide) (by decide) (by decide) (by decide) (by decide)
    (by decide) (fun _ _ => ⟨rfl, rfl, rfl⟩)

/-- C11: when the callback throws while `generatePrimes` processes a
segment (`callbackPrimes` is left by the exception with callback state `s1`),
`generatePrimes` is left by the exception as well, whatever `updateStatus`
is: neither `count`, `print` nor `updateStatus` is performed, the object with
its counters, the printed output and the progress notifications are exactly
what they were before the call. -/
theorem generatePrimes_cancelled {σ : Type} (END : Nat) (cb : σ → Nat → Signal σ)
    (updateStatus : Nat → World σ → World σ) (low : Nat) (sieve : List Nat) (sieveSize : Nat)
    (w : World σ) (s1 : σ) (hcb : w.finder.ps_.isCallback = true)
    (hstop : callbackPrimes cb low sieve sieveSize w.cbState = Run.stopped s1) :
    ∃ w1, generatePrimes END cb updateStatus low sieve sieveSize w = Run.stopped w1 ∧
      w1.finder = w.finder ∧ w1.cout = w.cout ∧ w1.status = w.status ∧ w1.cbState = s1 := by
  refine ⟨{ w with cbState := s1 }, ?_, rfl, rfl, rfl, rfl⟩
  unfold generatePrimes
  rw [if_pos hcb, hstop]

/-- Witness of C11: `store` with capacity 3 stops in a segment with ten set
bits; primes are counted and printed and the status is reported. -/
theorem generatePrimes_cancelled_witness :
    ∃ w1, generatePrimes 256 (store 3) recordStatus 0 [0xff, 0x01, 0, 0, 0, 0, 0, 0x80] 8
        (World.mk (finderOf (PrimeSieve.COUNT_PRIMES + PrimeSieve.PRINT_PRIMES +
          PrimeSieve.STATUS + PrimeSieve.CALLBACK) [4, 0, 0, 0, 0, 0] emptyTables)
          "2\n3\n5\n" [] [30]) = Run.stopped w1 ∧
      w1.finder = (World.mk (finderOf (PrimeSieve.COUNT_PRIMES + PrimeSieve.PRINT_PRIMES +
          PrimeSieve.STATUS + PrimeSieve.CALLBACK) [4, 0, 0, 0, 0, 0] emptyTables)
          "2\n3\n5\n" ([] : List Int) [30]).finder ∧
      w1.cout = (World.mk (finderOf (PrimeSieve.COUNT_PRIMES + PrimeSieve.PRINT_PRIMES +
          PrimeSieve.STATUS + PrimeSieve.CALLBACK) [4, 0, 0, 0, 0, 0] emptyTables)
          "2\n3\n5\n" ([] : List Int) [30]).cout ∧
      w1.status = (World.mk (finderOf (PrimeSieve.COUNT_PRIMES + PrimeSieve.PRINT_PRIMES +
          PrimeSieve.STATUS + PrimeSieve.CALLBACK) [4, 0, 0, 0, 0, 0] emptyTables)
          "2\n3\n5\n" ([] : List Int) [30]).status ∧
      w1.cbState = [7, 11, 13] :=
  generatePrimes_cancelled 256 (store 3) recordStatus 0 [0xff, 0x01, 0, 0, 0, 0, 0, 0x80] 8
    (World.mk (finderOf (PrimeSieve.COUNT_PRIMES + PrimeSieve.PRINT_PRIMES +
      PrimeSieve.STATUS + PrimeSieve.CALLBACK) [4, 0, 0, 0, 0, 0] emptyTables)
      "2\n3\n5\n" [] [30])
    [7, 11, 13] (by decide) (by decide)

/-- C12: when the status flag is set and the callback does not throw in the
segment (`callbackPrimes`, if requested, returns with callback state `s1`),
`generatePrimes` returns after exactly one invocation of `updateStatus`, on
the world that the callback, `count` and `print` have left, with the argument
`sieveSize * NUMBERS_PER_BYTE` (in `uint_t` arithmetic), the number of
integers that the bytes of the segment stand for. -/
theorem generatePrimes_status {σ : Type} (END : Nat) (cb : σ → Nat → Signal σ)
    (updateStatus : Nat → World σ → World σ) (low : Nat) (sieve : List Nat) (sieveSize : Nat)
    (w : World σ) (s1 : σ) (hEND : 255 < END) (hb : ∀ v ∈ sieve, v < 256)
    (hlen : sieve.length < 2 ^ 32) (hin : 8 * ceilDiv sieveSize 8 ≤ sieve.length)
    (hc : w.finder.counts_.length = 6) (htab : TablesBuilt END w.finder)
    (hstatus : w.finder.ps_.isStatus = true)
    (hrun : (if w.finder.ps_.isCallback then callbackPrimes cb low sieve sieveSize w.cbState
      else Run.done w.cbState) = Run.done s1) :
    ∃ pf1 out1,
      (if w.finder.ps_.isCountAny then count w.finder sieve sieveSize else some w.finder) =
        some pf1 ∧
      (if w.finder.ps_.isPrintAny then print END w.finder low sieve sieveSize w.cout
        else some w.cout) = some out1 ∧
      generatePrimes END cb updateStatus low sieve sieveSize w =
        Run.done (updateStatus (u32 (sieveSize * NUMBERS_PER_BYTE))
          { finder := pf1, cout := out1, cbState := s1, status := w.status }) ∧
      (sieveSize * NUMBERS_PER_BYTE < 2 ^ 32 →
        u32 (sieveSize * NUMBERS_PER_BYTE) = sieveSize * NUMBERS_PER_BYTE) := by
  obtain ⟨pfc, hcount, hps, hkc, h4, h5, h6, _, _⟩ :=
    count_spec w.finder sieve sieveSize hb hlen hin hc (tablesBuilt_ready END w.finder htab)
  have hC : ∃ pf1, (if w.finder.ps_.isCountAny then count w.finder sieve sieveSize
      else some w.finder) = some pf1 ∧ pf1.ps_ = w.finder.ps_ ∧
        pf1.kCounts_ = w.finder.kCounts_ ∧ pf1.soeStart = w.finder.soeStart ∧
        pf1.soeStop = w.finder.soeStop ∧ pf1.soeSieveSize = w.finder.soeSieveSize := by
    by_cases hf : w.finder.ps_.isCountAny = true
    · exact ⟨pfc, by rw [if_pos hf, hcount], hps, hkc, h4, h5, h6⟩
    · exact ⟨w.finder, by rw [if_neg hf], rfl, rfl, rfl, rfl, rfl⟩
  obtain ⟨pf1, hpf1, hps1, hk1, hs1, hs2, hs3⟩ := hC
  have hP : ∃ out1, (if w.finder.ps_.isPrintAny then print END w.finder low sieve sieveSize w.cout
      else some w.cout) = some out1 := by
    by_cases hf : w.finder.ps_.isPrintAny = true
    · obtain ⟨o, ho⟩ := print_total END w.finder low sieve sieveSize w.cout hEND hb hlen hin
      exact ⟨o, by rw [if_pos hf, ho]⟩
    · exact ⟨w.cout, by rw [if_neg hf]⟩
  obtain ⟨out1, hout1⟩ := hP
  have hprint : ∀ o, print END pf1 low sieve sieveSize o = print END w.finder low sieve sieveSize o := by
    intro o
    unfold print printPrimes printTuplets
    rw [hps1]
  refine ⟨pf1, out1, hpf1, hout1, ?_, ?_⟩
  · unfold generatePrimes
    rw [hrun]
    simp only [hpf1, hps1, hprint, hout1, hstatus, if_true]
  · intro h
    exact Nat.mod_eq_of_lt h

/-- Witness of C12: primes are delivered, counted and printed in a segment of
eight bytes and one notification with the argument 240 follows. -/
theorem generatePrimes_status_witness :
    ∃ pf1 out1,
      (if (World.mk (finderOf (PrimeSieve.COUNT_PRIMES + PrimeSieve.PRINT_PRIMES +
          PrimeSieve.STATUS + PrimeSieve.CALLBACK) [4, 0, 0, 0, 0, 0] emptyTables) ""
          ([] : List Nat) []).finder.ps_.isCountAny then
        count (World.mk (finderOf (PrimeSieve.COUNT_PRIMES + PrimeSieve.PRINT_PRIMES +
          PrimeSieve.STATUS + PrimeSieve.CALLBACK) [4, 0, 0, 0, 0, 0] emptyTables) ""
          ([] : List Nat) []).finder [0x06, 0, 0, 0, 0, 0, 0, 0] 8
        else some (World.mk (finderOf (PrimeSieve.COUNT_PRIMES + PrimeSieve.PRINT_PRIMES +
          PrimeSieve.STATUS + PrimeSieve.CALLBACK) [4, 0, 0, 0, 0, 0] emptyTables) ""
          ([] : List Nat) []).finder) = some pf1 ∧
      (if (World.mk (finderOf (PrimeSieve.COUNT_PRIMES + PrimeSieve.PRINT_PRIMES +
          PrimeSieve.STATUS + PrimeSieve.CALLBACK) [4, 0, 0, 0, 0, 0] emptyTables) ""
          ([] : List Nat) []).finder.ps_.isPrintAny then
        print 256 (World.mk (finderOf (PrimeSieve.COUNT_PRIMES + PrimeSieve.PRINT_PRIMES +
          PrimeSieve.STATUS + PrimeSieve.CALLBACK) [4, 0, 0, 0, 0, 0] emptyTables) ""
          ([] : List Nat) []).finder 0 [0x06, 0, 0, 0, 0, 0, 0, 0] 8
          (World.mk (finderOf (PrimeSieve.COUNT_PRIMES + PrimeSieve.PRINT_PRIMES +
          PrimeSieve.STATUS + PrimeSieve.CALLBACK) [4, 0, 0, 0, 0, 0] emptyTables) ""
          ([] : List Nat) []).cout
        else some (World.mk (finderOf (PrimeSieve.COUNT_PRIMES + PrimeSieve.PRINT_PRIMES +
          PrimeSieve.STATUS + PrimeSieve.CALLBACK) [4, 0, 0, 0, 0, 0] emptyTables) ""
          ([] : List Nat) []).cout) = some out1 ∧
      generatePrimes 256 record recordStatus 0 [0x06, 0, 0, 0, 0, 0, 0, 0] 8
        (World.mk (finderOf (PrimeSieve.COUNT_PRIMES + PrimeSieve.PRINT_PRIMES +
          PrimeSieve.STATUS + PrimeSieve.CALLBACK) [4, 0, 0, 0, 0, 0] emptyTables) ""
          ([] : List Nat) []) =
        Run.done (recordStatus (u32 (8 * NUMBERS_PER_BYTE))
          { finder := pf1, cout := out1, cbState := [11, 13],
            status := (World.mk (finderOf (PrimeSieve.COUNT_PRIMES + PrimeSieve.PRINT_PRIMES +
          PrimeSieve.STATUS + PrimeSieve.CALLBACK) [4, 0, 0, 0, 0, 0] emptyTables) ""
          ([] : List Nat) []).status }) ∧
      (8 * NUMBERS_PER_BYTE < 2 ^ 32 → u32 (8 * NUMBERS_PER_BYTE) = 8 * NUMBERS_PER_BYTE) :=
  generatePrimes_status 256 record recordStatus 0 [0x06, 0, 0, 0, 0, 0, 0, 0] 8
    (World.mk (finderOf (PrimeSieve.COUNT_PRIMES + PrimeSieve.PRINT_PRIMES +
          PrimeSieve.STATUS + PrimeSieve.CALLBACK) [4, 0, 0, 0, 0, 0] emptyTables) ""
          ([] : List Nat) [])
    [11, 13] (by decide) (by decide) (by decide) (by decide) (by decide) (by decide) (by decide)
    (by decide)

/-- C13: when the array holds the 8-byte words that cover the buffer, the
tables are those of `init_kCounts` and no counter is within eight times the
size of the array of `2^64`, `count` returns for every flag configuration and
(1) leaves the lookup tables, the flags and the number of counters unchanged
(the buffer is an argument that the function cannot change), (2) leaves
`counts_[0]` unchanged when `COUNT_PRIMES` is not set and `counts_[i]`
unchanged when `isCount(i)` is false, (3) decreases no counter. -/
theorem count_frame (END : Nat) (pf : PrimeFinder) (sieve : List Nat) (sieveSize : Nat)
    (hEND : 255 < END) (hb : ∀ v ∈ sieve, v < 256) (hslen : sieve.length < 2 ^ 32)
    (hin : 8 * ceilDiv sieveSize 8 ≤ sieve.length) (hc : pf.counts_.length = 6)
    (htab : TablesBuilt END pf) (hroom : ∀ c ∈ pf.counts_, c + 8 * sieve.length < 2 ^ 64) :
    ∃ pf1, count pf sieve sieveSize = some pf1 ∧
      (pf1.kCounts_ = pf.kCounts_ ∧ pf1.ps_ = pf.ps_ ∧
        pf1.counts_.length = pf.counts_.length) ∧
      ((pf.ps_.isFlag PrimeSieve.COUNT_PRIMES = false → pf1.counts_[0]? = pf.counts_[0]?) ∧
        ∀ i, pf.ps_.isCount i = false → pf1.counts_[i]? = pf.counts_[i]?) ∧
      ∀ (i c c1 : Nat), pf.counts_[i]? = some c → pf1.counts_[i]? = some c1 → c ≤ c1 := by
  obtain ⟨pf1, h1, h2, h3, _, _, _, h7, h8⟩ :=
    count_spec pf sieve sieveSize hb hslen hin hc (tablesBuilt_ready END pf htab)
  have hunch : ∀ i, pf.ps_.isCount i = false → pf1.counts_[i]? = pf.counts_[i]? := by
    intro i hi
    rw [h8 i]
    cases hget : pf.counts_[i]? with
    | none => rfl
    | some c =>
      simp only [Option.map_some', Option.some.injEq]
      unfold countedValue
      by_cases hi0 : i = 0
      · subst hi0
        rw [isCount_zero] at hi
        simp [hi]
      · simp [hi0, hi]
  refine ⟨pf1, h1, ⟨h3, h2, by rw [h7, hc]⟩, ⟨?_, hunch⟩, ?_⟩
  · intro hf
    exact hunch 0 (by rw [isCount_zero]; exact hf)
  · intro i c c1 hc0 hc1
    rw [h8 i, hc0] at hc1
    simp only [Option.map_some', Option.some.injEq] at hc1
    rw [← hc1]
    exact countedValue_ge END pf sieve sieveSize i c hEND hin htab
      (hroom c (List.getElem?_mem hc0))

set_option maxRecDepth 100000 in
/-- Witness of C13: twins are counted, primes are not. -/
theorem count_frame_witness :
    ∃ pf1, count (finderOf PrimeSieve.COUNT_TWINS [4, 1, 0, 0, 0, 0]
        [[], tableOf 256 1, [], [], [], []]) [0xde, 0x06, 0, 0, 0, 0, 0, 0] 8 = some pf1 ∧
      (pf1.kCounts_ = (finderOf PrimeSieve.COUNT_TWINS [4, 1, 0, 0, 0, 0]
          [[], tableOf 256 1, [], [], [], []]).kCounts_ ∧
        pf1.ps_ = (finderOf PrimeSieve.COUNT_TWINS [4, 1, 0, 0, 0, 0]
          [[], tableOf 256 1, [], [], [], []]).ps_ ∧
        pf1.counts_.length = (finderOf PrimeSieve.COUNT_TWINS [4, 1, 0, 0, 0, 0]
          [[], tableOf 256 1, [], [], [], []]).counts_.length) ∧
      (((finderOf PrimeSieve.COUNT_TWINS [4, 1, 0, 0, 0, 0]
          [[], tableOf 256 1, [], [], [], []]).ps_.isFlag PrimeSieve.COUNT_PRIMES = false →
          pf1.counts_[0]? = (finderOf PrimeSieve.COUNT_TWINS [4, 1, 0, 0, 0, 0]
            [[], tableOf 256 1, [], [], [], []]).counts_[0]?) ∧
        ∀ i, (finderOf PrimeSieve.COUNT_TWINS [4, 1, 0, 0, 0, 0]
          [[], tableOf 256 1, [], [], [], []]).ps_.isCount i = false →
          pf1.counts_[i]? = (finderOf PrimeSieve.COUNT_TWINS [4, 1, 0, 0, 0, 0]
            [[], tableOf 256 1, [], [], [], []]).counts_[i]?) ∧
      ∀ (i c c1 : Nat), (finderOf PrimeSieve.COUNT_TWINS [4, 1, 0, 0, 0, 0]
          [[], tableOf 256 1, [], [], [], []]).counts_[i]? = some c →
        pf1.counts_[i]? = some c1 → c ≤ c1 :=
  count_frame 256 _ [0xde, 0x06, 0, 0, 0, 0, 0, 0] 8 (by decide) (by decide) (by decide)
    (by decide) (by decide) (by decide) (by decide)

/-- C14: (1) for every configured start the constructor returns and hands
`max(7, start)` to the engine as its lower bound, which is `start` whenever
`start >= 7` and never below 7; (2) when the upper bound of the segment fits
in 64 bits, every value that `callbackPrimes` delivers, that the
`PRINT_PRIMES` branch of `print` writes and that belongs to a k-tuplet of the
segment is at least `low + 7`, so that 2, 3 and 5 are not among them. -/
theorem wheel_lower_bound (END : Nat) (ps : PrimeSieve) (counts : List Nat) (low : Nat)
    (sieve : List Nat) (sieveSize : Nat) (hEND : 255 < END) (hc : counts.length = 6)
    (hb : ∀ v ∈ sieve, v < 256) (hlen : sieve.length < 2 ^ 32)
    (hin : 8 * ceilDiv sieveSize 8 ≤ sieve.length)
    (hfit : low + NUMBERS_PER_BYTE * (8 * ceilDiv sieveSize 8) + 1 < 2 ^ 64) :
    (∃ pf, PrimeFinder.new END ps counts = some pf ∧ pf.soeStart = max 7 ps.start_ ∧
      (7 ≤ ps.start_ → pf.soeStart = ps.start_) ∧ 7 ≤ pf.soeStart) ∧
    (∃ vals, callbackPrimes record low sieve sieveSize [] = Run.done vals ∧
      (∀ out, printPrimesLoop sieve sieveSize (sieveSize + 1) 0 low out =
        some (out ++ lines vals)) ∧
      ∀ x ∈ vals, low + 7 ≤ x ∧ x ≠ 2 ∧ x ≠ 3 ∧ x ≠ 5) ∧
    (∀ i, ∀ g ∈ tupletGroups END i low sieve sieveSize, ∀ x ∈ g,
      low + 7 ≤ x ∧ x ≠ 2 ∧ x ≠ 3 ∧ x ≠ 5) := by
  have hsz : sieveSize ≤ 8 * ceilDiv sieveSize 8 := by rw [ceilDiv_eight]; omega
  refine ⟨?_, ?_, ?_⟩
  · obtain ⟨pf, h1, _, _, h4, _⟩ := new_spec END ps counts hEND hc
    refine ⟨pf, h1, h4, ?_, ?_⟩
    · intro h; rw [h4]; exact Nat.max_eq_right h
    · rw [h4]; exact Nat.le_max_left 7 _
  · refine ⟨_, callbackPrimes_record low sieve sieveSize hb hlen hin,
      fun out => printPrimesLoop_lines low sieve sieveSize out hb hlen hin, ?_⟩
    intro x hx
    obtain ⟨j, b, hj, hb8, rfl⟩ := mem_decodeBuffer _ _ _ _ hx
    have := decoded_ge low j b _ hj hb8 hfit
    omega
  · intro i g hg x hx
    obtain ⟨j, m, hj, _, _, rfl⟩ := mem_tupletGroups END i low sieve sieveSize g hg
    obtain ⟨b, hb8, _, rfl⟩ := mem_decodeByte _ _ _ _ hx
    have := decoded_ge low j b _ (Nat.lt_of_lt_of_le hj hsz) hb8 hfit
    omega

set_option maxRecDepth 100000 in
/-- Witness of C14: the interval starts at 2, the first segment has base 0. -/
theorem wheel_lower_bound_witness :
    (∃ pf, PrimeFinder.new 256 ⟨2, 100, 8, PrimeSieve.COUNT_TWINS⟩ [0, 0, 0, 0, 0, 0] = some pf ∧
      pf.soeStart = max 7 (PrimeSieve.mk 2 100 8 PrimeSieve.COUNT_TWINS).start_ ∧
      (7 ≤ (PrimeSieve.mk 2 100 8 PrimeSieve.COUNT_TWINS).start_ →
        pf.soeStart = (PrimeSieve.mk 2 100 8 PrimeSieve.COUNT_TWINS).start_) ∧
      7 ≤ pf.soeStart) ∧
    (∃ vals, callbackPrimes record 0 [0xff, 0x06, 0, 0, 0, 0, 0, 0] 8 [] = Run.done vals ∧
      (∀ out, printPrimesLoop [0xff, 0x06, 0, 0, 0, 0, 0, 0] 8 (8 + 1) 0 0 out =
        some (out ++ lines vals)) ∧
      ∀ x ∈ vals, 0 + 7 ≤ x ∧ x ≠ 2 ∧ x ≠ 3 ∧ x ≠ 5) ∧
    (∀ i, ∀ g ∈ tupletGroups 256 i 0 [0xff, 0x06, 0, 0, 0, 0, 0, 0] 8, ∀ x ∈ g,
      0 + 7 ≤ x ∧ x ≠ 2 ∧ x ≠ 3 ∧ x ≠ 5) :=
  wheel_lower_bound 256 ⟨2, 100, 8, PrimeSieve.COUNT_TWINS⟩ [0, 0, 0, 0, 0, 0] 0
    [0xff, 0x06, 0, 0, 0, 0, 0, 0] 8 (by decide) (by decide) (by decide) (by decide)
    (by decide) (by decide)

set_option maxRecDepth 100000 in
/-- C15 (as stated, refuted): (1) with twins printed and counted and
`sieveSize = 1`, `print` writes one group for the byte 0x06 while `count`
adds 2 to the twin counter, because its unrolled loop also reads byte 1; (2)
with twins printed but not counted, `print` writes one group and `count`
leaves the twin counter as it was. -/
theorem print_count_agree_counterexample :
    ((PrimeFinder.new 256 ⟨0, 100, 8, PrimeSieve.COUNT_TWINS + PrimeSieve.PRINT_TWINS⟩
        [0, 0, 0, 0, 0, 0]).bind
        (fun pf => print 256 pf 0 [0x06, 0x06, 0, 0, 0, 0, 0, 0] 1 "") = some "(11, 13)\n" ∧
      ((PrimeFinder.new 256 ⟨0, 100, 8, PrimeSieve.COUNT_TWINS + PrimeSieve.PRINT_TWINS⟩
        [0, 0, 0, 0, 0, 0]).bind
        (fun pf => count pf [0x06, 0x06, 0, 0, 0, 0, 0, 0] 1)).map (fun pf => pf.counts_) =
        some [0, 2, 0, 0, 0, 0]) ∧
    ((PrimeFinder.new 256 ⟨0, 100, 8, PrimeSieve.PRINT_TWINS⟩ [0, 0, 0, 0, 0, 0]).bind
        (fun pf => print 256 pf 0 [0x06, 0, 0, 0, 0, 0, 0, 0] 8 "") = some "(11, 13)\n" ∧
      ((PrimeFinder.new 256 ⟨0, 100, 8, PrimeSieve.PRINT_TWINS⟩ [0, 0, 0, 0, 0, 0]).bind
        (fun pf => count pf [0x06, 0, 0, 0, 0, 0, 0, 0] 8)).map (fun pf => pf.counts_) =
        some [0, 0, 0, 0, 0, 0]) := by
  decide

/-- C15 (amended): for the kind `i` that `print` writes (the smallest
requested k-tuplet print kind) when it is also requested for counting, an
array that holds the 8-byte words that cover the buffer and whose bytes from
`sieveSize` up to the next multiple of 4 are zero, and the tables of
`init_kCounts`: the k-tuplet branch of `print` writes one line for each of
the k-tuplets of kind `i` of the bytes `0 .. sieveSize - 1`, and `count`
increases `counts_[i]` (64-bit arithmetic) by the number of these k-tuplets
(as `uint_t`), which is the sum of `kCounts_[i][byte]` over these bytes. -/
theorem print_count_agree (END : Nat) (pf : PrimeFinder) (low : Nat) (sieve : List Nat)
    (sieveSize : Nat) (out : String) (i : Nat) (hEND : 255 < END)
    (hb : ∀ v ∈ sieve, v < 256) (hslen : sieve.length < 2 ^ 32)
    (hin : 8 * ceilDiv sieveSize 8 ≤ sieve.length)
    (hpad : ∀ j, j < 4 * ceilDiv sieveSize 4 → sieveSize ≤ j → sieve.getD j 0 = 0)
    (hc : pf.counts_.length = 6) (htab : TablesBuilt END pf)
    (hi1 : 1 ≤ i) (hi5 : i ≤ 5) (hprint : pf.ps_.isPrint i = true)
    (hmin : ∀ k, k < i → 1 ≤ k → pf.ps_.isPrint k = false)
    (hcount : pf.ps_.isCount i = true) :
    ∃ pf1 c, count pf sieve sieveSize = some pf1 ∧ pf.counts_[i]? = some c ∧
      printTuplets END pf low sieve sieveSize out =
        some (out ++ groupsText (tupletGroups END i low sieve sieveSize)) ∧
      pf1.counts_[i]? =
        some (u64 (c + u32 (tupletGroups END i low sieve sieveSize).length)) ∧
      (tupletGroups END i low sieve sieveSize).length =
        tupletSum (tableOf END i) sieve sieveSize := by
  have hsz : sieveSize ≤ sieve.length := by rw [ceilDiv_eight] at hin; omega
  obtain ⟨pf1, h1, _, _, _, _, _, _, h8⟩ :=
    count_spec pf sieve sieveSize hb hslen hin hc (tablesBuilt_ready END pf htab)
  have hget : pf.counts_[i]? = some pf.counts_[i] := List.getElem?_eq_getElem (by omega)
  have ht : pf.kCounts_[i]? = some (tableOf END i) :=
    htab i (by rw [List.mem_range'_1]; omega) hcount
  have hlen := tupletGroups_length END i low sieve sieveSize hb
  refine ⟨pf1, pf.counts_[i], h1, hget,
    printTuplets_eq END pf low sieve sieveSize out i hEND hb hslen hsz hi1 hi5 hprint
      (fun k h1 h2 => hmin k h2 h1), ?_, hlen⟩
  have hi0 : ¬ i = 0 := by omega
  rw [h8 i, hget, hlen]
  simp only [Option.map_some', countedValue, hi0, if_false, hi5, hcount, and_self, if_true, ht,
    Option.getD_some]
  rw [tupletSum_padding (tableOf END i) sieve sieveSize (4 * ceilDiv sieveSize 4)
    (by rw [ceilDiv_four]; omega) (tableOf_zero END i hEND hi1 hi5) (fun j h1 h2 => hpad j h2 h1)]

set_option maxRecDepth 100000 in
/-- Witness of C15 (amended): twins printed and counted in a buffer of five
bytes in an array of eight. -/
theorem print_count_agree_witness :
    ∃ pf1 c, count (finderOf (PrimeSieve.COUNT_TWINS + PrimeSieve.PRINT_TWINS)
        [0, 5, 0, 0, 0, 0] [[], tableOf 256 1, [], [], [], []])
        [0xde, 0x06, 0, 0, 0x18, 0, 0, 0] 5 = some pf1 ∧
      (finderOf (PrimeSieve.COUNT_TWINS + PrimeSieve.PRINT_TWINS)
        [0, 5, 0, 0, 0, 0] [[], tableOf 256 1, [], [], [], []]).counts_[1]? = some c ∧
      printTuplets 256 (finderOf (PrimeSieve.COUNT_TWINS + PrimeSieve.PRINT_TWINS)
        [0, 5, 0, 0, 0, 0] [[], tableOf 256 1, [], [], [], []]) 30
        [0xde, 0x06, 0, 0, 0x18, 0, 0, 0] 5 "" =
        some ("" ++ groupsText (tupletGroups 256 1 30 [0xde, 0x06, 0, 0, 0x18, 0, 0, 0] 5)) ∧
      pf1.counts_[1]? =
        some (u64 (c + u32 (tupletGroups 256 1 30 [0xde, 0x06, 0, 0, 0x18, 0, 0, 0] 5).length)) ∧
      (tupletGroups 256 1 30 [0xde, 0x06, 0, 0, 0x18, 0, 0, 0] 5).length =
        tupletSum (tableOf 256 1) [0xde, 0x06, 0, 0, 0x18, 0, 0, 0] 5 :=
  print_count_agree 256 _ 30 [0xde, 0x06, 0, 0, 0x18, 0, 0, 0] 5 "" 1 (by decide) (by decide)
    (by decide) (by decide) (by decide) (by decide) (by decide) (by decide) (by decide)
    (by decide) (by decide) (by decide)

/-- C16: when at least one of `PRINT_TWINS` .. `PRINT_SEXTUPLETS` is set,
the loop `for (; !ps_.isPrint(i); i++);` of `print` ends with a kind `i` in
1..5 that is requested for printing while no kind from 1 to `i - 1` is, and
the k-tuplet branch of `print` returns and writes the k-tuplets of this one
kind and nothing else, whichever other k-tuplet print flags are set. -/
theorem print_kind_selection (END : Nat) (pf : PrimeFinder) (low : Nat) (sieve : List Nat)
    (sieveSize : Nat) (out : String) (hEND : 255 < END) (hb : ∀ v ∈ sieve, v < 256)
    (hslen : sieve.length < 2 ^ 32) (hin : sieveSize ≤ sieve.length)
    (hflag : pf.ps_.isFlagRange PrimeSieve.PRINT_TWINS PrimeSieve.PRINT_SEXTUPLETS = true) :
    ∃ i, selectKind pf.ps_ 32 1 = some i ∧ (1 ≤ i ∧ i ≤ 5) ∧ pf.ps_.isPrint i = true ∧
      (∀ k, 1 ≤ k → k < i → pf.ps_.isPrint k = false) ∧
      printTuplets END pf low sieve sieveSize out =
        some (out ++ groupsText (tupletGroups END i low sieve sieveSize)) := by
  rcases printTuplets_total END pf low sieve sieveSize out hEND hb hslen hin with
    ⟨hno, _⟩ | ⟨i, hi1, hi5, hp, hmin, h⟩
  · rw [hflag] at hno
    exact absurd hno (by decide)
  · exact ⟨i, selectKind_eq pf.ps_ i hp (by omega) 32 1 hi1 (by omega) hmin,
      ⟨hi1, hi5⟩, hp, hmin, h⟩

/-- Witness of C16: triplets and quintuplets are requested for printing. -/
theorem print_kind_selection_witness :
    ∃ i, selectKind (finderOf (PrimeSieve.PRINT_TRIPLETS + PrimeSieve.PRINT_QUINTUPLETS)
        [0, 0, 0, 0, 0, 0] emptyTables).ps_ 32 1 = some i ∧ (1 ≤ i ∧ i ≤ 5) ∧
      (finderOf (PrimeSieve.PRINT_TRIPLETS + PrimeSieve.PRINT_QUINTUPLETS)
        [0, 0, 0, 0, 0, 0] emptyTables).ps_.isPrint i = true ∧
      (∀ k, 1 ≤ k → k < i → (finderOf (PrimeSieve.PRINT_TRIPLETS + PrimeSieve.PRINT_QUINTUPLETS)
        [0, 0, 0, 0, 0, 0] emptyTables).ps_.isPrint k = false) ∧
      printTuplets 256 (finderOf (PrimeSieve.PRINT_TRIPLETS + PrimeSieve.PRINT_QUINTUPLETS)
        [0, 0, 0, 0, 0, 0] emptyTables) 0 [0x1f, 0x38] 2 "" =
        some ("" ++ groupsText (tupletGroups 256 i 0 [0x1f, 0x38] 2)) :=
  print_kind_selection 256 _ 0 [0x1f, 0x38] 2 "" (by decide) (by decide) (by decide)
    (by decide) (by decide)

/-- C17: let an array have exactly as many bytes as the size that is passed,
so that a read at an index at or beyond the size makes a function fault.  (1)
When `sieveSize` is a multiple of 8, for every flag configuration of the
object `pf` (six counters, tables of `init_kCounts`), `callbackPrimes` (with
any callback), `count` (popcount over `ceilDiv(sieveSize, 8)` words and the
unrolled table loop) and `print` do not fault: every index they read is below
`sieveSize`.  (2) When the size `n` is not a multiple of 4 and an object `pf2`
counts a kind `i` in 1..5, the unrolled loop of `count` faults: its last pass
starts at an index `j < n` and reads `j + 3 >= n`; so `count` faults, and with
three more bytes in the array the loop returns. -/
theorem buffer_bounds {σ : Type} (END : Nat) (pf : PrimeFinder) (cb : σ → Nat → Signal σ)
    (low : Nat) (sieve : List Nat) (sieveSize : Nat) (s : σ) (out : String)
    (pf2 : PrimeFinder) (sieve2 : List Nat) (n i : Nat) (hEND : 255 < END)
    (hc : pf.counts_.length = 6) (htab : TablesBuilt END pf)
    (hb : ∀ v ∈ sieve, v < 256) (hslen : sieve.length < 2 ^ 32)
    (hexact : sieve.length = sieveSize) (h8 : sieveSize % 8 = 0)
    (hc2 : pf2.counts_.length = 6) (htab2 : TablesBuilt END pf2)
    (hb2 : ∀ v ∈ sieve2, v < 256) (hslen2 : sieve2.length + 4 < 2 ^ 32)
    (hexact2 : sieve2.length = n) (h4 : n % 4 ≠ 0)
    (hi1 : 1 ≤ i) (hi5 : i ≤ 5) (hcount : pf2.ps_.isCount i = true) :
    (callbackPrimes cb low sieve sieveSize s ≠ Run.fault ∧
      (∃ pf1, count pf sieve sieveSize = some pf1) ∧
      ∃ out1, print END pf low sieve sieveSize out = some out1) ∧
    (countLoop pf2 i sieve2 n (n + 1) 0 0 = none ∧
      (∃ j, j % 4 = 0 ∧ j < n ∧ n ≤ j + 3 ∧ kCountAt pf2 i sieve2 (j + 3) = none) ∧
      count pf2 sieve2 n = none ∧
      ∃ sum, countLoop pf2 i (sieve2 ++ [0, 0, 0]) n (n + 1) 0 0 = some sum) := by
  constructor
  · have hin : 8 * ceilDiv sieveSize 8 ≤ sieve.length := by
      rw [ceilDiv_eight_mul _ h8, hexact]
    refine ⟨?_, ?_, print_total END pf low sieve sieveSize out hEND hb hslen hin⟩
    · rw [callbackPrimes_eq cb low sieve sieveSize s hb hslen hin]
      exact deliver_ne_fault cb _ s
    · obtain ⟨pf1, h1, _⟩ :=
        count_spec pf sieve sieveSize hb hslen hin hc (tablesBuilt_ready END pf htab)
      exact ⟨pf1, h1⟩
  · have hQ : 1 ≤ ceilDiv n 4 := by rw [ceilDiv_four]; omega
    have hloop : ∀ (pf' : PrimeFinder) (k : Nat),
        countLoop pf' k sieve2 n (n + 1) 0 0 = none := by
      intro pf' k
      have := countLoop_outside pf' k sieve2 n hexact2 h4 hslen2
        (ceilDiv n 4) 0 (n + 1) 0 (by omega) hQ
      rw [Nat.mul_zero] at this
      exact this
    refine ⟨hloop pf2 i, ⟨4 * (ceilDiv n 4 - 1), by omega, ?_, ?_, ?_⟩, ?_, ?_⟩
    · rw [ceilDiv_four]; omega
    · rw [ceilDiv_four]; omega
    · exact kCountAt_outside pf2 i sieve2 _ (by rw [ceilDiv_four, hexact2]; omega)
    · unfold count
      cases hp : countPrimes pf2 sieve2 n with
      | none => rfl
      | some pf1 =>
        simp only
        have hps : pf1.ps_ = pf2.ps_ ∧ pf1.counts_.length = pf2.counts_.length := by
          unfold countPrimes at hp
          by_cases hf : pf2.ps_.isFlag PrimeSieve.COUNT_PRIMES = true
          · rw [if_pos hf] at hp
            cases hpop : popcount sieve2 (ceilDiv n 8) with
            | none => rw [hpop] at hp; exact Option.noConfusion hp
            | some m =>
              rw [hpop] at hp
              simp only at hp
              unfold addCount at hp
              cases hget : pf2.counts_[0]? with
              | none => rw [hget] at hp; exact Option.noConfusion hp
              | some c =>
                rw [hget] at hp
                simp only [Option.some.injEq] at hp
                subst hp
                exact ⟨rfl, by simp⟩
          · rw [if_neg hf] at hp
            simp only [Option.some.injEq] at hp
            subst hp
            exact ⟨rfl, rfl⟩
        apply countKinds_outside sieve2 n hloop
        refine ⟨i, ?_, by rw [hps.1]; exact hcount⟩
        rw [hps.2, hc2, List.mem_range'_1]
        omega
    · have hb' : ∀ v ∈ sieve2 ++ [0, 0, 0], v < 256 := by
        intro v hv
        rcases List.mem_append.1 hv with h | h
        · exact hb2 v h
        · simp at h; omega
      have ht : pf2.kCounts_[i]? = some (tableOf END i) :=
        htab2 i (by rw [List.mem_range'_1]; omega) hcount
      exact ⟨_, countLoop_top pf2 i (sieve2 ++ [0, 0, 0]) (tableOf END i) n hb'
        (by simp; omega) (by rw [ceilDiv_four]; simp; omega) ht (tableOf_length END i)⟩

set_option maxRecDepth 100000 in
/-- Witness of C17: an array of eight bytes read by an object that only
counts primes and streams them to the callback, and an array of five bytes
read by an object that counts twins. -/
theorem buffer_bounds_witness :
    (callbackPrimes (store 3) 0 [0xff, 0x06, 0, 0, 0, 0, 0, 0x80] 8 [] ≠ Run.fault ∧
      (∃ pf1, count (finderOf (PrimeSieve.COUNT_PRIMES + PrimeSieve.CALLBACK)
          [0, 0, 0, 0, 0, 0] emptyTables) [0xff, 0x06, 0, 0, 0, 0, 0, 0x80] 8 = some pf1) ∧
      ∃ out1, print 256 (finderOf (PrimeSieve.COUNT_PRIMES + PrimeSieve.CALLBACK)
          [0, 0, 0, 0, 0, 0] emptyTables) 0 [0xff, 0x06, 0, 0, 0, 0, 0, 0x80] 8 "" =
          some out1) ∧
    (countLoop (finderOf (PrimeSieve.COUNT_TWINS + PrimeSieve.PRINT_TWINS) [0, 0, 0, 0, 0, 0]
          [[], tableOf 256 1, [], [], [], []]) 1 [0x06, 0, 0, 0, 0x18] 5 (5 + 1) 0 0 = none ∧
      (∃ j, j % 4 = 0 ∧ j < 5 ∧ 5 ≤ j + 3 ∧
        kCountAt (finderOf (PrimeSieve.COUNT_TWINS + PrimeSieve.PRINT_TWINS) [0, 0, 0, 0, 0, 0]
          [[], tableOf 256 1, [], [], [], []]) 1 [0x06, 0, 0, 0, 0x18] (j + 3) = none) ∧
      count (finderOf (PrimeSieve.COUNT_TWINS + PrimeSieve.PRINT_TWINS) [0, 0, 0, 0, 0, 0]
          [[], tableOf 256 1, [], [], [], []]) [0x06, 0, 0, 0, 0x18] 5 = none ∧
      ∃ sum, countLoop (finderOf (PrimeSieve.COUNT_TWINS + PrimeSieve.PRINT_TWINS)
          [0, 0, 0, 0, 0, 0] [[], tableOf 256 1, [], [], [], []]) 1
          ([0x06, 0, 0, 0, 0x18] ++ [0, 0, 0]) 5 (5 + 1) 0 0 = some sum) :=
  buffer_bounds 256 (finderOf (PrimeSieve.COUNT_PRIMES + PrimeSieve.CALLBACK)
      [0, 0, 0, 0, 0, 0] emptyTables) (store 3) 0 [0xff, 0x06, 0, 0, 0, 0, 0, 0x80] 8 [] ""
    (finderOf (PrimeSieve.COUNT_TWINS + PrimeSieve.PRINT_TWINS) [0, 0, 0, 0, 0, 0]
      [[], tableOf 256 1, [], [], [], []])
    [0x06, 0, 0, 0, 0x18] 5 1 (by decide) (by decide) (by decide) (by decide) (by decide)
    (by decide) (by decide) (by decide) (by decide) (by decide) (by decide) (by decide)
    (by decide) (by decide) (by decide) (by decide)

/-- C18: for every flag configuration the constructor returns an object
whose tables are available: for a kind `i` in 1..5 with `isCount(i)`, the
guard `isFlag(COUNT_TWINS, COUNT_SEXTUPLETS)` of the constructor holds,
`kCounts_[i]` has been built with exactly 256 entries, and the read
`kCounts_[i][sieve[j]]` is in range for every byte of every array.  A call of
`count` that returns changes neither the flags nor the tables, so this holds
at every later call of `count` as well. -/
theorem tables_available (END : Nat) (ps : PrimeSieve) (counts : List Nat) (hEND : 255 < END)
    (hc : counts.length = 6) :
    ∃ pf, PrimeFinder.new END ps counts = some pf ∧ pf.ps_ = ps ∧ TablesBuilt END pf ∧
      (∀ i, 1 ≤ i → i ≤ 5 → ps.isCount i = true →
        ps.isFlagRange PrimeSieve.COUNT_TWINS PrimeSieve.COUNT_SEXTUPLETS = true ∧
        ∃ t, pf.kCounts_[i]? = some t ∧ t.length = 256 ∧
          ∀ (sieve : List Nat) (j : Nat), (∀ v ∈ sieve, v < 256) → j < sieve.length →
            ∃ c, kCountAt pf i sieve j = some c) ∧
      ∀ (sieve : List Nat) (sieveSize : Nat) (pf1 : PrimeFinder),
        count pf sieve sieveSize = some pf1 →
          pf1.ps_ = ps ∧ pf1.kCounts_ = pf.kCounts_ ∧ TablesBuilt END pf1 := by
  obtain ⟨pf, h1, h2, _, _, _, _, _, h8⟩ := new_spec END ps counts hEND hc
  have htab : ∀ i, 1 ≤ i → i ≤ 5 → ps.isCount i = true →
      pf.kCounts_[i]? = some (tableOf END i) := by
    intro i hi1 hi5 hcount
    rw [h8 i]
    simp [isFlagRange_count ps i hi1 hi5 hcount, hi1, hi5, hcount]
  have hbuilt : TablesBuilt END pf := by
    intro k hk hcount
    rw [List.mem_range'_1] at hk
    rw [h2] at hcount
    exact htab k hk.1 (by omega) hcount
  refine ⟨pf, h1, h2, hbuilt, ?_, ?_⟩
  · intro i hi1 hi5 hcount
    refine ⟨isFlagRange_count ps i hi1 hi5 hcount, tableOf END i, htab i hi1 hi5 hcount,
      tableOf_length END i, ?_⟩
    intro sieve j hb hj
    exact ⟨_, kCountAt_eq pf i sieve (tableOf END i) j hb (htab i hi1 hi5 hcount)
      (tableOf_length END i) hj⟩
  · intro sieve sieveSize pf1 hcount
    obtain ⟨a1, a2⟩ := count_preserves pf pf1 sieve sieveSize hcount
    refine ⟨by rw [a1, h2], a2, ?_⟩
    intro k hk hck
    rw [a1] at hck
    rw [a2]
    exact hbuilt k hk hck

set_option maxRecDepth 100000 in
/-- Witness of C18: twins and quadruplets are counted. -/
theorem tables_available_witness :
    ∃ pf, PrimeFinder.new 256 ⟨0, 100, 8, PrimeSieve.COUNT_TWINS + PrimeSieve.COUNT_QUADRUPLETS⟩
        [0, 0, 0, 0, 0, 0] = some pf ∧
      pf.ps_ = ⟨0, 100, 8, PrimeSieve.COUNT_TWINS + PrimeSieve.COUNT_QUADRUPLETS⟩ ∧
      TablesBuilt 256 pf ∧
      (∀ i, 1 ≤ i → i ≤ 5 →
        (PrimeSieve.mk 0 100 8 (PrimeSieve.COUNT_TWINS + PrimeSieve.COUNT_QUADRUPLETS)).isCount i
          = true →
        (PrimeSieve.mk 0 100 8 (PrimeSieve.COUNT_TWINS + PrimeSieve.COUNT_QUADRUPLETS)).isFlagRange
          PrimeSieve.COUNT_TWINS PrimeSieve.COUNT_SEXTUPLETS = true ∧
        ∃ t, pf.kCounts_[i]? = some t ∧ t.length = 256 ∧
          ∀ (sieve : List Nat) (j : Nat), (∀ v ∈ sieve, v < 256) → j < sieve.length →
            ∃ c, kCountAt pf i sieve j = some c) ∧
      ∀ (sieve : List Nat) (sieveSize : Nat) (pf1 : PrimeFinder),
        count pf sieve sieveSize = some pf1 →
          pf1.ps_ = ⟨0, 100, 8, PrimeSieve.COUNT_TWINS + PrimeSieve.COUNT_QUADRUPLETS⟩ ∧
          pf1.kCounts_ = pf.kCounts_ ∧ TablesBuilt 256 pf1 :=
  tables_available 256 ⟨0, 100, 8, PrimeSieve.COUNT_TWINS + PrimeSieve.COUNT_QUADRUPLETS⟩
    [0, 0, 0, 0, 0, 0] (by decide) (by decide)

/-- C19: for `END` above 255, a kind `i` in 1..5 and a byte value `v` in
0..255, the scan `for (b = kBitmasks_[i]; *b <= v; b++)` over row `i` stays in
the row: the entries it tests are an initial part of the masks before `END`,
at most 4, so that it reads at most the columns 0..4; the scan of
`init_kCounts` returns the number of matches among the tested entries and the
scan of `print` writes their groups.  The masks before `END` are strictly
ascending.  The bound on `END` cannot be dropped: with `END = 255` the scan of
the triplet row for the byte value 255 leaves the row. -/
theorem sentinel_safety (END i v low j : Nat) (out : String) (hEND : 255 < END)
    (hi1 : 1 ≤ i) (hi5 : i ≤ 5) (hv : v < 256) :
    (∃ row tested, (kBitmasks_ END)[i]? = some row ∧ row.length = 5 ∧
      scanBitmasks row v = some tested ∧
      tested = (maskList END i).takeWhile (fun m => decide (m ≤ v)) ∧
      tested.length ≤ 4 ∧ tested.length + 1 ≤ row.length ∧
      countBitmasks row v 0 = some (matchCount tested v) ∧
      printBitmasks (u64 (low + NUMBERS_PER_BYTE * j)) v row out =
        some (out ++ groupsText ((tested.filter (fun m => v &&& m == m)).map
          (fun m => decodeByte low j m)))) ∧
    (maskList END i).Pairwise (fun a b => a < b) ∧
    (scanBitmasks (((kBitmasks_ 255)[2]?).getD []) 255 = none ∧
      countBitmasks (((kBitmasks_ 255)[2]?).getD []) 255 0 = none) := by
  obtain ⟨rest, hrow, hs, hlen, hm⟩ := row_split END i hEND hi1 hi5
  have hpos := maskList_pos END i hEND hi1 hi5
  have hrl : (maskList END i ++ END :: rest).length = 5 := by
    have h5 : ∀ r ∈ kBitmasks_ END, r.length = 5 := by
      intro r hr
      simp only [kBitmasks_, List.mem_cons, List.mem_singleton, List.not_mem_nil, or_false] at hr
      rcases hr with rfl | rfl | rfl | rfl | rfl | rfl <;> rfl
    exact h5 _ (List.getElem?_mem hrow)
  have hscan := scanBitmasks_eq END v rest (by omega) (maskList END i)
  have htl : ((maskList END i).takeWhile (fun m => decide (m ≤ v))).length ≤ 4 :=
    Nat.le_trans (List.takeWhile_sublist _).length_le hlen
  refine ⟨⟨_, _, hrow, hrl, hscan, rfl, htl, by omega, ?_, ?_⟩, hs, by decide⟩
  · rw [countBitmasks_scan v _ 0 (by omega), hscan]
    simp
  · exact printBitmasks_scan END low j _ v rest (by omega) (by unfold u64; omega) _ out
      (fun m h => ⟨hpos m h, hm m h⟩)

/-- Witness of C19: the triplet row and the byte value 0x1f. -/
theorem sentinel_safety_witness :
    (∃ row tested, (kBitmasks_ 256)[2]? = some row ∧ row.length = 5 ∧
      scanBitmasks row 0x1f = some tested ∧
      tested = (maskList 256 2).takeWhile (fun m => decide (m ≤ 0x1f)) ∧
      tested.length ≤ 4 ∧ tested.length + 1 ≤ row.length ∧
      countBitmasks row 0x1f 0 = some (matchCount tested 0x1f) ∧
      printBitmasks (u64 (0 + NUMBERS_PER_BYTE * 1)) 0x1f row "" =
        some ("" ++ groupsText ((tested.filter (fun m => 0x1f &&& m == m)).map
          (fun m => decodeByte 0 1 m)))) ∧
    (maskList 256 2).Pairwise (fun a b => a < b) ∧
    (scanBitmasks (((kBitmasks_ 255)[2]?).getD []) 255 = none ∧
      countBitmasks (((kBitmasks_ 255)[2]?).getD []) 255 0 = none) :=
  sentinel_safety 256 2 0x1f 0 1 "" (by decide) (by decide) (by decide) (by decide)
end primesieve
